import Mathlib

/-!
# Style extraction of `templateParser.js`

A shallow embedding of `src/js/templateParser.js`.

* JavaScript strings are lists of characters (`Str`).  Every string that the extractor hands to
  `toUpperCase`, `length` or an index is ASCII (it was matched by a hex or `rgb(...)` pattern), so
  on those strings code points and UTF-16 code units coincide; `toUpperCase` is embedded on ASCII
  letters.
* JavaScript numbers are IEEE-754 binary64 values.  `Mag` is a non-negative binary64 value and
  `roundMag` is round-to-nearest, ties-to-even, of an exact fraction; every arithmetic step of the
  source is the exact operation followed by `roundMag`.
* The regular expressions of the source are embedded as hand-written matchers over `Str`; each
  one is deterministic because the greedy choice is the only one that can succeed, except for
  `\s*([^;]+)` in the `font-family` pattern, whose single backtracking step is spelled out.
* The input of the extraction is what the conversion collaborator (mammoth) and the DOM parser
  deliver: the converted markup, the raw text, and the `style` attribute of every element that
  carries one, in document order.
-/

namespace TemplateParser

/-- A JavaScript string. -/
abbrev Str := List Char

/-! ## Characters and strings -/

/-- The class `\s` of JavaScript regular expressions, which is also what `trim` strips. -/
def isJsSpace (c : Char) : Bool :=
  let n := c.toNat
  n == 9 || n == 10 || n == 11 || n == 12 || n == 13 || n == 32 || n == 160 || n == 0x1680
    || (0x2000 ≤ n && n ≤ 0x200A) || n == 0x2028 || n == 0x2029 || n == 0x202F
    || n == 0x205F || n == 0x3000 || n == 0xFEFF

/-- The class `[a-fA-F0-9]`. -/
def isHexDigit (c : Char) : Bool :=
  ('0' ≤ c && c ≤ '9') || ('a' ≤ c && c ≤ 'f') || ('A' ≤ c && c ≤ 'F')

/-- The class `\d`. -/
def isDecDigit (c : Char) : Bool := '0' ≤ c && c ≤ '9'

/-- `String.prototype.toUpperCase` on a text whose letters are letters of ASCII, as the
hexadecimal digits of a color are: `Char.toUpper` maps `a` to `z` only, and a letter outside
ASCII, which JavaScript maps as well (`ß` becomes `SS`), is left as it is. -/
def toUpperCase (s : Str) : Str := s.map Char.toUpper

/-- `String.prototype.trim`. -/
def trim (s : Str) : Str :=
  ((s.dropWhile isJsSpace).reverse.dropWhile isJsSpace).reverse

/-- `String.prototype.padStart(n, c)` for a one-character filler. -/
def padStart (n : Nat) (c : Char) (s : Str) : Str :=
  List.replicate (n - s.length) c ++ s

/-- `String.prototype.substr(start, len)`. -/
def substr (s : Str) (start len : Nat) : Str := (s.drop start).take len

/-- Matches the literal `lit` (given in lower case) at the start of `s`, ignoring case as the
`i` flag does, and returns what follows it. -/
def litCI : Str → Str → Option Str
  | [], s => some s
  | _ :: _, [] => none
  | l :: ls, c :: cs => if c.toLower == l then litCI ls cs else none

/-- An insertion-ordered `Set`: `add` appends a value that is not yet a member. -/
def setAdd {α : Type} [DecidableEq α] (acc : List α) (x : α) : List α :=
  if x ∈ acc then acc else acc ++ [x]

/-- The contents of `new Set(xs)` as `Array.from` lists them: first occurrences, in order. -/
def setOf {α : Type} [DecidableEq α] (xs : List α) : List α :=
  xs.foldl setAdd []

/-! ## Binary64 arithmetic -/

/-- Floor of the binary logarithm, by recursion on a fuel that the argument itself bounds. -/
def log2Fuel : Nat → Nat → Nat
  | 0, _ => 0
  | fuel + 1, n => if n < 2 then 0 else log2Fuel fuel (n / 2) + 1

/-- Floor of the binary logarithm of a positive number. -/
def ilog2 (n : Nat) : Nat := log2Fuel n n

/-- A non-negative binary64 value: `mant * 2 ^ expo`, or `+Infinity`. -/
inductive Mag where
  | fin (mant : Nat) (expo : Int)
  | inf
  deriving DecidableEq, Repr

/-- Floor of the binary logarithm of `num / den`, for positive `num` and `den`: the difference
of the two logarithms, or one less. -/
def ratioLog2 (num den : Nat) : Int :=
  let l0 : Int := (ilog2 num : Int) - (ilog2 den : Int)
  let ge : Bool := if 0 ≤ l0 then den * 2 ^ l0.toNat ≤ num else den ≤ num * 2 ^ (-l0).toNat
  if ge then l0 else l0 - 1

/-- The binary64 value nearest to `num / den` (ties to the even significand): the significand
has 53 bits, the exponent of its last bit is at least `-1074`, and a result of `2 ^ 1024` or more
(a significand of `2 ^ 53` at exponent `971`, or any larger exponent) is `+Infinity`. -/
def roundMag (num den : Nat) : Mag :=
  if num = 0 ∨ den = 0 then .fin 0 0
  else
    let e : Int := max (ratioLog2 num den - 52) (-1074)
    let n1 : Nat := if 0 ≤ e then num else num * 2 ^ (-e).toNat
    let d1 : Nat := if 0 ≤ e then den * 2 ^ e.toNat else den
    let q := n1 / d1
    let r := n1 % d1
    let q1 := if d1 < 2 * r ∨ (2 * r = d1 ∧ q % 2 = 1) then q + 1 else q
    if 971 < e ∨ (e = 971 ∧ 2 ^ 53 ≤ q1) then .inf else .fin q1 e

/-- The binary64 value nearest to `m * 2 ^ e`. -/
def roundDyadic (m : Nat) (e : Int) : Mag :=
  if 0 ≤ e then roundMag (m * 2 ^ e.toNat) 1 else roundMag m (2 ^ (-e).toNat)

/-- The product of a non-negative binary64 value and the finite value `m2 * 2 ^ e2 > 0`. -/
def Mag.scale : Mag → Nat → Int → Mag
  | .fin m1 e1, m2, e2 => roundDyadic (m1 * m2) (e1 + e2)
  | .inf, _, _ => .inf

/-- Multiplication of non-negative binary64 values (`none` is NaN). -/
def Mag.mul : Mag → Mag → Option Mag
  | .fin m1 e1, .fin m2 e2 => some ((Mag.fin m1 e1).scale m2 e2)
  | .fin m _, .inf => if m = 0 then none else some .inf
  | .inf, .fin m _ => if m = 0 then none else some .inf
  | .inf, .inf => some .inf

/-- Division of non-negative binary64 values (`none` is NaN). -/
def Mag.div : Mag → Mag → Option Mag
  | .fin m1 e1, .fin m2 e2 =>
    if m2 = 0 then (if m1 = 0 then none else some .inf)
    else
      let e := min e1 e2
      some (roundMag (m1 * 2 ^ (e1 - e).toNat) (m2 * 2 ^ (e2 - e).toNat))
  | .fin _ _, .inf => some (.fin 0 0)
  | .inf, .fin _ _ => some .inf
  | .inf, .inf => none

/-- `Math.round` of a non-negative value: the nearest integer, a tie going up. -/
def Mag.round : Mag → ℕ∞
  | .fin m e =>
    if 0 ≤ e then ((m * 2 ^ e.toNat : Nat) : ℕ∞)
    else (((2 * m + 2 ^ (-e).toNat) / 2 ^ ((-e).toNat + 1) : Nat) : ℕ∞)
  | .inf => ⊤

/-- A binary64 value: NaN, or a sign and a magnitude. -/
inductive Dbl where
  | nan
  | num (neg : Bool) (mag : Mag)
  deriving DecidableEq, Repr

/-- The exact integer `z` as a binary64 value. -/
def Dbl.ofInt (z : Int) : Dbl := .num (decide (z < 0)) (roundMag z.natAbs 1)

/-- The binary64 value of a non-negative decimal literal `num / den` of the source text. -/
def Dbl.lit (num den : Nat) : Dbl := .num false (roundMag num den)

/-- Binary64 multiplication. -/
def Dbl.mul : Dbl → Dbl → Dbl
  | .num s1 a, .num s2 b =>
    match a.mul b with
    | some c => .num (s1 != s2) c
    | none => .nan
  | _, _ => .nan

/-- Binary64 division. -/
def Dbl.div : Dbl → Dbl → Dbl
  | .num s1 a, .num s2 b =>
    match a.div b with
    | some c => .num (s1 != s2) c
    | none => .nan
  | _, _ => .nan

/-- Binary64 addition. -/
def Dbl.add : Dbl → Dbl → Dbl
  | .num s1 (.fin m1 e1), .num s2 (.fin m2 e2) =>
    let e := min e1 e2
    let x1 : Int := (if s1 then -1 else 1) * ((m1 * 2 ^ (e1 - e).toNat : Nat) : Int)
    let x2 : Int := (if s2 then -1 else 1) * ((m2 * 2 ^ (e2 - e).toNat : Nat) : Int)
    let s := x1 + x2
    .num (if s = 0 then s1 && s2 else decide (s < 0)) (roundDyadic s.natAbs e)
  | .num s1 .inf, .num s2 .inf => if s1 = s2 then .num s1 .inf else .nan
  | .num s1 .inf, .num _ (.fin _ _) => .num s1 .inf
  | .num _ (.fin _ _), .num s2 .inf => .num s2 .inf
  | _, _ => .nan

/-- The comparison `<` of binary64 values; it is false when an operand is NaN. -/
def Dbl.lt : Dbl → Dbl → Bool
  | .num s1 (.fin m1 e1), .num s2 (.fin m2 e2) =>
    let e := min e1 e2
    let x1 : Int := (if s1 then -1 else 1) * ((m1 * 2 ^ (e1 - e).toNat : Nat) : Int)
    let x2 : Int := (if s2 then -1 else 1) * ((m2 * 2 ^ (e2 - e).toNat : Nat) : Int)
    decide (x1 < x2)
  | .num s1 .inf, .num s2 .inf => s1 && !s2
  | .num s1 .inf, .num _ (.fin _ _) => s1
  | .num _ (.fin _ _), .num s2 .inf => !s2
  | _, _ => false

/-! ## `parseInt`, `parseFloat` and `Number.prototype.toString(16)` -/

/-- The value of an alphanumeric character as a digit (`a` and `A` are 10). -/
def digitVal (c : Char) : Nat :=
  if isDecDigit c then c.toNat - 48
  else if 'a' ≤ c ∧ c ≤ 'z' then c.toNat - 87
  else if 'A' ≤ c ∧ c ≤ 'Z' then c.toNat - 55
  else 36

/-- The number that a string of digits denotes in the given radix. -/
def digitsValue (radix : Nat) (ds : Str) : Nat :=
  ds.foldl (fun acc c => acc * radix + digitVal c) 0

/-- `parseInt(s, radix)` for a radix of 10 or 16, or for no radix (`none`): leading white space
and a sign are skipped, a `0x` prefix selects radix 16 unless the radix is 10, and the longest
prefix of digits is the value, rounded to the nearest binary64 value; NaN when there is no
digit.  (The standard lets an implementation round a decimal text of more than 20 significant
digits less precisely; the embedding rounds every text correctly.) -/
def parseInt (s : Str) (radix : Option Nat) : Dbl :=
  let s1 := s.dropWhile isJsSpace
  let neg := s1.head? == some '-'
  let s2 := if s1.head? == some '-' || s1.head? == some '+' then s1.tail else s1
  let r0 := radix.getD 10
  let hasPrefix := r0 != 10 || radix == none
  let pre := hasPrefix && (s2.take 2 == ['0', 'x'] || s2.take 2 == ['0', 'X'])
  let r := if pre then 16 else r0
  let s3 := if pre then s2.drop 2 else s2
  let z := s3.takeWhile (fun c => decide (digitVal c < r))
  if z = [] then .nan else .num neg (roundMag (digitsValue r z) 1)

/-- `parseFloat` of text of the form `\d+` or `\d+\.\d+`, given as its two runs of digits: the
binary64 value nearest to the decimal value. -/
def parseFloatDigits (intPart fracPart : Str) : Mag :=
  roundMag (digitsValue 10 (intPart ++ fracPart)) (10 ^ fracPart.length)

/-- `Number.prototype.toString(16)` of an integral value. -/
def toStringHex : Dbl → Str
  | .nan => "NaN".toList
  | .num neg .inf => (if neg then ['-'] else []) ++ "Infinity".toList
  | .num neg (.fin m e) =>
    let v : Nat := if 0 ≤ e then m * 2 ^ e.toNat else m / 2 ^ (-e).toNat
    (if neg && v != 0 then ['-'] else []) ++ Nat.toDigits 16 v

/-! ## `normalizeColor` and `isColorDark` -/

/-- The pattern `/rgb\(\s*(\d+)\s*,\s*(\d+)\s*,\s*(\d+)\s*\)/i` anchored at the start of `s`:
the three captured runs of digits. -/
def rgbAt (s : Str) : Option (Str × Str × Str) :=
  match litCI "rgb(".toList s with
  | none => none
  | some t0 =>
    let t1 := t0.dropWhile isJsSpace
    let r := t1.takeWhile isDecDigit
    let t2 := (t1.dropWhile isDecDigit).dropWhile isJsSpace
    match t2 with
    | ',' :: t3 =>
      let t4 := t3.dropWhile isJsSpace
      let g := t4.takeWhile isDecDigit
      let t5 := (t4.dropWhile isDecDigit).dropWhile isJsSpace
      match t5 with
      | ',' :: t6 =>
        let t7 := t6.dropWhile isJsSpace
        let b := t7.takeWhile isDecDigit
        let t8 := (t7.dropWhile isDecDigit).dropWhile isJsSpace
        match t8 with
        | ')' :: _ => if r ≠ [] ∧ g ≠ [] ∧ b ≠ [] then some (r, g, b) else none
        | _ => none
      | _ => none
    | _ => none

/-- The first position of `s` at which the anchored pattern `m` matches, as `String.match` of a
pattern without the `g` flag finds it. -/
def firstMatch {α : Type} (m : Str → Option α) : Str → Option α
  | [] => m []
  | c :: cs =>
    match m (c :: cs) with
    | some a => some a
    | none => firstMatch m cs

/-- One channel of `normalizeColor`: `parseInt(digits).toString(16).padStart(2, '0')`. -/
def channelHex (digits : Str) : Str :=
  padStart 2 '0' (toStringHex (parseInt digits none))

/-- The function `normalizeColor` of the source. -/
def normalizeColor (color : Str) : Option Str :=
  if color = [] then none
  else if color.head? = some '#' then
    match color with
    | [_, c1, c2, c3] => some ['#', c1, c1, c2, c2, c3, c3]
    | _ => some (toUpperCase color)
  else
    match firstMatch rgbAt color with
    | some (r, g, b) => some (toUpperCase ('#' :: (channelHex r ++ channelHex g ++ channelHex b)))
    | none => none

/-- The function `isColorDark` of the source, on a value that may be `null`. -/
def isColorDark (hexColor : Option Str) : Bool :=
  match hexColor with
  | none => false
  | some s =>
    if s = [] || s.head? != some '#' then false
    else
      let hex := s.erase '#'
      let r := parseInt (substr hex 0 2) (some 16)
      let g := parseInt (substr hex 2 2) (some 16)
      let b := parseInt (substr hex 4 2) (some 16)
      let luminance :=
        ((((Dbl.lit 299 1000).mul r).add ((Dbl.lit 587 1000).mul g)).add
          ((Dbl.lit 114 1000).mul b)).div (Dbl.ofInt 255)
      luminance.lt (Dbl.lit 5 10)

/-! ## The patterns of the extraction -/

/-- The alternation `(#[a-fA-F0-9]{6}|#[a-fA-F0-9]{3}|rgb\([^)]+\))` anchored at the start of
`s`: the text it matches. -/
def colorValueAt (s : Str) : Option Str :=
  match s with
  | '#' :: t =>
    if (t.take 6).length = 6 ∧ (t.take 6).all isHexDigit then some ('#' :: t.take 6)
    else if (t.take 3).length = 3 ∧ (t.take 3).all isHexDigit then some ('#' :: t.take 3)
    else none
  | _ =>
    match litCI "rgb(".toList s with
    | none => none
    | some t =>
      let body := t.takeWhile (fun c => c != ')')
      if body ≠ [] ∧ (t.dropWhile (fun c => c != ')')) ≠ [] then
        some (s.take 4 ++ body ++ [')'])
      else none

/-- The pattern `/<name>:\s*(#[a-fA-F0-9]{6}|#[a-fA-F0-9]{3}|rgb\([^)]+\))/i` anchored at the
start of `s`, for a property name given in lower case: the whole text it matches. -/
def colorDeclAt (name : Str) (s : Str) : Option Str :=
  match litCI (name ++ [':']) s with
  | none => none
  | some t =>
    match colorValueAt (t.dropWhile isJsSpace) with
    | some v => some (s.take (name.length + 1) ++ t.takeWhile isJsSpace ++ v)
    | none => none

/-- All matches of a pattern with the `g` flag (`String.match`), for a pattern that matches no
empty text: after a match the search resumes right behind it (`skip` counts the characters of
the current match still to pass). -/
def matchAll (m : Str → Option Str) : Str → Nat → List Str
  | [], _ => []
  | _ :: cs, skip + 1 => matchAll m cs skip
  | c :: cs, 0 =>
    match m (c :: cs) with
    | some t => t :: matchAll m cs (t.length - 1)
    | none => matchAll m cs 0

/-- The pattern `/<name>:\s*/i` anchored at the start of `s`: the number of characters matched. -/
def declPrefixAt (name : Str) (s : Str) : Option Nat :=
  match litCI (name ++ [':']) s with
  | none => none
  | some t => some (name.length + 1 + (t.takeWhile isJsSpace).length)

/-- `s.replace(pattern, '')` for a pattern without the `g` flag that matches no empty text: the
first match is deleted. -/
def deleteFirst (m : Str → Option Nat) : Str → Str
  | [] => []
  | c :: cs =>
    match m (c :: cs) with
    | some n => (c :: cs).drop n
    | none => c :: deleteFirst m cs

/-- The colors that one `style` attribute contributes, in the order in which the source adds
them to `colorMatches`: first the matches of the `color:` pattern, then those of the
`background-color:` pattern, every match stripped of its property name, trimmed and normalized
(`null` is `none`). -/
def styleColors (style : Str) : List (Option Str) :=
  (matchAll (colorDeclAt "color".toList) style 0).map
      (fun c => normalizeColor (trim (deleteFirst (declPrefixAt "color".toList) c)))
  ++ (matchAll (colorDeclAt "background-color".toList) style 0).map
      (fun c => normalizeColor (trim (deleteFirst (declPrefixAt "background-color".toList) c)))

/-- The pattern `/font-family:\s*([^;]+)/i` anchored at the start of `s`: its capture group.
`\s*` takes the whole run of white space unless nothing but white space precedes the next `;`
(or the end), in which case it gives back its last character to `[^;]+`. -/
def fontFamilyAt (s : Str) : Option Str :=
  match litCI "font-family:".toList s with
  | none => none
  | some t =>
    let body := t.takeWhile (fun c => c != ';')
    let ws := body.takeWhile isJsSpace
    if body = [] then none
    else if ws.length < body.length then some (body.drop ws.length)
    else some (body.drop (body.length - 1))

/-- The font name that one `style` attribute contributes: the capture group up to its first
comma (`split(',')[0]`), without the double quotes (code 34) and single quotes (code 39) that
`replace` deletes, trimmed. -/
def styleFont (style : Str) : Option Str :=
  match firstMatch fontFamilyAt style with
  | none => none
  | some cap =>
    some (trim ((cap.takeWhile (fun c => c != ',')).filter
      (fun c => c != Char.ofNat 34 && c != Char.ofNat 39)))

/-- The units of the `font-size` pattern. -/
inductive SizeUnit where
  | px | pt | em | rem
  deriving DecidableEq, Repr

/-- The alternation `(px|pt|em|rem)` under the `i` flag, anchored at the start of `s`. -/
def unitAt (s : Str) : Option SizeUnit :=
  if (litCI "px".toList s).isSome then some .px
  else if (litCI "pt".toList s).isSome then some .pt
  else if (litCI "em".toList s).isSome then some .em
  else if (litCI "rem".toList s).isSome then some .rem
  else none

/-- The pattern `/font-size:\s*(\d+(?:\.\d+)?)(px|pt|em|rem)/i` anchored at the start of `s`:
the digits before the point, the digits after it (empty when there is no fraction), and the
unit. -/
def fontSizeAt (s : Str) : Option (Str × Str × SizeUnit) :=
  match litCI "font-size:".toList s with
  | none => none
  | some t0 =>
    let t1 := t0.dropWhile isJsSpace
    let ip := t1.takeWhile isDecDigit
    let t2 := t1.dropWhile isDecDigit
    if ip = [] then none
    else
      match t2 with
      | '.' :: t3 =>
        let fp := t3.takeWhile isDecDigit
        if fp = [] then none
        else (unitAt (t3.dropWhile isDecDigit)).map (fun u => (ip, fp, u))
      | _ => (unitAt t2).map (fun u => (ip, [], u))

/-- The conversion to points and the rounding of one matched size:
`parseFloat`, then `* 0.75` for `px` and `* 12` for `em` and `rem`, then `Math.round`. -/
def convertSize (ip fp : Str) (u : SizeUnit) : ℕ∞ :=
  let size := parseFloatDigits ip fp
  match u with
  | .px => (size.scale 3 (-2)).round
  | .em => (size.scale 12 0).round
  | .rem => (size.scale 12 0).round
  | .pt => size.round

/-- The size that one `style` attribute contributes to `fontSizes`. -/
def styleSize (style : Str) : Option ℕ∞ :=
  (firstMatch fontSizeAt style).map (fun m => convertSize m.1 m.2.1 m.2.2)

/-! ## The extraction -/

/-- The `colors` record of the extracted styles. -/
structure Colors where
  primary : Option Str
  secondary : Option Str
  accent : Option Str
  text : Option Str
  background : Option Str
  deriving DecidableEq, Repr

/-- The `headingSizes` record of the extracted styles. -/
structure HeadingSizes where
  h1 : Option ℕ∞
  h2 : Option ℕ∞
  h3 : Option ℕ∞
  deriving DecidableEq

/-- The `typography` record of the extracted styles. -/
structure Typography where
  headingFont : Option Str
  bodyFont : Option Str
  headingSizes : HeadingSizes
  bodySize : Option ℕ∞
  deriving DecidableEq

/-- The record that `extractStylesFromDocx` returns (`null` and a missing property are `none`). -/
structure ExtractedStyles where
  colors : Colors
  typography : Typography
  rawContent : Option Str
  rawText : Option Str
  deriving DecidableEq

/-- What the collaborators of `extractStylesFromDocx` deliver: the markup of
`mammoth.convertToHtml` and the text of `mammoth.extractRawText` (`none` when the call throws),
and the `style` attributes of the elements that `querySelectorAll('[style]')` finds in the
parsed markup, in document order. -/
structure Converted where
  html : Option Str
  rawText : Option Str
  styles : List Str

/-- The record with which `extractStylesFromDocx` starts. -/
def emptyStyles : ExtractedStyles :=
  { colors := { primary := none, secondary := none, accent := none, text := none,
                background := none }
    typography := { headingFont := none, bodyFont := none,
                    headingSizes := { h1 := none, h2 := none, h3 := none }, bodySize := none }
    rawContent := none
    rawText := none }

/-- The set `colorMatches` after the loop over the styled elements, as `Array.from` lists it. -/
def colorMatches (styles : List Str) : List (Option Str) :=
  setOf (styles.flatMap styleColors)

/-- The array `uniqueColors`: the members of `colorMatches` that are truthy and differ from the
two literals of the source. -/
def uniqueColors (styles : List Str) : List Str :=
  (colorMatches styles).filterMap (fun c =>
    match c with
    | some v => if v ≠ [] ∧ v ≠ "#000000".toList ∧ v ≠ "#ffffff".toList then some v else none
    | none => none)

/-- The array `darkColors`. -/
def darkColors (styles : List Str) : List (Option Str) :=
  (colorMatches styles).filter isColorDark

/-- The array `fonts`. -/
def fonts (styles : List Str) : List Str :=
  setOf (styles.filterMap styleFont)

/-- The array `fontSizes`. -/
def fontSizes (styles : List Str) : List ℕ∞ :=
  styles.filterMap styleSize

/-- `[...new Set(fontSizes)].sort((a, b) => b - a)`: the comparator orders the larger value
first. -/
def sortedUnique (sizes : List ℕ∞) : List ℕ∞ :=
  (setOf sizes).insertionSort (fun a b => b ≤ a)

/-- The array `uniqueSizes`. -/
def uniqueSizes (styles : List Str) : List ℕ∞ :=
  sortedUnique (fontSizes styles)

/-- The assignments that follow the parsing of the markup (lines 61 to 135 of the source). -/
def assignStyles (styles : List Str) (acc : ExtractedStyles) : ExtractedStyles :=
  let uc := uniqueColors styles
  let dc := darkColors styles
  let fs := fonts styles
  let us := uniqueSizes styles
  { acc with
    colors :=
      { primary := if 0 < uc.length then uc[0]? else acc.colors.primary
        secondary := if 1 < uc.length then uc[1]? else acc.colors.secondary
        accent := if 2 < uc.length then uc[2]? else acc.colors.accent
        text := if 0 < dc.length then dc[0]?.join else acc.colors.text
        background := acc.colors.background }
    typography :=
      { headingFont := if 0 < fs.length then fs[0]? else acc.typography.headingFont
        bodyFont :=
          if 1 < fs.length then fs[1]?
          else if fs.length = 1 then fs[0]?
          else acc.typography.bodyFont
        headingSizes :=
          { h1 := if 0 < us.length then us[0]? else acc.typography.headingSizes.h1
            h2 := if 1 < us.length then us[1]? else acc.typography.headingSizes.h2
            h3 := if 2 < us.length then us[2]? else acc.typography.headingSizes.h3 }
        bodySize :=
          if 3 < us.length then us[us.length - 1]? else acc.typography.bodySize } }

/-- The function `extractStylesFromDocx` of the source: a failure of a collaborator is caught
and the record built so far is returned. -/
def extractStylesFromDocx (input : Converted) : ExtractedStyles :=
  match input.html with
  | none => emptyStyles
  | some html =>
    let s1 := { emptyStyles with rawContent := some html }
    match input.rawText with
    | none => s1
    | some txt => assignStyles input.styles { s1 with rawText := some txt }

/-! ## Notions of the specification -/

/-- In `xs`, the value `a` occurs before the first occurrence of `b`. -/
def SeenBefore {α : Type} (xs : List α) (a b : α) : Prop :=
  ∃ pre post, xs = pre ++ b :: post ∧ b ∉ pre ∧ a ∈ pre

/-- The text `t` starts with an `rgb(r,g,b)` notation: the letters `rgb` in either case and an
opening parenthesis, then the runs of decimal digits `r`, `g` and `b` separated by commas, with
optional white space around each run, then a closing parenthesis. -/
def RgbNotation (t r g b : Str) : Prop :=
  ∃ p w0 w1 w2 w3 w4 w5 rest : Str,
    t = p ++ (w0 ++ (r ++ (w1 ++ ',' :: (w2 ++ (g ++ (w3 ++ ',' :: (w4 ++ (b ++ (w5 ++
          ')' :: rest)))))))))
    ∧ p.map Char.toLower = "rgb(".toList
    ∧ (∀ c ∈ w0 ++ w1 ++ w2 ++ w3 ++ w4 ++ w5, isJsSpace c = true)
    ∧ (∀ c ∈ r ++ g ++ b, isDecDigit c = true)
    ∧ r ≠ [] ∧ g ≠ [] ∧ b ≠ []

/-- The upper-case hexadecimal digit of a value below 16. -/
def hexDigitUpper (d : Nat) : Char := "0123456789ABCDEF".toList.getD d '0'

/-- The two-digit upper-case hexadecimal form of a value below 256. -/
def hex2 (n : Nat) : Str := [hexDigitUpper (n / 16), hexDigitUpper (n % 16)]

/-- The integer nearest to `num / den`, the larger one when two are equally near. -/
def nearestInt (num den : Nat) : Nat := (2 * num + den) / (2 * den)

/-- The size in points as the specification words it, computed exactly: the value written with
the digits `ip` before and `fp` after the point, times 0.75 for `px` and 12 for `em` and `rem`,
rounded to the nearest integer. -/
def specSize (ip fp : Str) (u : SizeUnit) : Nat :=
  let n := digitsValue 10 (ip ++ fp)
  let d := 10 ^ fp.length
  match u with
  | .px => nearestInt (n * 3) (d * 4)
  | .em => nearestInt (n * 12) d
  | .rem => nearestInt (n * 12) d
  | .pt => nearestInt n d

/-- The text of a unit, in lower case. -/
def unitText : SizeUnit → Str
  | .px => "px".toList
  | .pt => "pt".toList
  | .em => "em".toList
  | .rem => "rem".toList

/-- The fraction of a decimal value as it is written: nothing, or a point and digits. -/
def fracText (fp : Str) : Str := if fp = [] then [] else '.' :: fp

/-- The text `t` starts with a `font-size` declaration of the kind the extraction reads: the
property name and the colon in either case, optional white space, a run of digits, optionally
a point and a second run of digits, and one of the units `px`, `pt`, `em`, `rem` in either
case. -/
def StartsWithSize (t : Str) : Prop :=
  ∃ (p ws ip fp ut rest : Str) (u : SizeUnit),
    t = p ++ (ws ++ (ip ++ (fracText fp ++ (ut ++ rest))))
    ∧ p.map Char.toLower = "font-size:".toList
    ∧ (∀ c ∈ ws, isJsSpace c = true)
    ∧ ip ≠ []
    ∧ (∀ c ∈ ip, isDecDigit c = true)
    ∧ (∀ c ∈ fp, isDecDigit c = true)
    ∧ ut.map Char.toLower = unitText u

/-- The text `t` starts with a `font-family` declaration: the property name and the colon in
either case, followed by at least one character other than `;`. -/
def StartsWithFamily (t : Str) : Prop :=
  ∃ (p : Str) (c : Char) (r : Str),
    t = p ++ c :: r ∧ p.map Char.toLower = "font-family:".toList ∧ c ≠ ';'

/-- The font name that the value of a `font-family` declaration stands for, as the
specification words it: `name` is the first comma-separated token of `value` without its quote
characters (`"` and the apostrophe) and without the white space at either end. -/
def IsFontName (name value : Str) : Prop :=
  ∃ token tail l r : Str,
    value = token ++ tail
    ∧ ',' ∉ token
    ∧ (∀ c, tail.head? = some c → c = ',')
    ∧ token.filter (fun c => c != Char.ofNat 34 && c != Char.ofNat 39) = l ++ (name ++ r)
    ∧ (∀ c ∈ l, isJsSpace c = true)
    ∧ (∀ c ∈ r, isJsSpace c = true)
    ∧ (∀ c, name.head? = some c → isJsSpace c = false)
    ∧ (∀ c, name.getLast? = some c → isJsSpace c = false)

/-- The value ` 'Open Sans', Arial` of a `font-family` declaration: a quoted name after a
blank, then a second name. -/
def quotedValue : Str :=
  ' ' :: Char.ofNat 39 :: ("Open Sans".toList ++ Char.ofNat 39 :: ", Arial".toList)

/-- A document of five paragraphs colored `#000000`, `#1A73E8`, `#34A853`, `#EA4335` and
`#202124`, in this order. -/
def fiveColors : Converted :=
  { html := some ("<p style=color:#000000>a</p><p style=color:#1A73E8>b</p>"
      ++ "<p style=color:#34A853>c</p><p style=color:#EA4335>d</p>"
      ++ "<p style=color:#202124>e</p>").toList
    rawText := some "abcde".toList
    styles := ["color:#000000".toList, "color:#1A73E8".toList, "color:#34A853".toList,
      "color:#EA4335".toList, "color:#202124".toList] }

/-- A document whose only colors are white, written `#FFFFFF`, and then `#1A73E8`. -/
def whiteThenBlue : Converted :=
  { html := some "<p style=color:#FFFFFF>a</p><p style=color:#1A73E8>b</p>".toList
    rawText := some "ab".toList
    styles := ["color:#FFFFFF".toList, "color:#1A73E8".toList] }

/-- A document whose only colors are black and white: black text on a white background. -/
def blackOnWhite : Converted :=
  { html := some "<p style=color:#000000;background-color:rgb(255,255,255)>a</p>".toList
    rawText := some "a".toList
    styles := ["color:#000000;background-color:rgb(255,255,255)".toList] }

/-- A document whose six font sizes convert to 32, 24, 18, 14, 14 and 12 points. -/
def sixSizes : Converted :=
  { html := some ("<p style=font-size:32pt>a</p><p style=font-size:32px>b</p>"
      ++ "<p style=font-size:1.5em>c</p><p style=font-size:14pt>d</p>"
      ++ "<p style=font-size:14pt>e</p><p style=font-size:1rem>f</p>").toList
    rawText := some "abcdef".toList
    styles := ["font-size:32pt".toList, "font-size:32px".toList, "font-size:1.5em".toList,
      "font-size:14pt".toList, "font-size:14pt".toList, "font-size:1rem".toList] }

/-! ## Profiles -/

/-- A JavaScript value held by a property of a profile. -/
inductive JSVal where
  | undefined
  | null
  | bool (b : Bool)
  | num (d : Dbl)
  | str (s : Str)
  | ref (a : Nat)
  deriving DecidableEq

/-- The object `profile.colors`. -/
structure ColorsObj where
  primary : JSVal
  secondary : JSVal
  accent : JSVal
  text : JSVal
  background : JSVal
  deriving DecidableEq

/-- The object `profile.typography.headingSizes`. -/
structure SizesObj where
  h1 : JSVal
  h2 : JSVal
  h3 : JSVal
  deriving DecidableEq

/-- The object `profile.typography`; `headingSizes` is the address of a `SizesObj`. -/
structure TypographyObj where
  headingFont : JSVal
  bodyFont : JSVal
  headingSizes : Nat
  bodySize : JSVal
  headingWeight : JSVal
  bodyWeight : JSVal
  lineHeight : JSVal
  letterSpacing : JSVal
  deriving DecidableEq

/-- A profile object; `colors` and `typography` are the addresses of the nested objects, the
other nested objects are never entered and are kept as values. -/
structure ProfileObj where
  id : JSVal
  name : JSVal
  createdAt : JSVal
  updatedAt : JSVal
  colors : Nat
  typography : Nat
  logo : JSVal
  headerFooter : JSVal
  watermark : JSVal
  layout : JSVal
  deriving DecidableEq

/-- The objects that exist, by kind and address; `next` is the address that the next new
profile object gets. -/
structure Heap where
  profiles : Nat → ProfileObj
  next : Nat
  colors : Nat → ColorsObj
  typographies : Nat → TypographyObj
  sizes : Nat → SizesObj

/-- The store `f` with the object at address `a` replaced by `v`. -/
def upd {α : Type} (f : Nat → α) (a : Nat) (v : α) : Nat → α :=
  fun b => if b = a then v else f b

/-- Truthiness of an extracted string: neither `null` nor empty. -/
def truthyStr : Option Str → Bool
  | some (_ :: _) => true
  | _ => false

/-- Truthiness of an extracted size: neither `null` nor zero. -/
def truthySize : Option ℕ∞ → Bool
  | some n => n != 0
  | none => false

/-- An extracted size as a JavaScript number. -/
def sizeVal : ℕ∞ → JSVal
  | some n => .num (.num false (.fin n 0))
  | none => .num (.num false .inf)

/-! ## Applying and summarising the extraction -/

/-- Reading of `profile.colors` through the heap. -/
def Heap.colorsOf (h : Heap) (p : Nat) : ColorsObj :=
  h.colors (h.profiles p).colors

/-- Reading of `profile.typography` through the heap. -/
def Heap.typographyOf (h : Heap) (p : Nat) : TypographyObj :=
  h.typographies (h.profiles p).typography

/-- Reading of `profile.typography.headingSizes` through the heap. -/
def Heap.sizesOf (h : Heap) (p : Nat) : SizesObj :=
  h.sizes (h.typographyOf p).headingSizes

/-- The statement `if (value) { updated.colors[key] = value; }` for one key. -/
def setColor (h : Heap) (updated : Nat) (value : Option Str)
    (set : ColorsObj → JSVal → ColorsObj) : Heap :=
  if truthyStr value then
    let a := (h.profiles updated).colors
    { h with colors := upd h.colors a (set (h.colors a) (.str (value.getD []))) }
  else h

/-- The statement `if (value) { updated.typography[key] = value; }` for a font. -/
def setFont (h : Heap) (updated : Nat) (value : Option Str)
    (set : TypographyObj → JSVal → TypographyObj) : Heap :=
  if truthyStr value then
    let a := (h.profiles updated).typography
    { h with typographies := upd h.typographies a (set (h.typographies a) (.str (value.getD []))) }
  else h

/-- The statement `if (value) { updated.typography.headingSizes[key] = value; }`. -/
def setHeadingSize (h : Heap) (updated : Nat) (value : Option ℕ∞)
    (set : SizesObj → JSVal → SizesObj) : Heap :=
  if truthySize value then
    let a := (h.typographies (h.profiles updated).typography).headingSizes
    { h with sizes := upd h.sizes a (set (h.sizes a) (sizeVal (value.getD 0))) }
  else h

/-- The statement `if (bodySize) { updated.typography.bodySize = bodySize; }`. -/
def setBodySize (h : Heap) (updated : Nat) (value : Option ℕ∞) : Heap :=
  if truthySize value then
    let a := (h.profiles updated).typography
    let o := h.typographies a
    { h with typographies := upd h.typographies a { o with bodySize := sizeVal (value.getD 0) } }
  else h

/-- Function `applyExtractedStyles`: `{ ...profile }` makes a new profile object with the
same property values, so with the same nested objects; the assignments then go through
`updated` into those nested objects. Returns the heap afterwards and the address of
`updated`. -/
def applyExtractedStyles (h : Heap) (profile : Nat) (extractedStyles : ExtractedStyles) :
    Heap × Nat :=
  let updated := h.next
  let h0 : Heap := { h with profiles := upd h.profiles updated (h.profiles profile),
                            next := h.next + 1 }
  let c := extractedStyles.colors
  let h1 := setColor h0 updated c.primary (fun o v => { o with primary := v })
  let h2 := setColor h1 updated c.secondary (fun o v => { o with secondary := v })
  let h3 := setColor h2 updated c.accent (fun o v => { o with accent := v })
  let h4 := setColor h3 updated c.text (fun o v => { o with text := v })
  let h5 := setColor h4 updated c.background (fun o v => { o with background := v })
  let t := extractedStyles.typography
  let h6 := setFont h5 updated t.headingFont (fun o v => { o with headingFont := v })
  let h7 := setFont h6 updated t.bodyFont (fun o v => { o with bodyFont := v })
  let h8 := setHeadingSize h7 updated t.headingSizes.h1 (fun o v => { o with h1 := v })
  let h9 := setHeadingSize h8 updated t.headingSizes.h2 (fun o v => { o with h2 := v })
  let h10 := setHeadingSize h9 updated t.headingSizes.h3 (fun o v => { o with h3 := v })
  let h11 := setBodySize h10 updated t.bodySize
  (h11, updated)

/-- Decimal text of a count, as a template literal prints it. -/
def countText (n : Nat) : Str := Nat.toDigits 10 n

/-- Method `Array.prototype.join` on strings. -/
def join (sep : Str) : List Str → Str
  | [] => []
  | [a] => a
  | a :: b :: rest => a ++ sep ++ join sep (b :: rest)

/-- Function `getExtractionSummary`. -/
def getExtractionSummary (extractedStyles : ExtractedStyles) : List Str :=
  let c := extractedStyles.colors
  let t := extractedStyles.typography
  let colorCount :=
    ([c.primary, c.secondary, c.accent, c.text, c.background].filter truthyStr).length
  let summary1 : List Str :=
    if 0 < colorCount then [countText colorCount ++ " color(s) detected".toList] else []
  let fonts := [t.headingFont, t.bodyFont].filter truthyStr
  let summary2 :=
    if 0 < fonts.length then
      summary1 ++ ["Font(s): ".toList ++ join ", ".toList (fonts.map (fun f => f.getD []))]
    else summary1
  let sizeCount :=
    ([t.headingSizes.h1, t.headingSizes.h2, t.headingSizes.h3].filter truthySize).length
  let summary3 :=
    if 0 < sizeCount || truthySize t.bodySize then
      summary2 ++ [countText (sizeCount + (if truthySize t.bodySize then 1 else 0))
        ++ " font size(s) detected".toList]
    else summary2
  if 0 < summary3.length then summary3 else ["No styles could be extracted".toList]

/-- Expression `name.split('.').pop()`: the text after the last dot, the whole name when it
has no dot. -/
def lastSegment (name : Str) : Str :=
  (name.reverse.takeWhile (fun c => c != '.')).reverse

/-- Method `toLowerCase` on the letters that matter for the comparison with `doc` and
`docx`: no character outside `A`-`Z` has a lower case among `c`, `d`, `o`, `x`. -/
def toLowerCase (s : Str) : Str := s.map Char.toLower

/-- Function `isValidDocxFile` on the `type` and `name` of the file. -/
def isValidDocxFile (type name : Str) : Bool :=
  let validTypes : List Str :=
    ["application/vnd.openxmlformats-officedocument.wordprocessingml.document".toList,
     "application/msword".toList]
  if validTypes.contains type then true
  else
    let ext := toLowerCase (lastSegment name)
    ext == "docx".toList || ext == "doc".toList

/-- Function `parseWordDocument`: `read` is what the file reader delivers, `none` when it
reports an error, otherwise the outcome of the conversions on the bytes read. The promise
settles with the styles or is rejected with an error. -/
def parseWordDocument (read : Option Converted) : Except Str ExtractedStyles :=
  match read with
  | none => .error "Failed to read file".toList
  | some input => .ok (extractStylesFromDocx input)

/-- What the upload handler has done when it ends: whether it showed the alert for a file
that is not valid, the text of the status element (which is taken to exist), whether it
called `saveCurrentProfile`, and the heap. -/
structure UploadResult where
  alerted : Bool
  status : Str
  saved : Bool
  heap : Heap

/-- The `change` handler of `initTemplateUpload` for a chosen file. -/
def handleTemplateUpload (h : Heap) (currentProfile : Option Nat) (type name : Str)
    (read : Option Converted) : UploadResult :=
  if !isValidDocxFile type name then
    { alerted := true, status := [], saved := false, heap := h }
  else
    match parseWordDocument read with
    | .ok extracted =>
      let summary := getExtractionSummary extracted
      let status := "Extracted: ".toList ++ join ", ".toList summary
      match currentProfile with
      | some p =>
        let (h1, updated) := applyExtractedStyles h p extracted
        let h2 : Heap := { h1 with profiles := upd h1.profiles p (h1.profiles updated) }
        { alerted := false, status := status, saved := true, heap := h2 }
      | none => { alerted := false, status := status, saved := false, heap := h }
    | .error _ =>
      { alerted := false, status := "Error parsing document".toList, saved := false, heap := h }

/-! ## Sample profiles and well-formed colors -/

/-- The size `n` points as a JavaScript number. -/
def pt (n : Nat) : JSVal := .num (.num false (.fin n 0))

/-- A heap holding one profile as `createDefaultProfile` builds it, at address 0; the nested
objects that the extraction never enters are kept as references. -/
def defaultHeap : Heap where
  profiles := fun _ =>
    { id := .str "profile_1".toList, name := .str "New Brand".toList,
      createdAt := .str "2024-01-01T00:00:00.000Z".toList,
      updatedAt := .str "2024-01-01T00:00:00.000Z".toList,
      colors := 0, typography := 0,
      logo := .ref 1, headerFooter := .ref 2, watermark := .ref 3, layout := .ref 4 }
  next := 1
  colors := fun _ =>
    { primary := .str "#1a73e8".toList, secondary := .str "#34a853".toList,
      accent := .str "#ea4335".toList, text := .str "#202124".toList,
      background := .str "#ffffff".toList }
  typographies := fun _ =>
    { headingFont := .str "Playfair Display".toList, bodyFont := .str "Open Sans".toList,
      headingSizes := 0, bodySize := pt 14, headingWeight := pt 700, bodyWeight := pt 400,
      lineHeight := .num (Dbl.lit 16 10), letterSpacing := pt 0 }
  sizes := fun _ => { h1 := pt 32, h2 := pt 24, h3 := pt 18 }

/-- Extracted styles in which only the first heading size is present, as 40. -/
def onlyH1 : ExtractedStyles :=
  { emptyStyles with
    typography := { emptyStyles.typography with
      headingSizes := { emptyStyles.typography.headingSizes with h1 := some 40 } } }

/-- Whether a string is `#` followed by six hexadecimal digits. -/
def isHex6 (s : Str) : Bool :=
  match s with
  | '#' :: t => t.length == 6 && t.all isHexDigit
  | _ => false

/-- Whether a string is `#` followed by three or six hexadecimal digits. -/
def isHexColor (s : Str) : Bool :=
  match s with
  | '#' :: t => (t.length == 3 || t.length == 6) && t.all isHexDigit
  | _ => false

/-- Whether a property value is a string that is a valid 3- or 6-digit hex color. -/
def JSVal.isHexColor : JSVal → Bool
  | .str s => TemplateParser.isHexColor s
  | _ => false

/-- The summary as the specification words it, for a reading `presentStr`, `presentSize` of
which extracted values count as present: the three messages that apply, in the order
colors, fonts, sizes, and the fallback message when none applies. -/
def specSummary (presentStr : Option Str → Bool) (presentSize : Option ℕ∞ → Bool)
    (e : ExtractedStyles) : List Str :=
  let n := List.countP presentStr
    [e.colors.primary, e.colors.secondary, e.colors.accent, e.colors.text, e.colors.background]
  let names := ([e.typography.headingFont, e.typography.bodyFont].filter presentStr).filterMap id
  let m := List.countP presentSize
      [e.typography.headingSizes.h1, e.typography.headingSizes.h2, e.typography.headingSizes.h3]
    + (if presentSize e.typography.bodySize then 1 else 0)
  let colorsPart := if 0 < n then [countText n ++ " color(s) detected".toList] else []
  let fontsPart := if names ≠ [] then ["Font(s): ".toList ++ join ", ".toList names] else []
  let sizesPart := if 0 < m then [countText m ++ " font size(s) detected".toList] else []
  if colorsPart = [] ∧ fontsPart = [] ∧ sizesPart = [] then
    ["No styles could be extracted".toList]
  else colorsPart ++ fontsPart ++ sizesPart

/-- A document whose only styled element has the font size `0px`. -/
def zeroSize : Converted :=
  { html := some "<p style=font-size:0px>a</p>".toList
    rawText := some "a".toList
    styles := ["font-size:0px".toList] }

/-- A document whose only styled element has a font family of white space. -/
def blankFont : Converted :=
  { html := some ("<p style=".toList ++ [Char.ofNat 34] ++ "font-family: ;".toList
      ++ [Char.ofNat 34] ++ ">a</p>".toList)
    rawText := some "a".toList
    styles := ["font-family: ;".toList] }

/-- The binary64 value `d` is finite, not negative, and equal to the rational `v`. -/
def Dbl.IsVal (d : Dbl) (v : ℚ) : Prop :=
  ∃ q k : Nat, d = .num false (.fin q (-(k : Int))) ∧ (q : ℚ) / 2 ^ k = v

/-- The rational `z` is as near to `v` as the rounding of `v` to binary64 is. -/
def Near (z v : ℚ) : Prop :=
  |z - v| ≤ v * (1 / 2 ^ 53) + 1 / 2 ^ 1075

/-- A document whose only styled element has a color with a channel above 255. -/
def rgbOverflow : Converted :=
  { html := some "<p style=color:rgb(300,0,0)>a</p>".toList
    rawText := some "a".toList
    styles := ["color:rgb(300,0,0)".toList] }

/-! ## The count of colors and further sample documents -/

/-- The constant `colorCount` of `getExtractionSummary`: the number of truthy colors. -/
def colorCount (extractedStyles : ExtractedStyles) : Nat :=
  let c := extractedStyles.colors
  ([c.primary, c.secondary, c.accent, c.text, c.background].filter truthyStr).length

/-- A document with the same color written with three digits and with six. -/
def shortAndLong : Converted :=
  { html := some "<p style=color:#abc>a</p><p style=color:#AABBCC>b</p>".toList
    rawText := some "ab".toList
    styles := ["color:#abc".toList, "color:#AABBCC".toList] }

/-- A document whose only styled element has a border color and no other color. -/
def borderOnly : Converted :=
  { html := some ("<p style=".toList ++ [Char.ofNat 34] ++ "border-color: #FF0000".toList
      ++ [Char.ofNat 34] ++ ">a</p>".toList)
    rawText := some "a".toList
    styles := ["border-color: #FF0000".toList] }

/-- A document whose only color is `#1A73E8`. -/
def onlyBlue : Converted :=
  { html := some "<p style=color:#1A73E8>a</p>".toList
    rawText := some "a".toList
    styles := ["color:#1A73E8".toList] }

/-! ## JSON values -/

/-- A value that `JSON.parse` returns. An object is the list of its own properties in their
order, each name occurring once. The properties that a value inherits from its prototype
are not part of the value: a read that would reach one is marked as such by `Json.get`. -/
inductive Json where
  | null
  | bool (b : Bool)
  | num (d : Dbl)
  | str (s : Str)
  | arr (items : List Json)
  | obj (props : List (Str × Json))

/-- The own properties of an object. -/
abbrev Props := List (Str × Json)

/-- The value of the own property `key` (`none` is `undefined`). -/
def getOwn (key : Str) : Props → Option Json
  | [] => none
  | (k, v) :: rest => if k = key then some v else getOwn key rest

/-- The assignment `object[key] = value`: an existing property keeps its place, a new one
comes last. -/
def setProp (key : Str) (value : Json) : Props → Props
  | [] => [(key, value)]
  | (k, v) :: rest => if k = key then (k, value) :: rest else (k, v) :: setProp key value rest

/-- Truthiness of a value that may be `undefined`. -/
def truthy : Option Json → Bool
  | none => false
  | some .null => false
  | some (.bool b) => b
  | some (.num .nan) => false
  | some (.num (.num _ (.fin m _))) => m != 0
  | some (.num (.num _ .inf)) => true
  | some (.str s) => !s.isEmpty
  | some (.arr _) => true
  | some (.obj _) => true

/-- The name of the property that holds the element `i` of a string or an array. -/
def indexKey (i : Nat) : Str := Nat.toDigits 10 i

/-- The own enumerable properties of a value, as `{ ...value }` copies them: those of an
object, the characters of a string (of the Basic Multilingual Plane), the elements of an
array, none for the other values. -/
def spread : Json → Props
  | .obj ps => ps
  | .str s => s.enum.map (fun ic => (indexKey ic.1, Json.str [ic.2]))
  | .arr xs => xs.enum.map (fun ix => (indexKey ix.1, ix.2))
  | _ => []

/-- The names of the properties of `Object.prototype`, which every object created by an
object literal or by `JSON.parse` inherits. -/
def inheritedNames : List Str :=
  ["constructor".toList, "__defineGetter__".toList, "__defineSetter__".toList,
    "hasOwnProperty".toList, "__lookupGetter__".toList, "__lookupSetter__".toList,
    "isPrototypeOf".toList, "propertyIsEnumerable".toList, "toString".toList,
    "valueOf".toList, "__proto__".toList, "toLocaleString".toList]

/-- The property read `value[key]`. The result is `some (some v)` when `key` is an own
property with the value `v`, `some none` when the read gives `undefined`, and `none` when the
read leaves the value for its prototype, which the embedding does not follow: on an object
for a name of `Object.prototype` that is not an own property (`constructor` gives a function,
whose properties may throw when read), on a string or an array for every name other than an
index and `length`, on a number or a boolean for every name; a read on `null` throws and is
not followed either. -/
def Json.get (value : Json) (key : Str) : Option (Option Json) :=
  match value with
  | .obj ps =>
    match getOwn key ps with
    | some v => some (some v)
    | none => if key ∈ inheritedNames then none else some none
  | .str s =>
    if key = "length".toList then some (some (.num (Dbl.ofInt s.length)))
    else (getOwn key (spread (.str s))).map some
  | .arr xs =>
    if key = "length".toList then some (some (.num (Dbl.ofInt xs.length)))
    else (getOwn key (spread (.arr xs))).map some
  | _ => none

/-- The expression `value || {}`. -/
def orEmpty (value : Option Json) : Json :=
  if truthy value then value.getD (.obj []) else .obj []

/-- The loop of `deepMerge` over the properties of `source` that are still to visit, `result`
being the object built so far. The result is `none` where the embedding does not follow the
code: when the read `target[key]` leaves the target for its prototype (see `Json.get`), and
when the source has a property named `__proto__`, the assignment `result[key] = ...` then being
a call of the setter that `Object.prototype` holds under this name and not the creation of a
property. -/
def mergeInto (target : Json) (result : Props) : Props → Option Props
  | [] => some result
  | (key, v) :: rest =>
    if key = "__proto__".toList then none
    else
      match v with
      | .obj ps =>
        match target.get key with
        | none => none
        | some found =>
          match mergeInto (orEmpty found) (spread (orEmpty found)) ps with
          | none => none
          | some merged => mergeInto target (setProp key (.obj merged) result) rest
      | _ => mergeInto target (setProp key v result) rest

/-- Function `deepMerge` for a source that is an object, given by its properties; `none` as
for `mergeInto`. -/
def deepMerge (target : Json) (source : Props) : Option Props :=
  mergeInto target (spread target) source

mutual
/-- The conversion to a string that `+` with a string and `localStorage.setItem` apply;
`none` when it throws, which it does for an object with an own property `toString`.
`numText` is `Number::toString`. -/
def Json.toStr (numText : Dbl → Str) : Json → Option Str
  | .null => some "null".toList
  | .bool b => some (if b then "true".toList else "false".toList)
  | .num d => some (numText d)
  | .str s => some s
  | .arr items => joinItems numText items
  | .obj ps => if (getOwn "toString".toList ps).isSome then none else some "[object Object]".toList
/-- Method `Array.prototype.join` with a comma, `null` giving the empty string. -/
def joinItems (numText : Dbl → Str) : List Json → Option Str
  | [] => some []
  | [x] => match x with
    | .null => some []
    | _ => Json.toStr numText x
  | x :: y :: rest =>
    match (match x with
      | .null => some []
      | _ => Json.toStr numText x), joinItems numText (y :: rest) with
    | some a, some b => some (a ++ ',' :: b)
    | _, _ => none
end

mutual
/-- The value that `JSON.parse` reads back from the text that `JSON.stringify` writes for a
value: the same value, but `0` for `-0` and `null` for a number that is not finite. -/
def reparse : Json → Json
  | .num (.num true (.fin 0 _)) => .num (.num false (.fin 0 0))
  | .num (.num _ .inf) => .null
  | .num .nan => .null
  | .arr items => .arr (reparseItems items)
  | .obj ps => .obj (reparseProps ps)
  | v => v
/-- Function `reparse` on the elements of an array. -/
def reparseItems : List Json → List Json
  | [] => []
  | x :: rest => reparse x :: reparseItems rest
/-- Function `reparse` on the properties of an object. -/
def reparseProps : Props → Props
  | [] => []
  | (k, v) :: rest => (k, reparse v) :: reparseProps rest
end

/-- The comparison `a === b` of two values that may be `undefined`, the two not being the
same object: numbers by value, an array or an object never equal. -/
def strictEq : Option Json → Option Json → Bool
  | none, none => true
  | some .null, some .null => true
  | some (.bool a), some (.bool b) => a == b
  | some (.num (.num _ (.fin 0 _))), some (.num (.num _ (.fin 0 _))) => true
  | some (.num .nan), some (.num _) => false
  | some (.num a), some (.num b) => a == b
  | some (.str a), some (.str b) => a == b
  | _, _ => false

/-! ## The store of profiles -/

/-- What `localStorage` holds for this module: `profiles` is the array that `JSON.parse` reads
from the item of the profiles, each element being an object, given by its properties (the
empty array when the item is missing or cannot be parsed), and `active` is the item of the
active profile id. The store accepts every write. -/
structure Store where
  profiles : List Props
  active : Option Str

/-- What a call reads from its environment: the identifiers that `generateId` returns for
the profile to store and inside `createDefaultProfile`, the text of the `k`-th
`new Date().toISOString()` of the call, and `Number::toString`. -/
structure Env where
  newId : Str
  defaultId : Str
  time : Nat → Str
  numText : Dbl → Str

/-- A number of the source text that is an integer. -/
def int (n : Nat) : Json := .num (Dbl.ofInt n)

/-- Function `createDefaultProfile`, given the identifier and the two time stamps that it
reads from its environment. -/
def createDefaultProfile (id name createdAt updatedAt : Str) : Props :=
  [("id".toList, .str id),
   ("name".toList, .str name),
   ("createdAt".toList, .str createdAt),
   ("updatedAt".toList, .str updatedAt),
   ("colors".toList, .obj
     [("primary".toList, .str "#1a73e8".toList),
      ("secondary".toList, .str "#34a853".toList),
      ("accent".toList, .str "#ea4335".toList),
      ("text".toList, .str "#202124".toList),
      ("background".toList, .str "#ffffff".toList)]),
   ("typography".toList, .obj
     [("headingFont".toList, .str "Playfair Display".toList),
      ("bodyFont".toList, .str "Open Sans".toList),
      ("headingSizes".toList, .obj
        [("h1".toList, int 32), ("h2".toList, int 24), ("h3".toList, int 18)]),
      ("bodySize".toList, int 14),
      ("headingWeight".toList, int 700),
      ("bodyWeight".toList, int 400),
      ("lineHeight".toList, .num (Dbl.lit 16 10)),
      ("letterSpacing".toList, int 0)]),
   ("logo".toList, .obj
     [("data".toList, .null),
      ("filename".toList, .null),
      ("position".toList, .str "header-left".toList),
      ("size".toList, .str "medium".toList)]),
   ("headerFooter".toList, .obj
     [("companyName".toList, .str []),
      ("tagline".toList, .str []),
      ("contactInfo".toList, .str []),
      ("footerText".toList, .str [])]),
   ("watermark".toList, .obj
     [("enabled".toList, .bool false),
      ("type".toList, .str "text".toList),
      ("content".toList, .str []),
      ("imageData".toList, .null),
      ("opacity".toList, .num (Dbl.lit 1 10)),
      ("position".toList, .str "center".toList)]),
   ("layout".toList, .obj
     [("margins".toList, .obj
        [("top".toList, int 1), ("right".toList, int 1), ("bottom".toList, int 1),
         ("left".toList, int 1)]),
      ("spacing".toList, .str "normal".toList)])]

/-- Function `getAllProfiles`. -/
def getAllProfiles (s : Store) : List Props := s.profiles

/-- Function `saveAllProfiles`: the store then holds what `JSON.parse` reads back from the
text written. -/
def saveAllProfiles (s : Store) (profiles : List Props) : Store :=
  { s with profiles := profiles.map reparseProps }

/-- Method `Array.prototype.findIndex` (`none` is `-1`). -/
def findIndex {α : Type} (q : α → Bool) : List α → Option Nat
  | [] => none
  | x :: rest => if q x then some 0 else (findIndex q rest).map (fun i => i + 1)

/-- Whether `p.id === id` for the value `id`, which may be `undefined`. -/
def hasId (id : Option Json) (p : Props) : Bool :=
  strictEq (getOwn "id".toList p) id

/-- Function `getProfile` (`none` is `null`). -/
def getProfile (s : Store) (id : Str) : Option Props :=
  (getAllProfiles s).find? (hasId (some (.str id)))

/-- Function `saveProfile`, given the two time stamps that it reads: the store afterwards and
the profile as the function leaves it. -/
def saveProfile (updatedAt createdAt : Str) (s : Store) (profile : Props) : Store × Props :=
  let profiles := getAllProfiles s
  let index := findIndex (hasId (getOwn "id".toList profile)) profiles
  let p1 := setProp "updatedAt".toList (.str updatedAt) profile
  match index with
  | some i => (saveAllProfiles s (profiles.set i p1), p1)
  | none =>
    let p2 := setProp "createdAt".toList (.str createdAt) p1
    (saveAllProfiles s (profiles ++ [p2]), p2)

/-- Function `setActiveProfileId` for a value that may be `undefined`; `none` when the
conversion of the value to a string throws. -/
def setActiveProfileId (numText : Dbl → Str) (s : Store) (id : Option Json) : Option Store :=
  if truthy id then
    match (id.getD .null).toStr numText with
    | some t => some { s with active := some t }
    | none => none
  else some { s with active := none }

/-- Function `deleteProfile`; `none` when it throws. -/
def deleteProfile (numText : Dbl → Str) (s : Store) (id : Str) : Option Store :=
  let profiles := getAllProfiles s
  let filtered := profiles.filter (fun p => !hasId (some (.str id)) p)
  let s1 : Option Store :=
    if s.active = some id then
      setActiveProfileId numText s
        (match filtered with
         | p :: _ => getOwn "id".toList p
         | [] => some .null)
    else some s
  match s1 with
  | some s2 => some (saveAllProfiles s2 filtered)
  | none => none

/-- Function `exportProfile`: the value that `JSON.parse` reads from the text returned
(`none` is `null`). -/
def exportProfile (s : Store) (id : Str) : Option Json :=
  (getProfile s id).map (fun p => reparse (.obj p))

/-- Function `importProfile`, on what `JSON.parse` gives for the text (`none` when it
throws): the profile returned (`none` is `null`) and the store afterwards. The whole result is
`none` when the call of `deepMerge` is one that the embedding does not follow. -/
def importProfile (env : Env) (s : Store) (parsed : Option Json) :
    Option (Option Props × Store) :=
  match parsed with
  | some (.obj profile) =>
    if !truthy (getOwn "name".toList profile) || !truthy (getOwn "colors".toList profile)
        || !truthy (getOwn "typography".toList profile) then some (none, s)
    else
      let p1 := setProp "id".toList (.str env.newId) profile
      let p2 := setProp "createdAt".toList (.str (env.time 0)) p1
      let p3 := setProp "updatedAt".toList (.str (env.time 1)) p2
      let defaultProfile :=
        createDefaultProfile env.defaultId "New Brand".toList (env.time 2) (env.time 3)
      match deepMerge (.obj defaultProfile) p3 with
      | none => none
      | some merged =>
        let m1 := setProp "id".toList ((getOwn "id".toList p3).getD .null) merged
        match ((getOwn "name".toList p3).getD .null).toStr env.numText with
        | none => some (none, s)
        | some name =>
          let m2 := setProp "name".toList (.str (name ++ " (Imported)".toList)) m1
          let saved := saveProfile (env.time 4) (env.time 5) s m2
          some (some saved.2, saved.1)
  | _ => some (none, s)

/-! ## Sample values and notions for the store of profiles -/

/-- An environment for the examples. -/
def sampleEnv : Env :=
  { newId := "profile_2".toList, defaultId := "profile_3".toList,
    time := fun _ => "2024-01-02T00:00:00.000Z".toList, numText := fun _ => "0".toList }

/-- The value of the text `{"name":"x","colors":"red","typography":{},"logo":null}`. -/
def looseProfile : Json :=
  .obj [("name".toList, .str "x".toList), ("colors".toList, .str "red".toList),
    ("typography".toList, .obj []), ("logo".toList, .null)]

/-- The value of the text `{"name":{"toString":0},"colors":{},"typography":{}}`. -/
def unprintableName : Json :=
  .obj [("name".toList, .obj [("toString".toList, int 0)]), ("colors".toList, .obj []),
    ("typography".toList, .obj [])]

/-- A store with the profiles `a` and `b`, of which `a` is the active one. -/
def twoProfiles : Store :=
  { profiles := [[("id".toList, .str "a".toList), ("name".toList, .str "A".toList)],
      [("id".toList, .str "b".toList), ("name".toList, .str "B".toList)]]
    active := some "a".toList }

/-- The empty store. -/
def emptyStore : Store := { profiles := [], active := none }

/-- The value assigned to the property `key` by the loop of `deepMerge`; `none` as for
`mergeInto`. -/
def mergeVal (target : Json) (key : Str) (v : Json) : Option Json :=
  match v with
  | .obj ps => (target.get key).bind (fun found => (deepMerge (orEmpty found) ps).map Json.obj)
  | _ => some v

/-- The source object with the properties given last stays within the shape of the target:
no property of it, at any depth, has a name of `Object.prototype`, and it holds an object only
where the target holds an object or nothing that is truthy, the object staying within the
shape of what the target holds there (of the empty object in the second case). -/
def within (target : Json) : Props → Bool
  | [] => true
  | (key, v) :: rest =>
    !decide (key ∈ inheritedNames)
      && (match v with
        | .obj ps =>
          (match target with
          | .obj d =>
            (match orEmpty (getOwn key d) with
            | .obj dk => within (.obj dk) ps
            | _ => false)
          | _ => false)
        | _ => true)
      && within target rest

/-- The value of the text
`{"name":"x","colors":{},"typography":{"headingSizes":{"h1":40}},"extra":{"a":{}}}`. -/
def nestedProfile : Json :=
  .obj [("name".toList, .str "x".toList), ("colors".toList, .obj []),
    ("typography".toList, .obj [("headingSizes".toList, .obj [("h1".toList, int 40)])]),
    ("extra".toList, .obj [("a".toList, .obj [])])]

/-- The properties of a value that is an object, none for any other value. -/
def propsOf : Option Json → Props
  | some (.obj ps) => ps
  | _ => []

/-- The properties of the object that the property `name` of an object holds. -/
def group (ps : Props) (name : Str) : Props := propsOf (getOwn name ps)

/-- The default profile, for what does not depend on the environment. -/
def defaults : Props := createDefaultProfile [] [] [] []

/-- The object `g` has every property of the default object `d`, has each property name once
and none named `__proto__`, and holds objects only under the names in `groups`. -/
def Covers (d : Props) (groups : List Str) (g : Props) : Prop :=
  (g.map Prod.fst).Nodup
    ∧ (∀ k, (getOwn k d).isSome = true → (getOwn k g).isSome = true)
    ∧ getOwn "__proto__".toList g = none
    ∧ (∀ k ps, getOwn k g = some (.obj ps) → k ∈ groups)

/-- The object with the properties `top` has the full default structure: every field of the
default profile is present, the groups `colors`, `typography` with its `headingSizes`, `logo`,
`headerFooter`, `watermark` and `layout` with its `margins` are objects, and no other field
holds an object. -/
def FullStructure (top : Props) : Prop :=
  Covers defaults ["colors".toList, "typography".toList, "logo".toList, "headerFooter".toList,
      "watermark".toList, "layout".toList] top
    ∧ (∃ g, getOwn "colors".toList top = some (.obj g)
        ∧ Covers (group defaults "colors".toList) [] g)
    ∧ (∃ g h, getOwn "typography".toList top = some (.obj g)
        ∧ Covers (group defaults "typography".toList) ["headingSizes".toList] g
        ∧ getOwn "headingSizes".toList g = some (.obj h)
        ∧ Covers (group (group defaults "typography".toList) "headingSizes".toList) [] h)
    ∧ (∃ g, getOwn "logo".toList top = some (.obj g)
        ∧ Covers (group defaults "logo".toList) [] g)
    ∧ (∃ g, getOwn "headerFooter".toList top = some (.obj g)
        ∧ Covers (group defaults "headerFooter".toList) [] g)
    ∧ (∃ g, getOwn "watermark".toList top = some (.obj g)
        ∧ Covers (group defaults "watermark".toList) [] g)
    ∧ (∃ g h, getOwn "layout".toList top = some (.obj g)
        ∧ Covers (group defaults "layout".toList) ["margins".toList] g
        ∧ getOwn "margins".toList g = some (.obj h)
        ∧ Covers (group (group defaults "layout".toList) "margins".toList) [] h)

/-- The objects with the properties `a` and `b` have the same properties with the same
values. -/
def SameFields (a b : Props) : Prop := ∀ k, getOwn k a = getOwn k b

/-- The objects with the properties `a` and `b` have the same properties with the same
values, but for the property `nested`, under which both hold objects that have the same
properties with the same values. -/
def SameFieldsNested (nested : Str) (a b : Props) : Prop :=
  (∀ k, k ≠ nested → getOwn k a = getOwn k b)
    ∧ (∃ x y, getOwn nested a = some (.obj x) ∧ getOwn nested b = some (.obj y)
        ∧ SameFields x y)

/-- A stored profile as `createDefaultProfile` builds it, with the name `name`. -/
def storedDefault (name : Str) : Store :=
  { profiles := [createDefaultProfile "profile_1".toList name "2024-01-01T00:00:00.000Z".toList
      "2024-01-01T00:00:00.000Z".toList]
    active := none }

/-- A stored profile as `createDefaultProfile` builds it, but with an empty object as its
primary color. -/
def storedObjectColor : Store :=
  { profiles := [setProp "colors".toList
      (.obj (setProp "primary".toList (.obj []) (group defaults "colors".toList)))
      (createDefaultProfile "profile_1".toList "A".toList "2024-01-01T00:00:00.000Z".toList
        "2024-01-01T00:00:00.000Z".toList)]
    active := none }

/-! ## Insertion-ordered sets -/

theorem mem_foldl_setAdd {α : Type} [DecidableEq α] (xs : List α) :
    ∀ (acc : List α) (x : α), x ∈ xs.foldl setAdd acc ↔ x ∈ acc ∨ x ∈ xs := by
  induction xs with
  | nil => intro acc x; simp
  | cons y ys ih =>
    intro acc x
    rw [List.foldl_cons, ih]
    unfold setAdd
    by_cases hy : y ∈ acc
    · simp only [hy, if_true, List.mem_cons]
      constructor
      · rintro (h | h)
        · exact Or.inl h
        · exact Or.inr (Or.inr h)
      · rintro (h | h | h)
        · exact Or.inl h
        · exact Or.inl (h ▸ hy)
        · exact Or.inr h
    · simp only [hy, if_false, List.mem_append, List.mem_singleton, List.mem_cons]
      tauto

theorem mem_setOf {α : Type} [DecidableEq α] (xs : List α) (x : α) :
    x ∈ setOf xs ↔ x ∈ xs := by
  unfold setOf
  rw [mem_foldl_setAdd]
  simp

theorem nodup_foldl_setAdd {α : Type} [DecidableEq α] (xs : List α) :
    ∀ acc : List α, acc.Nodup → (xs.foldl setAdd acc).Nodup := by
  induction xs with
  | nil => intro acc h; simpa using h
  | cons y ys ih =>
    intro acc h
    rw [List.foldl_cons]
    apply ih
    unfold setAdd
    by_cases hy : y ∈ acc
    · simpa [hy] using h
    · simp only [hy, if_false]
      rw [List.nodup_append]
      refine ⟨h, List.nodup_singleton y, ?_⟩
      intro a ha hb
      rw [List.mem_singleton] at hb
      exact hy (hb ▸ ha)

theorem nodup_setOf {α : Type} [DecidableEq α] (xs : List α) : (setOf xs).Nodup :=
  nodup_foldl_setAdd xs [] List.nodup_nil

theorem find_foldl_setAdd {α : Type} [DecidableEq α] (p : α → Bool) (xs : List α) :
    ∀ acc : List α, (xs.foldl setAdd acc).find? p = (acc ++ xs).find? p := by
  induction xs with
  | nil => intro acc; simp
  | cons y ys ih =>
    intro acc
    rw [List.foldl_cons, ih]
    unfold setAdd
    by_cases hy : y ∈ acc
    · simp only [hy, if_true, List.find?_append, List.find?_cons]
      cases hf : acc.find? p with
      | some a => simp
      | none =>
        have := List.find?_eq_none.mp hf y hy
        simp [this]
    · simp [hy]

theorem find_setOf {α : Type} [DecidableEq α] (p : α → Bool) (xs : List α) :
    (setOf xs).find? p = xs.find? p := by
  unfold setOf
  rw [find_foldl_setAdd]
  simp

theorem head_filter_eq_find {α : Type} (p : α → Bool) (xs : List α) :
    (xs.filter p)[0]? = xs.find? p := by
  induction xs with
  | nil => rfl
  | cons y ys ih =>
    by_cases hy : p y
    · simp [List.filter_cons, hy]
    · simp [List.filter_cons, hy, ih]

theorem pairwise_foldl_setAdd {α : Type} [DecidableEq α] (total rest : List α) :
    ∀ done acc : List α, total = done ++ rest → (∀ a, a ∈ acc ↔ a ∈ done) →
      acc.Pairwise (SeenBefore total) → (rest.foldl setAdd acc).Pairwise (SeenBefore total) := by
  induction rest with
  | nil => intro done acc _ _ h; simpa using h
  | cons y ys ih =>
    intro done acc ht hm hp
    rw [List.foldl_cons]
    have ht2 : total = (done ++ [y]) ++ ys := by simp [ht]
    apply ih (done ++ [y]) _ ht2
    · intro a
      unfold setAdd
      by_cases hy : y ∈ acc
      · simp only [hy, if_true, List.mem_append, List.mem_singleton]
        constructor
        · intro h; exact Or.inl ((hm a).mp h)
        · rintro (h | h)
          · exact (hm a).mpr h
          · exact h ▸ hy
      · simp only [hy, if_false, List.mem_append, List.mem_singleton, hm a]
    · unfold setAdd
      by_cases hy : y ∈ acc
      · simpa [hy] using hp
      · simp only [hy, if_false]
        rw [List.pairwise_append]
        refine ⟨hp, List.pairwise_singleton _ _, ?_⟩
        intro a ha b hb
        rw [List.mem_singleton] at hb
        subst hb
        exact ⟨done, ys, ht, fun h => hy ((hm b).mpr h), (hm a).mp ha⟩

/-- The members of an insertion-ordered set are listed in the order of their first
occurrences. -/
theorem pairwise_setOf {α : Type} [DecidableEq α] (xs : List α) :
    (setOf xs).Pairwise (SeenBefore xs) :=
  pairwise_foldl_setAdd xs xs [] [] rfl (fun _ => Iff.rfl) List.Pairwise.nil

/-! ## Colors -/

set_option maxRecDepth 1000000 in
/-- C1 (the code at the failing input): white written `#FFFFFF` is not removed from the
candidates, so it becomes `primary` and pushes `#1A73E8` to `secondary`. -/
theorem white_hex_becomes_primary :
    (extractStylesFromDocx whiteThenBlue).colors.primary = some "#FFFFFF".toList
    ∧ (extractStylesFromDocx whiteThenBlue).colors.secondary = some "#1A73E8".toList := by
  decide

set_option maxRecDepth 1000000 in
/-- C2 (the code at the failing input): in a document whose only colors are black and white,
white written `rgb(255,255,255)` is assigned to `primary`. -/
theorem white_rgb_becomes_primary :
    (extractStylesFromDocx blackOnWhite).colors.primary = some "#FFFFFF".toList := by
  decide

theorem text_eq_find (html txt : Str) (styles : List Str) :
    (extractStylesFromDocx ⟨some html, some txt, styles⟩).colors.text
      = ((colorMatches styles).find? isColorDark).join := by
  simp only [extractStylesFromDocx, assignStyles, darkColors, emptyStyles]
  rw [head_filter_eq_find]
  cases h : (colorMatches styles).find? isColorDark with
  | none =>
    have : (colorMatches styles).filter isColorDark = [] := by
      rw [List.filter_eq_nil_iff]
      intro a ha
      have := List.find?_eq_none.mp h a ha
      simpa using this
    simp [this]
  | some c =>
    have hc := List.mem_of_find?_eq_some h
    have hp := List.find?_some h
    have : 0 < ((colorMatches styles).filter isColorDark).length := by
      apply List.length_pos_of_mem (a := c)
      exact List.mem_filter.mpr ⟨hc, hp⟩
    simp [this]

/-- C3: `text` is the first member, in first-seen order, of the full set of normalized colors
(black and white included) that `isColorDark` accepts, and it is absent exactly when the set has
no dark member.  The set holds every normalized occurrence once, in the order of the first
occurrences, so `text` is also the first dark color among all occurrences; neither the set nor
`text` refers to `primary`, `secondary` or `accent`. -/
theorem text_is_first_dark_color (html txt : Str) (styles : List Str) :
    (extractStylesFromDocx ⟨some html, some txt, styles⟩).colors.text
        = ((colorMatches styles).find? isColorDark).join
    ∧ ((extractStylesFromDocx ⟨some html, some txt, styles⟩).colors.text = none
        ↔ ∀ c ∈ colorMatches styles, isColorDark c = false)
    ∧ (colorMatches styles).Nodup
    ∧ (∀ c, c ∈ colorMatches styles ↔ c ∈ styles.flatMap styleColors)
    ∧ (colorMatches styles).Pairwise (SeenBefore (styles.flatMap styleColors))
    ∧ (extractStylesFromDocx ⟨some html, some txt, styles⟩).colors.text
        = ((styles.flatMap styleColors).find? isColorDark).join := by
  refine ⟨text_eq_find html txt styles, ?_, nodup_setOf _, mem_setOf _, pairwise_setOf _, ?_⟩
  swap
  · rw [text_eq_find, colorMatches, find_setOf]
  rw [text_eq_find]
  cases h : (colorMatches styles).find? isColorDark with
  | none =>
    simp only [Option.join, Option.bind, true_iff]
    intro c hc
    have := List.find?_eq_none.mp h c hc
    simpa using this
  | some c =>
    have hc := List.mem_of_find?_eq_some h
    have hp := List.find?_some h
    cases c with
    | none => simp [isColorDark] at hp
    | some v =>
      simp only [Option.join, Option.bind, id]
      constructor
      · intro hcon; cases hcon
      · intro hall
        rw [hall _ hc] at hp
        cases hp

set_option maxRecDepth 1000000 in
/-- C4 (counterexample): for the five colors `#000000`, `#1A73E8`, `#34A853`, `#EA4335`,
`#202124` the extracted `text` is not `#202124`. -/
theorem five_colors_text_ne :
    (extractStylesFromDocx fiveColors).colors.text ≠ some "#202124".toList := by
  decide

set_option maxRecDepth 1000000 in
/-- C4 (as amended): for the five colors `#000000`, `#1A73E8`, `#34A853`, `#EA4335`, `#202124`
in document order the extraction returns `primary = #1A73E8`, `secondary = #34A853`,
`accent = #EA4335` and `text = #000000`, black being the first dark color of the full set. -/
theorem five_colors_extracted :
    (extractStylesFromDocx fiveColors).colors
      = { primary := some "#1A73E8".toList, secondary := some "#34A853".toList,
          accent := some "#EA4335".toList, text := some "#000000".toList,
          background := none } := by
  decide

/-! ## Sizes and fonts -/

theorem sortedUnique_sorted (sizes : List ℕ∞) : (sortedUnique sizes).Sorted (· > ·) := by
  unfold sortedUnique
  have hs : ((setOf sizes).insertionSort (fun a b => b ≤ a)).Sorted (fun a b => b ≤ a) :=
    List.sorted_insertionSort (fun a b : ℕ∞ => b ≤ a) _
  have hn : ((setOf sizes).insertionSort (fun a b => b ≤ a)).Nodup :=
    (List.perm_insertionSort _ _).nodup_iff.mpr (nodup_setOf sizes)
  unfold List.Sorted at hs ⊢
  exact (hs.and hn).imp (fun ⟨h1, h2⟩ => lt_of_le_of_ne h1 (Ne.symm h2))

theorem mem_sortedUnique (sizes : List ℕ∞) (x : ℕ∞) : x ∈ sortedUnique sizes ↔ x ∈ sizes := by
  unfold sortedUnique
  rw [(List.perm_insertionSort _ _).mem_iff, mem_setOf]

theorem last_le_of_sorted (l : List ℕ∞) (h : l.Sorted (· > ·)) (m : ℕ∞)
    (hm : l[l.length - 1]? = some m) : m ∈ l ∧ ∀ x ∈ l, m ≤ x := by
  have hmem : m ∈ l := List.getElem?_mem hm
  refine ⟨hmem, ?_⟩
  intro x hx
  obtain ⟨i, hi, rfl⟩ := List.getElem_of_mem hx
  have hlen : l.length - 1 < l.length := by omega
  have hm2 : l[l.length - 1] = m := by
    rw [List.getElem?_eq_getElem hlen] at hm
    exact Option.some.inj hm
  by_cases hlt : i < l.length - 1
  · have := (List.pairwise_iff_getElem.mp h) i (l.length - 1) hi hlen hlt
    rw [hm2] at this
    exact le_of_lt this
  · have : i = l.length - 1 := by omega
    subst this
    rw [hm2]

/-- C5: the list `U` of the sizes found is strictly descending and has exactly the sizes found as
its members; `h1`, `h2`, `h3` are its entries 0, 1, 2 (absent when `U` is too short), and
`bodySize` is the least member of `U` when `U` has at least four members and absent
otherwise. -/
theorem sizes_assignment (html txt : Str) (styles : List Str) :
    (uniqueSizes styles).Sorted (· > ·)
    ∧ (∀ x, x ∈ uniqueSizes styles ↔ x ∈ fontSizes styles)
    ∧ (extractStylesFromDocx ⟨some html, some txt, styles⟩).typography.headingSizes.h1
        = (uniqueSizes styles)[0]?
    ∧ (extractStylesFromDocx ⟨some html, some txt, styles⟩).typography.headingSizes.h2
        = (uniqueSizes styles)[1]?
    ∧ (extractStylesFromDocx ⟨some html, some txt, styles⟩).typography.headingSizes.h3
        = (uniqueSizes styles)[2]?
    ∧ (4 ≤ (uniqueSizes styles).length →
        ∃ m, (extractStylesFromDocx ⟨some html, some txt, styles⟩).typography.bodySize = some m
          ∧ m ∈ uniqueSizes styles ∧ ∀ x ∈ uniqueSizes styles, m ≤ x)
    ∧ ((uniqueSizes styles).length < 4 →
        (extractStylesFromDocx ⟨some html, some txt, styles⟩).typography.bodySize = none) := by
  refine ⟨sortedUnique_sorted _, mem_sortedUnique _, ?_, ?_, ?_, ?_, ?_⟩
  · simp only [extractStylesFromDocx, assignStyles, emptyStyles]
    split
    · rfl
    · rw [List.getElem?_eq_none (by omega)]
  · simp only [extractStylesFromDocx, assignStyles, emptyStyles]
    split
    · rfl
    · rw [List.getElem?_eq_none (by omega)]
  · simp only [extractStylesFromDocx, assignStyles, emptyStyles]
    split
    · rfl
    · rw [List.getElem?_eq_none (by omega)]
  · intro h4
    have hlen : (uniqueSizes styles).length - 1 < (uniqueSizes styles).length := by omega
    refine ⟨(uniqueSizes styles)[(uniqueSizes styles).length - 1], ?_, ?_⟩
    · simp only [extractStylesFromDocx, assignStyles, emptyStyles]
      rw [if_pos (by omega), List.getElem?_eq_getElem hlen]
    · exact last_le_of_sorted _ (sortedUnique_sorted _) _ (List.getElem?_eq_getElem hlen)
  · intro h4
    simp only [extractStylesFromDocx, assignStyles, emptyStyles]
    rw [if_neg (by omega)]

set_option maxRecDepth 1000000 in
/-- The sizes 32, 24, 18, 14, 14, 12 give `U = [32, 24, 18, 14, 12]`, `h1 = 32`, `h2 = 24`,
`h3 = 18` and `bodySize = 12`. -/
theorem six_sizes_extracted :
    fontSizes sixSizes.styles = [32, 24, 18, 14, 14, 12]
    ∧ uniqueSizes sixSizes.styles = [32, 24, 18, 14, 12]
    ∧ (extractStylesFromDocx sixSizes).typography.headingSizes
        = { h1 := some 32, h2 := some 24, h3 := some 18 }
    ∧ (extractStylesFromDocx sixSizes).typography.bodySize = some 12 := by
  decide

/-! ## `normalizeColor` -/

/-- C8 (the code at the failing input): the three-digit branch doubles the digits as they are
written and returns without upper-casing, so `#fff` becomes `#ffffff` and not `#FFFFFF`; a
six-digit literal is upper-cased. -/
theorem normalizeColor_short_hex_keeps_case :
    normalizeColor "#fff".toList = some "#ffffff".toList
    ∧ normalizeColor "#fff".toList ≠ some "#FFFFFF".toList
    ∧ normalizeColor "#1a73e8".toList = some "#1A73E8".toList := by
  decide

theorem isDecDigit_iff (c : Char) : isDecDigit c = true ↔ 48 ≤ c.toNat ∧ c.toNat ≤ 57 := by
  unfold isDecDigit
  simp only [Bool.and_eq_true, decide_eq_true_eq]
  rfl

theorem isJsSpace_not_digit (c : Char) (h : isJsSpace c = true) : isDecDigit c = false := by
  rw [Bool.eq_false_iff]
  intro hd
  rw [isDecDigit_iff] at hd
  unfold isJsSpace at h
  simp only [Bool.or_eq_true, beq_iff_eq, Bool.and_eq_true, decide_eq_true_eq] at h
  omega

theorem digit_not_space (c : Char) (h : isDecDigit c = true) : isJsSpace c = false := by
  rw [Bool.eq_false_iff]
  intro hs
  rw [isJsSpace_not_digit c hs] at h
  cases h

theorem litCI_eq_some (lit : Str) : ∀ s rest : Str,
    litCI lit s = some rest ↔ ∃ p, s = p ++ rest ∧ p.map Char.toLower = lit := by
  induction lit with
  | nil =>
    intro s rest
    simp only [litCI, Option.some.injEq, List.map_eq_nil_iff]
    constructor
    · intro h; exact ⟨[], by simp [h], rfl⟩
    · rintro ⟨p, h1, h2⟩; subst h2; simpa using h1
  | cons l ls ih =>
    intro s rest
    cases s with
    | nil =>
      simp only [litCI]
      constructor
      · intro h; cases h
      · rintro ⟨p, h1, h2⟩
        have : p = [] := by
          cases p with
          | nil => rfl
          | cons a t => simp at h1
        subst this
        simp at h2
    | cons c cs =>
      simp only [litCI]
      by_cases hc : c.toLower = l
      · simp only [hc, beq_self_eq_true, if_true, ih]
        constructor
        · rintro ⟨p, h1, h2⟩
          exact ⟨c :: p, by simp [h1], by simp [hc, h2]⟩
        · rintro ⟨p, h1, h2⟩
          cases p with
          | nil => simp at h2
          | cons a t =>
            simp only [List.cons_append, List.cons.injEq] at h1
            simp only [List.map_cons, List.cons.injEq] at h2
            exact ⟨t, h1.2, h2.2⟩
      · have hne : (c.toLower == l) = false := by simpa using hc
        simp only [hne]
        constructor
        · intro h; simp at h
        · rintro ⟨p, h1, h2⟩
          cases p with
          | nil => simp at h2
          | cons a t =>
            simp only [List.cons_append, List.cons.injEq] at h1
            simp only [List.map_cons, List.cons.injEq] at h2
            exact absurd (h1.1 ▸ h2.1) hc

theorem takeWhile_append_stop {p : Char → Bool} (l m : Str) (hl : ∀ c ∈ l, p c = true)
    (hm : ∀ c, m.head? = some c → p c = false) : (l ++ m).takeWhile p = l := by
  rw [List.takeWhile_append_of_pos hl]
  cases m with
  | nil => simp
  | cons a t => simp [List.takeWhile_cons, hm a rfl]

theorem dropWhile_append_stop {p : Char → Bool} (l m : Str) (hl : ∀ c ∈ l, p c = true)
    (hm : ∀ c, m.head? = some c → p c = false) : (l ++ m).dropWhile p = m := by
  rw [List.dropWhile_append_of_pos hl]
  cases m with
  | nil => simp
  | cons a t => simp [List.dropWhile_cons, hm a rfl]

theorem head_append_cons {w rest : Str} {x c : Char} (h : (w ++ x :: rest).head? = some c) :
    c ∈ w ∨ c = x := by
  cases w with
  | nil => simp at h; exact Or.inr h.symm
  | cons a t => simp at h; exact Or.inl (h ▸ List.mem_cons_self _ _)

theorem head_append_ne_nil {d m : Str} {c : Char} (hd : d ≠ []) (h : (d ++ m).head? = some c) :
    c ∈ d := by
  cases d with
  | nil => exact absurd rfl hd
  | cons a t => simp at h; exact h ▸ List.mem_cons_self _ _

theorem mem_takeWhile_true {p : Char → Bool} (l : Str) : ∀ c ∈ l.takeWhile p, p c = true := by
  intro c hc
  induction l with
  | nil => simp at hc
  | cons a t ih =>
    rw [List.takeWhile_cons] at hc
    by_cases ha : p a = true
    · rw [if_pos ha] at hc
      rcases List.mem_cons.mp hc with h | h
      · exact h ▸ ha
      · exact ih h
    · rw [if_neg ha] at hc; simp at hc

theorem rgbAt_complete (t r g b : Str) (h : RgbNotation t r g b) : rgbAt t = some (r, g, b) := by
  obtain ⟨p, w0, w1, w2, w3, w4, w5, rest, ht, hp, hw, hd, hr, hg, hb⟩ := h
  have hw0 : ∀ c ∈ w0, isJsSpace c = true := fun c hc => hw c (by simp [hc])
  have hw1 : ∀ c ∈ w1, isJsSpace c = true := fun c hc => hw c (by simp [hc])
  have hw2 : ∀ c ∈ w2, isJsSpace c = true := fun c hc => hw c (by simp [hc])
  have hw3 : ∀ c ∈ w3, isJsSpace c = true := fun c hc => hw c (by simp [hc])
  have hw4 : ∀ c ∈ w4, isJsSpace c = true := fun c hc => hw c (by simp [hc])
  have hw5 : ∀ c ∈ w5, isJsSpace c = true := fun c hc => hw c (by simp [hc])
  have hdr : ∀ c ∈ r, isDecDigit c = true := fun c hc => hd c (by simp [hc])
  have hdg : ∀ c ∈ g, isDecDigit c = true := fun c hc => hd c (by simp [hc])
  have hdb : ∀ c ∈ b, isDecDigit c = true := fun c hc => hd c (by simp [hc])
  have stopD : ∀ (d m : Str), d ≠ [] → (∀ c ∈ d, isDecDigit c = true) →
      ∀ c, (d ++ m).head? = some c → isJsSpace c = false :=
    fun d m hne hdd c hc => digit_not_space c (hdd c (head_append_ne_nil hne hc))
  have stopW : ∀ (w m : Str) (x : Char), (∀ c ∈ w, isJsSpace c = true) → isDecDigit x = false →
      ∀ c, (w ++ x :: m).head? = some c → isDecDigit c = false := by
    intro w m x hww hx c hc
    rcases head_append_cons hc with h | h
    · exact isJsSpace_not_digit c (hww c h)
    · exact h ▸ hx
  have stopC : ∀ (m : Str) (x : Char), isJsSpace x = false →
      ∀ c, (x :: m).head? = some c → isJsSpace c = false := by
    intro m x hx c hc
    simp at hc
    exact hc ▸ hx
  have hcomma : isDecDigit ',' = false := by decide
  have hparen : isDecDigit ')' = false := by decide
  have hcomma2 : isJsSpace ',' = false := by decide
  have hparen2 : isJsSpace ')' = false := by decide
  have hlit : litCI "rgb(".toList t = some (w0 ++ (r ++ (w1 ++ ',' :: (w2 ++ (g ++ (w3 ++ ',' :: (w4 ++ (b ++ (w5 ++ ')' :: rest))))))))) :=
    (litCI_eq_some _ _ _).mpr ⟨p, ht, hp⟩
  unfold rgbAt
  rw [hlit]
  simp only []
  rw [dropWhile_append_stop w0 _ hw0 (stopD r _ hr hdr)]
  rw [takeWhile_append_stop r _ hdr (stopW w1 _ ',' hw1 hcomma),
    dropWhile_append_stop r _ hdr (stopW w1 _ ',' hw1 hcomma),
    dropWhile_append_stop w1 _ hw1 (stopC _ ',' hcomma2)]
  simp only []
  rw [dropWhile_append_stop w2 _ hw2 (stopD g _ hg hdg)]
  rw [takeWhile_append_stop g _ hdg (stopW w3 _ ',' hw3 hcomma),
    dropWhile_append_stop g _ hdg (stopW w3 _ ',' hw3 hcomma),
    dropWhile_append_stop w3 _ hw3 (stopC _ ',' hcomma2)]
  simp only []
  rw [dropWhile_append_stop w4 _ hw4 (stopD b _ hb hdb)]
  rw [takeWhile_append_stop b _ hdb (stopW w5 _ ')' hw5 hparen),
    dropWhile_append_stop b _ hdb (stopW w5 _ ')' hw5 hparen),
    dropWhile_append_stop w5 _ hw5 (stopC _ ')' hparen2)]
  simp only []
  rw [if_pos ⟨hr, hg, hb⟩]


theorem rgbAt_sound (t r g b : Str) (h : rgbAt t = some (r, g, b)) : RgbNotation t r g b := by
  unfold rgbAt at h
  cases hl : litCI "rgb(".toList t with
  | none => rw [hl] at h; cases h
  | some t0 =>
    rw [hl] at h
    simp only [] at h
    obtain ⟨p, ht, hp⟩ := (litCI_eq_some _ _ _).mp hl
    split at h
    · rename_i t3 h2
      split at h
      · rename_i t6 h5
        split at h
        · rename_i t9 h8
          split at h
          · rename_i hne
            simp only [Option.some.injEq, Prod.mk.injEq] at h
            obtain ⟨hr, hg, hb⟩ := h
            have e0 := List.takeWhile_append_dropWhile isJsSpace t0
            have e1 := List.takeWhile_append_dropWhile isDecDigit (t0.dropWhile isJsSpace)
            have e2 := List.takeWhile_append_dropWhile isJsSpace
              ((t0.dropWhile isJsSpace).dropWhile isDecDigit)
            have e3 := List.takeWhile_append_dropWhile isJsSpace t3
            have e4 := List.takeWhile_append_dropWhile isDecDigit (t3.dropWhile isJsSpace)
            have e5 := List.takeWhile_append_dropWhile isJsSpace
              ((t3.dropWhile isJsSpace).dropWhile isDecDigit)
            have e6 := List.takeWhile_append_dropWhile isJsSpace t6
            have e7 := List.takeWhile_append_dropWhile isDecDigit (t6.dropWhile isJsSpace)
            have e8 := List.takeWhile_append_dropWhile isJsSpace
              ((t6.dropWhile isJsSpace).dropWhile isDecDigit)
            rw [h2] at e2
            rw [h5] at e5
            rw [h8] at e8
            rw [hr] at e1 hne
            rw [hg] at e4 hne
            rw [hb] at e7 hne
            refine ⟨p, t0.takeWhile isJsSpace,
              ((t0.dropWhile isJsSpace).dropWhile isDecDigit).takeWhile isJsSpace,
              t3.takeWhile isJsSpace,
              ((t3.dropWhile isJsSpace).dropWhile isDecDigit).takeWhile isJsSpace,
              t6.takeWhile isJsSpace,
              ((t6.dropWhile isJsSpace).dropWhile isDecDigit).takeWhile isJsSpace,
              t9, ?_, hp, ?_, ?_, hne.1, hne.2.1, hne.2.2⟩
            · rw [e8, e7, e6, e5, e4, e3, e2, e1, e0]
              exact ht
            · intro c hc
              simp only [List.mem_append] at hc
              rcases hc with ((((hc | hc) | hc) | hc) | hc) | hc <;>
                exact mem_takeWhile_true _ c hc
            · intro c hc
              simp only [List.mem_append] at hc
              rcases hc with (hc | hc) | hc
              · rw [← hr] at hc; exact mem_takeWhile_true _ c hc
              · rw [← hg] at hc; exact mem_takeWhile_true _ c hc
              · rw [← hb] at hc; exact mem_takeWhile_true _ c hc
          · cases h
        · cases h
      · cases h
    · cases h

theorem firstMatch_eq_none {α : Type} (m : Str → Option α) (s : Str) :
    firstMatch m s = none ↔ ∀ pre t, s = pre ++ t → m t = none := by
  induction s with
  | nil =>
    simp only [firstMatch]
    constructor
    · intro h pre t hs
      have : t = [] := by
        cases pre with
        | nil => simpa using hs.symm
        | cons a l => simp at hs
      rw [this]; exact h
    · intro h; exact h [] [] rfl
  | cons c cs ih =>
    simp only [firstMatch]
    cases hm : m (c :: cs) with
    | some a =>
      simp only []
      constructor
      · intro h; cases h
      · intro h
        have := h [] (c :: cs) rfl
        rw [hm] at this; cases this
    | none =>
      simp only [ih]
      constructor
      · intro h pre t hs
        cases pre with
        | nil =>
          simp only [List.nil_append] at hs
          rw [← hs]; exact hm
        | cons a l =>
          simp only [List.cons_append, List.cons.injEq] at hs
          exact h l t hs.2
      · intro h pre t hs
        exact h (c :: pre) t (by simp [hs])

theorem firstMatch_head {α : Type} (m : Str → Option α) (s : Str) (a : α) (h : m s = some a) :
    firstMatch m s = some a := by
  cases s with
  | nil => simpa [firstMatch] using h
  | cons c cs => simp [firstMatch, h]

/-- C10 (as amended): `normalizeColor` returns absent exactly when the input is empty, or does
not start with `#` and contains no `rgb(r,g,b)` notation anywhere inside it.  A string that
starts with `#` is never rejected, and a string that contains an `rgb(r,g,b)` notation, such as a
gradient, is not rejected either. -/
theorem normalizeColor_eq_none_iff (s : Str) :
    normalizeColor s = none ↔
      s = [] ∨ (s.head? ≠ some '#' ∧
        ¬ ∃ pre t r g b, s = pre ++ t ∧ RgbNotation t r g b) := by
  unfold normalizeColor
  by_cases hs : s = []
  · simp [hs]
  · rw [if_neg hs]
    by_cases hh : s.head? = some '#'
    · rw [if_pos hh]
      simp only [hs, hh, false_or, ne_eq, not_true_eq_false, false_and, iff_false]
      split <;> simp
    · rw [if_neg hh]
      simp only [hs, false_or, ne_eq, hh, not_false_eq_true, true_and]
      cases hf : firstMatch rgbAt s with
      | none =>
        simp only [true_iff]
        rintro ⟨pre, t, r, g, b, hst, hn⟩
        have := (firstMatch_eq_none rgbAt s).mp hf pre t hst
        rw [rgbAt_complete t r g b hn] at this
        cases this
      | some v =>
        obtain ⟨r, g, b⟩ := v
        constructor
        · intro h; cases h
        · intro hcon
          exfalso
          have : firstMatch rgbAt s = none := by
            rw [firstMatch_eq_none]
            intro pre t hst
            cases hr : rgbAt t with
            | none => rfl
            | some v =>
              obtain ⟨r, g, b⟩ := v
              exact absurd ⟨pre, t, r, g, b, hst, rgbAt_sound t r g b hr⟩ hcon
          rw [this] at hf
          cases hf


theorem parseInt_digits (ds : Str) (hne : ds ≠ []) (hd : ∀ c ∈ ds, isDecDigit c = true) :
    parseInt ds none = .num false (roundMag (digitsValue 10 ds) 1) := by
  cases ds with
  | nil => exact absurd rfl hne
  | cons c cs =>
    have hc : isDecDigit c = true := hd c (List.mem_cons_self _ _)
    have hcn := (isDecDigit_iff c).mp hc
    have hsp : isJsSpace c = false := digit_not_space c hc
    have hminus : c ≠ '-' := by
      intro h; rw [h] at hcn; revert hcn; decide
    have hplus : c ≠ '+' := by
      intro h; rw [h] at hcn; revert hcn; decide
    have hpre : ((c :: cs).take 2 == ['0', 'x'] || (c :: cs).take 2 == ['0', 'X']) = false := by
      cases cs with
      | nil => simp
      | cons c2 cs2 =>
        have hc2 := (isDecDigit_iff c2).mp (hd c2 (by simp))
        have hx : c2 ≠ 'x' := by
          intro h; rw [h] at hc2; revert hc2; decide
        have hX : c2 ≠ 'X' := by
          intro h; rw [h] at hc2; revert hc2; decide
        simp [hx, hX]
    have hall : (c :: cs).takeWhile (fun c => decide (digitVal c < 10)) = c :: cs := by
      rw [List.takeWhile_eq_self_iff]
      intro x hx
      have hxd := hd x hx
      have := (isDecDigit_iff x).mp hxd
      unfold digitVal
      rw [if_pos hxd]
      simp only [decide_eq_true_eq]
      omega
    have h1 : (some c == some '-') = false := by simpa using hminus
    have h2 : (some c == some '+') = false := by simpa using hplus
    unfold parseInt
    simp only [List.dropWhile_cons, hsp, List.head?_cons, Option.getD_none, h1, h2,
      Bool.or_false, Bool.false_eq_true, if_false]
    simp only [hpre, Bool.and_false, Bool.false_eq_true, if_false, hall]
    rw [if_neg (List.cons_ne_nil c cs)]

set_option maxRecDepth 100000 in
theorem channel_brute : ∀ n, n < 256 →
    toUpperCase (padStart 2 '0' (toStringHex (.num false (roundMag n 1)))) = hex2 n := by
  decide

set_option maxRecDepth 100000 in
theorem toDigits_brute : ∀ n, n < 256 →
    (Nat.toDigits 10 n ≠ [] ∧ (Nat.toDigits 10 n).all isDecDigit = true
      ∧ digitsValue 10 (Nat.toDigits 10 n) = n) := by
  decide

theorem channelHex_decimal (n : Nat) (h : n < 256) :
    toUpperCase (channelHex (Nat.toDigits 10 n)) = hex2 n := by
  obtain ⟨h1, h2, h3⟩ := toDigits_brute n h
  unfold channelHex
  rw [parseInt_digits _ h1 (fun c hc => List.all_eq_true.mp h2 c hc), h3]
  exact channel_brute n h

/-- C9: for channels `r`, `g`, `b` below 256 written in decimal, with optional white space
around the commas, `normalizeColor` returns `#` followed by the two-digit upper-case hexadecimal
forms of `r`, `g` and `b`, seven characters in all. -/
theorem normalizeColor_rgb (r g b : Nat) (hr : r < 256) (hg : g < 256) (hb : b < 256)
    (w1 w2 w3 w4 : Str) (hw : ∀ c ∈ w1 ++ w2 ++ w3 ++ w4, isJsSpace c = true) :
    normalizeColor ("rgb(".toList ++ Nat.toDigits 10 r ++ w1 ++ [','] ++ w2
        ++ Nat.toDigits 10 g ++ w3 ++ [','] ++ w4 ++ Nat.toDigits 10 b ++ [')'])
      = some ('#' :: (hex2 r ++ hex2 g ++ hex2 b))
    ∧ ('#' :: (hex2 r ++ hex2 g ++ hex2 b)).length = 7 := by
  refine ⟨?_, rfl⟩
  obtain ⟨hr1, hr2, _⟩ := toDigits_brute r hr
  obtain ⟨hg1, hg2, _⟩ := toDigits_brute g hg
  obtain ⟨hb1, hb2, _⟩ := toDigits_brute b hb
  have hn : RgbNotation ("rgb(".toList ++ Nat.toDigits 10 r ++ w1 ++ [','] ++ w2
        ++ Nat.toDigits 10 g ++ w3 ++ [','] ++ w4 ++ Nat.toDigits 10 b ++ [')'])
      (Nat.toDigits 10 r) (Nat.toDigits 10 g) (Nat.toDigits 10 b) := by
    refine ⟨"rgb(".toList, [], w1, w2, w3, w4, [], [], ?_, rfl, ?_, ?_, hr1, hg1, hb1⟩
    · simp
    · intro c hc
      apply hw
      simpa using hc
    · intro c hc
      simp only [List.mem_append] at hc
      rcases hc with (hc | hc) | hc
      · exact List.all_eq_true.mp hr2 c hc
      · exact List.all_eq_true.mp hg2 c hc
      · exact List.all_eq_true.mp hb2 c hc
  have hm := firstMatch_head rgbAt _ _ (rgbAt_complete _ _ _ _ hn)
  unfold normalizeColor
  rw [if_neg (by simp), if_neg (by simp [String.toList]), hm]
  simp only [toUpperCase, List.map_cons, List.map_append]
  have e1 := channelHex_decimal r hr
  have e2 := channelHex_decimal g hg
  have e3 := channelHex_decimal b hb
  unfold toUpperCase at e1 e2 e3
  rw [e1, e2, e3]
  rfl

/-- C9 at `rgb(26,115,232)`: the result is `#1A73E8`. -/
theorem normalizeColor_rgb_witness :
    26 < 256 ∧ 115 < 256 ∧ 232 < 256
    ∧ normalizeColor "rgb(26,115,232)".toList = some "#1A73E8".toList :=
  ⟨by decide, by decide, by decide,
    (normalizeColor_rgb 26 115 232 (by decide) (by decide) (by decide) [] [] [] []
      (by simp)).1⟩


set_option maxRecDepth 1000000 in
/-- C10 (counterexample): malformed hex literals and a gradient are not rejected: `#12345` comes
back as it is, `#zzz` comes back as `#zzzzzz`, and the gradient yields its first `rgb` color. -/
theorem normalizeColor_accepts_malformed :
    normalizeColor "#12345".toList = some "#12345".toList
    ∧ normalizeColor "#zzz".toList = some "#zzzzzz".toList
    ∧ normalizeColor "linear-gradient(rgb(1,2,3), rgb(4,5,6))".toList
        = some "#010203".toList := by
  decide

set_option maxRecDepth 1000000 in
/-- Named colors, `rgba(...)` and `hsl(...)` are absent. -/
theorem normalizeColor_other_syntax_absent :
    normalizeColor "hsl(200,50%,50%)".toList = none
    ∧ normalizeColor "rgba(26,115,232,0.5)".toList = none
    ∧ normalizeColor "red".toList = none := by
  decide

/-! ## Binary64 rounding and the conversion of sizes -/

theorem log2Fuel_spec : ∀ fuel n : Nat, 1 ≤ n → n ≤ fuel →
    2 ^ log2Fuel fuel n ≤ n ∧ n < 2 ^ (log2Fuel fuel n + 1) := by
  intro fuel
  induction fuel with
  | zero => intro n h1 h2; omega
  | succ f ih =>
    intro n h1 h2
    unfold log2Fuel
    by_cases h : n < 2
    · rw [if_pos h]
      have : n = 1 := by omega
      subst this
      decide
    · rw [if_neg h]
      obtain ⟨ha, hb⟩ := ih (n / 2) (by omega) (by omega)
      generalize log2Fuel f (n / 2) = k at ha hb ⊢
      have e1 : 2 ^ (k + 1) = 2 * 2 ^ k := by ring
      have e2 : 2 ^ (k + 1 + 1) = 4 * 2 ^ k := by ring
      rw [e1] at hb
      rw [e2, e1]
      generalize 2 ^ k = p at ha hb ⊢
      constructor <;> omega

theorem ilog2_spec (n : Nat) (h : 1 ≤ n) : 2 ^ ilog2 n ≤ n ∧ n < 2 ^ (ilog2 n + 1) :=
  log2Fuel_spec n n h (le_refl n)

theorem two_zpow_of_nonneg (l : Int) (h : 0 ≤ l) : (2 : ℚ) ^ l = ((2 ^ l.toNat : Nat) : ℚ) := by
  conv_lhs => rw [← Int.toNat_of_nonneg h]
  rw [zpow_natCast]
  push_cast
  rfl

theorem two_zpow_of_neg (l : Int) (h : l < 0) :
    (2 : ℚ) ^ l = (((2 ^ (-l).toNat : Nat) : ℚ))⁻¹ := by
  have h2 : l = -((-l).toNat : Int) := by
    rw [Int.toNat_of_nonneg (by omega)]; omega
  conv_lhs => rw [h2]
  rw [zpow_neg, zpow_natCast]
  push_cast
  rfl

theorem ratioLog2_spec (num den : Nat) (hn : 0 < num) (hd : 0 < den) :
    (2 : ℚ) ^ ratioLog2 num den ≤ (num : ℚ) / den
    ∧ (num : ℚ) / den < (2 : ℚ) ^ (ratioLog2 num den + 1) := by
  obtain ⟨ha1, ha2⟩ := ilog2_spec num hn
  obtain ⟨hb1, hb2⟩ := ilog2_spec den hd
  have hdq : (0 : ℚ) < den := by exact_mod_cast hd
  have hnq : (0 : ℚ) < num := by exact_mod_cast hn
  have ha1q : (2 : ℚ) ^ (ilog2 num : Int) ≤ num := by
    rw [zpow_natCast]; exact_mod_cast ha1
  have ha2q : (num : ℚ) < (2 : ℚ) ^ ((ilog2 num : Int) + 1) := by
    have : ((ilog2 num : Int) + 1) = ((ilog2 num + 1 : Nat) : Int) := by push_cast; rfl
    rw [this, zpow_natCast]; exact_mod_cast ha2
  have hb1q : (2 : ℚ) ^ (ilog2 den : Int) ≤ den := by
    rw [zpow_natCast]; exact_mod_cast hb1
  have hb2q : (den : ℚ) < (2 : ℚ) ^ ((ilog2 den : Int) + 1) := by
    have : ((ilog2 den : Int) + 1) = ((ilog2 den + 1 : Nat) : Int) := by push_cast; rfl
    rw [this, zpow_natCast]; exact_mod_cast hb2
  have h2 : (2 : ℚ) ≠ 0 := by norm_num
  have hpos : ∀ z : Int, (0 : ℚ) < (2 : ℚ) ^ z := fun z => zpow_pos (by norm_num) z
  -- the quotient lies strictly between 2^(l0-1) and 2^(l0+1)
  have hup : (num : ℚ) / den < (2 : ℚ) ^ ((ilog2 num : Int) - (ilog2 den : Int) + 1) := by
    rw [div_lt_iff₀ hdq]
    calc (num : ℚ) < (2 : ℚ) ^ ((ilog2 num : Int) + 1) := ha2q
      _ = (2 : ℚ) ^ ((ilog2 num : Int) - (ilog2 den : Int) + 1) * (2 : ℚ) ^ (ilog2 den : Int) := by
          rw [← zpow_add₀ h2]; congr 1; ring
      _ ≤ (2 : ℚ) ^ ((ilog2 num : Int) - (ilog2 den : Int) + 1) * den :=
          mul_le_mul_of_nonneg_left hb1q (le_of_lt (hpos _))
  have hlow : (2 : ℚ) ^ ((ilog2 num : Int) - (ilog2 den : Int) - 1) ≤ (num : ℚ) / den := by
    rw [le_div_iff₀ hdq]
    calc (2 : ℚ) ^ ((ilog2 num : Int) - (ilog2 den : Int) - 1) * den
        ≤ (2 : ℚ) ^ ((ilog2 num : Int) - (ilog2 den : Int) - 1)
            * (2 : ℚ) ^ ((ilog2 den : Int) + 1) :=
          mul_le_mul_of_nonneg_left (le_of_lt hb2q) (le_of_lt (hpos _))
      _ = (2 : ℚ) ^ (ilog2 num : Int) := by
          rw [← zpow_add₀ h2]; congr 1; ring
      _ ≤ num := ha1q
  unfold ratioLog2
  simp only []
  generalize (ilog2 num : Int) - (ilog2 den : Int) = l0 at hup hlow ⊢
  have hge : (if 0 ≤ l0 then decide (den * 2 ^ l0.toNat ≤ num)
      else decide (den ≤ num * 2 ^ (-l0).toNat)) = true ↔ (2 : ℚ) ^ l0 ≤ (num : ℚ) / den := by
    by_cases h0 : 0 ≤ l0
    · rw [if_pos h0, decide_eq_true_eq, two_zpow_of_nonneg l0 h0, le_div_iff₀ hdq]
      constructor
      · intro h
        have : ((den * 2 ^ l0.toNat : Nat) : ℚ) ≤ (num : ℚ) := by exact_mod_cast h
        push_cast at this ⊢
        linarith
      · intro h
        have : ((den * 2 ^ l0.toNat : Nat) : ℚ) ≤ (num : ℚ) := by
          push_cast at h ⊢
          linarith
        exact_mod_cast this
    · rw [if_neg h0, decide_eq_true_eq, two_zpow_of_neg l0 (by omega), le_div_iff₀ hdq]
      have hp : (0 : ℚ) < ((2 ^ (-l0).toNat : Nat) : ℚ) := by positivity
      rw [inv_mul_le_iff₀ hp]
      constructor
      · intro h
        have : ((den : Nat) : ℚ) ≤ ((num * 2 ^ (-l0).toNat : Nat) : ℚ) := by exact_mod_cast h
        push_cast at this ⊢
        linarith
      · intro h
        have : ((den : Nat) : ℚ) ≤ ((num * 2 ^ (-l0).toNat : Nat) : ℚ) := by
          push_cast at h ⊢
          linarith
        exact_mod_cast this
  by_cases hg : (if 0 ≤ l0 then decide (den * 2 ^ l0.toNat ≤ num)
      else decide (den ≤ num * 2 ^ (-l0).toNat)) = true
  · rw [if_pos hg]
    exact ⟨hge.mp hg, hup⟩
  · rw [if_neg hg]
    refine ⟨hlow, ?_⟩
    have : l0 - 1 + 1 = l0 := by ring
    rw [this]
    exact not_le.mp (fun h => hg (hge.mpr h))


theorem roundMag_small (num den : Nat) (hn : 0 < num) (hd : 0 < den)
    (hlt : (num : ℚ) / den < 2 ^ 53) :
    ∃ q k : Nat, roundMag num den = .fin q (-(k : Int)) ∧ k ≤ 1074
      ∧ |(q : ℚ) / 2 ^ k - (num : ℚ) / den| ≤ 1 / 2 ^ (k + 1)
      ∧ (k < 1074 → (2 : ℚ) ^ 52 / 2 ^ k ≤ (num : ℚ) / den)
      ∧ (num : ℚ) / den < 2 ^ 53 / 2 ^ k
      ∧ (den ∣ num * 2 ^ k → (q : ℚ) / 2 ^ k = (num : ℚ) / den) := by
  obtain ⟨hl1, hl2⟩ := ratioLog2_spec num den hn hd
  have hdq : (0 : ℚ) < den := by exact_mod_cast hd
  have h2 : (2 : ℚ) ≠ 0 := by norm_num
  have hl52 : ratioLog2 num den ≤ 52 := by
    have h : (2 : ℚ) ^ ratioLog2 num den < (2 : ℚ) ^ (53 : Int) := by
      have : (2 : ℚ) ^ (53 : Int) = 2 ^ 53 := by norm_num
      rw [this]
      exact lt_of_le_of_lt hl1 hlt
    have := (zpow_lt_zpow_iff_right₀ (by norm_num : (1 : ℚ) < 2)).mp h
    omega
  unfold roundMag
  rw [if_neg (by omega)]
  simp only []
  generalize ratioLog2 num den = l at hl1 hl2 hl52 ⊢
  have he0 : max (l - 52) (-1074) ≤ 0 := by omega
  have he1 : -1074 ≤ max (l - 52) (-1074) := by omega
  have hel : l - 52 ≤ max (l - 52) (-1074) := by omega
  have hel2 : max (l - 52) (-1074) = -1074 ∨ max (l - 52) (-1074) = l - 52 := by omega
  generalize max (l - 52) (-1074) = e at he0 he1 hel hel2 ⊢
  have hn1 : (if 0 ≤ e then num else num * 2 ^ (-e).toNat) = num * 2 ^ (-e).toNat := by
    by_cases h : 0 ≤ e
    · have : e = 0 := by omega
      subst this; simp
    · rw [if_neg h]
  have hd1 : (if 0 ≤ e then den * 2 ^ e.toNat else den) = den := by
    by_cases h : 0 ≤ e
    · have : e = 0 := by omega
      subst this; simp
    · rw [if_neg h]
  rw [hn1, hd1, if_neg (by omega)]
  have hk : ((-e).toNat : Int) = -e := Int.toNat_of_nonneg (by omega)
  have hek : e = -(((-e).toNat : Nat) : Int) := by omega
  generalize (-e).toNat = k at hk hek ⊢
  have hpk : (0 : ℚ) < 2 ^ k := by positivity
  have hzk : ∀ c : Nat, (2 : ℚ) ^ ((c : Int) - (k : Int)) = 2 ^ c / 2 ^ k := by
    intro c
    rw [zpow_sub₀ h2, zpow_natCast, zpow_natCast]
  have hA := Nat.div_add_mod (num * 2 ^ k) den
  have hr := Nat.mod_lt (num * 2 ^ k) hd
  generalize hq : num * 2 ^ k / den = q at hA ⊢
  generalize hrr : num * 2 ^ k % den = r at hA hr ⊢
  have hAq : (den : ℚ) * q + r = num * 2 ^ k := by exact_mod_cast hA
  have hxe : (num : ℚ) / den = (num * 2 ^ k) / (2 ^ k * den) := by
    field_simp
    ring
  refine ⟨_, k, by rw [hek], by omega, ?_, ?_, ?_, ?_⟩
  · rw [hxe, ← hAq]
    have hrq : (r : ℚ) < den := by exact_mod_cast hr
    have hr0 : (0 : ℚ) ≤ r := by positivity
    by_cases hup : den < 2 * r ∨ (2 * r = den ∧ q % 2 = 1)
    · rw [if_pos hup]
      have h2r : (den : ℚ) ≤ 2 * r := by
        rcases hup with h | h
        · have : ((den : Nat) : ℚ) < ((2 * r : Nat) : ℚ) := by exact_mod_cast h
          push_cast at this; linarith
        · have : ((2 * r : Nat) : ℚ) = ((den : Nat) : ℚ) := by exact_mod_cast h.1
          push_cast at this; linarith
      rw [abs_le]
      push_cast
      constructor
      · rw [div_sub_div _ _ (ne_of_gt hpk) (by positivity), le_div_iff₀ (by positivity)]
        have : (0 : ℚ) ≤ (den - r) * (2 ^ k) * (2 ^ k * den) := by
          have : (0 : ℚ) ≤ den - r := by linarith
          positivity
        have e1 : 1 / (2 : ℚ) ^ (k + 1) = 1 / (2 * 2 ^ k) := by rw [pow_succ]; ring_nf
        rw [e1]
        have : -(1 / (2 * (2 : ℚ) ^ k)) * (2 ^ k * (2 ^ k * den)) = -(2 ^ k * den / 2) := by
          field_simp; ring
        rw [this]
        nlinarith
      · rw [div_sub_div _ _ (ne_of_gt hpk) (by positivity), div_le_iff₀ (by positivity)]
        have e1 : 1 / (2 : ℚ) ^ (k + 1) = 1 / (2 * 2 ^ k) := by rw [pow_succ]; ring_nf
        rw [e1]
        have : 1 / (2 * (2 : ℚ) ^ k) * (2 ^ k * (2 ^ k * den)) = 2 ^ k * den / 2 := by
          field_simp; ring
        rw [this]
        nlinarith
    · rw [if_neg hup]
      have h2r : 2 * (r : ℚ) ≤ den := by
        have : 2 * r ≤ den := by
          by_contra hc
          exact hup (Or.inl (by omega))
        have : ((2 * r : Nat) : ℚ) ≤ ((den : Nat) : ℚ) := by exact_mod_cast this
        push_cast at this; linarith
      rw [abs_le]
      constructor
      · rw [div_sub_div _ _ (ne_of_gt hpk) (by positivity), le_div_iff₀ (by positivity)]
        have e1 : 1 / (2 : ℚ) ^ (k + 1) = 1 / (2 * 2 ^ k) := by rw [pow_succ]; ring_nf
        rw [e1]
        have : -(1 / (2 * (2 : ℚ) ^ k)) * (2 ^ k * (2 ^ k * den)) = -(2 ^ k * den / 2) := by
          field_simp; ring
        rw [this]
        nlinarith
      · rw [div_sub_div _ _ (ne_of_gt hpk) (by positivity), div_le_iff₀ (by positivity)]
        have e1 : 1 / (2 : ℚ) ^ (k + 1) = 1 / (2 * 2 ^ k) := by rw [pow_succ]; ring_nf
        rw [e1]
        have : 1 / (2 * (2 : ℚ) ^ k) * (2 ^ k * (2 ^ k * den)) = 2 ^ k * den / 2 := by
          field_simp; ring
        rw [this]
        nlinarith
  · intro hk74
    have hel3 : l = (52 : Nat) - (k : Int) := by omega
    rw [← hzk 52, ← hel3]
    exact hl1
  · have hle : l + 1 ≤ (53 : Nat) - (k : Int) := by omega
    rw [← hzk 53]
    exact lt_of_lt_of_le hl2 (zpow_le_zpow_right₀ (by norm_num) hle)
  · intro hdvd
    have hr0 : r = 0 := by
      rw [← hrr]
      exact Nat.mod_eq_zero_of_dvd hdvd
    subst hr0
    rw [if_neg (by omega)]
    rw [hxe, ← hAq]
    field_simp
    ring


theorem roundMag_props (num den : Nat) (hd : 0 < den) (hlt : (num : ℚ) / den < 2 ^ 53) :
    ∃ q k : Nat, roundMag num den = .fin q (-(k : Int))
      ∧ |(q : ℚ) / 2 ^ k - (num : ℚ) / den| ≤ (num : ℚ) / den * (1 / 2 ^ 53) + 1 / 2 ^ 1075
      ∧ (1 / 2 ^ 1021 ≤ (num : ℚ) / den →
          |(q : ℚ) / 2 ^ k - (num : ℚ) / den| ≤ (num : ℚ) / den * (1 / 2 ^ 53))
      ∧ (∀ m j : Nat, (num : ℚ) / den = m / 2 ^ j → m < 2 ^ 53 → j ≤ 1074 →
          (q : ℚ) / 2 ^ k = (num : ℚ) / den) := by
  have hdq : (0 : ℚ) < den := by exact_mod_cast hd
  by_cases hn : num = 0
  · subst hn
    refine ⟨0, 0, ?_, ?_, ?_, ?_⟩
    · unfold roundMag
      rw [if_pos (Or.inl rfl)]
      rfl
    · simp only [Nat.cast_zero, zero_div, sub_self, abs_zero, zero_mul, zero_add]
      positivity
    · intro _
      simp
    · intro m j _ _ _
      simp
  · have hn0 : 0 < num := Nat.pos_of_ne_zero hn
    have hz : (0 : ℚ) < (num : ℚ) / den := by
      have : (0 : ℚ) < num := by exact_mod_cast hn0
      positivity
    obtain ⟨q, k, heq, hk, herr, hnorm, hupper, hexact⟩ := roundMag_small num den hn0 hd hlt
    have hpk : (0 : ℚ) < 2 ^ k := by positivity
    have hulp : k < 1074 → 1 / (2 : ℚ) ^ (k + 1) ≤ (num : ℚ) / den * (1 / 2 ^ 53) := by
      intro hk2
      have h := hnorm hk2
      have e : 1 / (2 : ℚ) ^ (k + 1) = (2 : ℚ) ^ 52 / 2 ^ k * (1 / 2 ^ 53) := by
        rw [pow_succ]
        field_simp
        ring
      rw [e]
      exact mul_le_mul_of_nonneg_right h (by positivity)
    refine ⟨q, k, heq, ?_, ?_, ?_⟩
    · by_cases hk2 : k < 1074
      · have := hulp hk2
        have h0 : (0 : ℚ) ≤ 1 / 2 ^ 1075 := by positivity
        linarith
      · have hk3 : k = 1074 := by omega
        subst hk3
        have h0 : (0 : ℚ) ≤ (num : ℚ) / den * (1 / 2 ^ 53) := by positivity
        have : (1074 + 1) = 1075 := rfl
        rw [this] at herr
        linarith
    · intro hbig
      have hk2 : k < 1074 := by
        by_contra hc
        have hk3 : k = 1074 := by omega
        subst hk3
        have e : (2 : ℚ) ^ 53 / 2 ^ 1074 = 1 / 2 ^ 1021 := by
          have : (2 : ℚ) ^ 1074 = 2 ^ 53 * 2 ^ 1021 := by rw [← pow_add]
          rw [this]
          field_simp
        rw [e] at hupper
        linarith
      exact le_trans herr (hulp hk2)
    · intro m j hmj hm hj
      apply hexact
      have hjk : j ≤ k := by
        by_cases hk2 : k < 1074
        · have h := hnorm hk2
          rw [hmj] at h
          have hpj : (0 : ℚ) < 2 ^ j := by positivity
          rw [div_le_div_iff₀ hpk hpj] at h
          have hmq : (m : ℚ) < 2 ^ 53 := by exact_mod_cast hm
          have h3 : (2 : ℚ) ^ 52 * 2 ^ j < 2 ^ 53 * 2 ^ k := by
            calc (2 : ℚ) ^ 52 * 2 ^ j ≤ m * 2 ^ k := h
              _ < 2 ^ 53 * 2 ^ k := mul_lt_mul_of_pos_right hmq hpk
          have h4 : (2 : ℚ) ^ j < 2 ^ (k + 1) := by
            rw [pow_succ]
            have : (2 : ℚ) ^ 53 = 2 ^ 52 * 2 := by norm_num
            rw [this] at h3
            have h52 : (0 : ℚ) < 2 ^ 52 := by positivity
            nlinarith
          have := (pow_lt_pow_iff_right₀ (by norm_num : (1 : ℚ) < 2)).mp h4
          omega
        · omega
      have hcross : num * 2 ^ j = m * den := by
        have hpj : (0 : ℚ) < 2 ^ j := by positivity
        rw [div_eq_div_iff (ne_of_gt hdq) (ne_of_gt hpj)] at hmj
        exact_mod_cast hmj
      obtain ⟨d, rfl⟩ := Nat.exists_eq_add_of_le hjk
      refine ⟨m * 2 ^ d, ?_⟩
      rw [pow_add, ← mul_assoc, hcross]
      ring


theorem nearestInt_eq_floor (num den : Nat) (hd : 0 < den) :
    nearestInt num den = ⌊(num : ℚ) / den + 1 / 2⌋₊ := by
  unfold nearestInt
  have hdq : (0 : ℚ) < den := by exact_mod_cast hd
  have : (num : ℚ) / den + 1 / 2 = ((2 * num + den : Nat) : ℚ) / ((2 * den : Nat) : ℚ) := by
    push_cast
    field_simp
    ring
  rw [this, Nat.floor_div_eq_div]

theorem round_eq_floor (q k : Nat) :
    Mag.round (.fin q (-(k : Int))) = ((⌊(q : ℚ) / 2 ^ k + 1 / 2⌋₊ : Nat) : ℕ∞) := by
  have hfl : ⌊(q : ℚ) / 2 ^ k + 1 / 2⌋₊ = (2 * q + 2 ^ k) / 2 ^ (k + 1) := by
    have : (q : ℚ) / 2 ^ k + 1 / 2 = ((2 * q + 2 ^ k : Nat) : ℚ) / ((2 ^ (k + 1) : Nat) : ℚ) := by
      push_cast
      rw [pow_succ]
      field_simp
      ring
    rw [this, Nat.floor_div_eq_div]
  rw [hfl]
  simp only [Mag.round]
  by_cases hk : k = 0
  · subst hk
    simp only [CharP.cast_eq_zero, neg_zero, le_refl, if_true, Int.toNat_zero, pow_zero, mul_one,
      zero_add, pow_one]
    congr 1
    omega
  · have : ¬ (0 : Int) ≤ -(k : Int) := by omega
    rw [if_neg this]
    have e : (-(-(k : Int))).toNat = k := by simp
    rw [e]

theorem round_agree (A B : Nat) (hB : 0 < B) (y : ℚ) (hy : 0 ≤ y)
    (h1 : (A : ℚ) / B < 1 / 4 → y < 1 / 2)
    (h2 : 1 / 4 ≤ (A : ℚ) / B → |y - (A : ℚ) / B| < 1 / (2 * B))
    (h3 : ∀ t : Nat, 2 * A = B * (2 * t + 1) → y = (A : ℚ) / B) :
    ⌊y + 1 / 2⌋₊ = ⌊(A : ℚ) / B + 1 / 2⌋₊ := by
  have hBq : (0 : ℚ) < B := by exact_mod_cast hB
  have hx0 : (0 : ℚ) ≤ (A : ℚ) / B := by positivity
  generalize hJ : ⌊(A : ℚ) / B + 1 / 2⌋₊ = J
  have hJ' := (Nat.floor_eq_iff (by positivity)).mp hJ
  obtain ⟨hJ1, hJ2⟩ := hJ'
  rw [Nat.floor_eq_iff (by positivity)]
  by_cases hsmall : (A : ℚ) / B < 1 / 4
  · have hy2 := h1 hsmall
    have hJ0 : J = 0 := by
      have : (J : ℚ) < 1 := by linarith
      have : J < 1 := by exact_mod_cast this
      omega
    subst hJ0
    constructor
    · simp only [Nat.cast_zero]; linarith
    · simp only [Nat.cast_zero]; linarith
  · have hbig : 1 / 4 ≤ (A : ℚ) / B := not_lt.mp hsmall
    have herr := h2 hbig
    rw [abs_lt] at herr
    -- integer forms of the two bounds on J
    have hN1 : 2 * B * J ≤ 2 * A + B := by
      have : (J : ℚ) * (2 * B) ≤ 2 * A + B := by
        have := mul_le_mul_of_nonneg_right hJ1 (by positivity : (0 : ℚ) ≤ 2 * B)
        have e : ((A : ℚ) / B + 1 / 2) * (2 * B) = 2 * A + B := by field_simp; ring
        linarith
      have : ((2 * B * J : Nat) : ℚ) ≤ ((2 * A + B : Nat) : ℚ) := by
        push_cast; linarith
      exact_mod_cast this
    have hN2 : 2 * A + B < 2 * B * (J + 1) := by
      have : 2 * (A : ℚ) + B < (J + 1) * (2 * B) := by
        have := mul_lt_mul_of_pos_right hJ2 (by positivity : (0 : ℚ) < 2 * B)
        have e : ((A : ℚ) / B + 1 / 2) * (2 * B) = 2 * A + B := by field_simp; ring
        linarith
      have : ((2 * A + B : Nat) : ℚ) < ((2 * B * (J + 1) : Nat) : ℚ) := by
        push_cast; linarith
      exact_mod_cast this
    have hdiv : (A : ℚ) / B = (2 * A + B) / (2 * B) - 1 / 2 := by
      field_simp
      ring
    have hinv : 1 / (2 * (B : ℚ)) * (2 * B) = 1 := by field_simp
    constructor
    · by_cases htie : 2 * B * J = 2 * A + B
      · have hJpos : 1 ≤ J := by
          by_contra hc
          have : J = 0 := by omega
          subst this
          omega
        obtain ⟨t, rfl⟩ := Nat.exists_eq_add_of_le hJpos
        have := h3 t (by nlinarith)
        rw [this]
        have e : (((1 + t : Nat) : ℚ)) = (2 * A + B) / (2 * B) := by
          rw [eq_div_iff (by positivity)]
          have : ((2 * B * (1 + t) : Nat) : ℚ) = ((2 * A + B : Nat) : ℚ) := by exact_mod_cast htie
          push_cast at this ⊢
          linarith
        rw [e, hdiv]
        linarith
      · have hstrict : 2 * B * J + 1 ≤ 2 * A + B := by omega
        have hq : (J : ℚ) + 1 / (2 * B) ≤ (A : ℚ) / B + 1 / 2 := by
          have : ((2 * B * J + 1 : Nat) : ℚ) ≤ ((2 * A + B : Nat) : ℚ) := by exact_mod_cast hstrict
          push_cast at this
          rw [hdiv]
          have e : (J : ℚ) + 1 / (2 * B) = (2 * B * J + 1) / (2 * B) := by field_simp; ring
          rw [e]
          have : (2 * (B : ℚ) * J + 1) / (2 * B) ≤ (2 * A + B) / (2 * B) :=
            div_le_div_of_nonneg_right this (by positivity)
          linarith
        linarith [herr.1]
    · have hstrict : 2 * A + B + 1 ≤ 2 * B * (J + 1) := by omega
      have hq : (A : ℚ) / B + 1 / 2 + 1 / (2 * B) ≤ J + 1 := by
        have : ((2 * A + B + 1 : Nat) : ℚ) ≤ ((2 * B * (J + 1) : Nat) : ℚ) := by
          exact_mod_cast hstrict
        push_cast at this
        rw [hdiv]
        have e : (2 * (A : ℚ) + B) / (2 * B) - 1 / 2 + 1 / 2 + 1 / (2 * B)
            = (2 * A + B + 1) / (2 * B) := by field_simp; ring
        rw [e, div_le_iff₀ (by positivity)]
        linarith
      linarith [herr.2]


theorem small_consts : (0 : ℚ) ≤ 1 / 2 ^ 53 ∧ (1 : ℚ) / 2 ^ 53 ≤ 1 / 1024
    ∧ (0 : ℚ) ≤ 1 / 2 ^ 1075 ∧ (1 : ℚ) / 2 ^ 1075 ≤ 1 / 1024
    ∧ (1 : ℚ) / 2 ^ 1021 ≤ 1 / 1024 := by
  have h : ∀ n : Nat, 10 ≤ n → (1 : ℚ) / 2 ^ n ≤ 1 / 1024 := by
    intro n hn
    have : (1024 : ℚ) = 2 ^ 10 := by norm_num
    rw [this]
    exact one_div_pow_le_one_div_pow_of_le (by norm_num) hn
  exact ⟨by positivity, h 53 (by norm_num), by positivity, h 1075 (by norm_num),
    h 1021 (by norm_num)⟩

theorem point_size_exact (N D : Nat) (hD : 0 < D) (hN : N < 2 ^ 46) :
    Mag.round (roundMag N D) = ((nearestInt N D : Nat) : ℕ∞) := by
  have hDq : (1 : ℚ) ≤ D := by exact_mod_cast hD
  have hD0 : (0 : ℚ) < D := by linarith
  have hNq : (N : ℚ) < 2 ^ 46 := by exact_mod_cast hN
  have hN0 : (0 : ℚ) ≤ N := by positivity
  have hz0 : (0 : ℚ) ≤ (N : ℚ) / D := by positivity
  have hzN : (N : ℚ) / D ≤ N := div_le_self hN0 hDq
  obtain ⟨hu0, hu, heta0, heta, hmin⟩ := small_consts
  obtain ⟨q, k, heq, hP2, hP1, hP3⟩ := roundMag_props N D hD (by
    have : (2 : ℚ) ^ 46 ≤ 2 ^ 53 := by norm_num
    linarith)
  rw [heq, round_eq_floor, nearestInt_eq_floor N D hD]
  congr 1
  have hy0 : (0 : ℚ) ≤ (q : ℚ) / 2 ^ k := by positivity
  have hfin : (N : ℚ) / D * (1 / 2 ^ 53) < 1 / (2 * D) := by
    rw [show (N : ℚ) / D * (1 / 2 ^ 53) = (N : ℚ) / (D * 2 ^ 53) by field_simp]
    rw [div_lt_div_iff₀ (by positivity) (by positivity)]
    have : (2 : ℚ) ^ 53 = 2 ^ 46 * 128 := by norm_num
    rw [this]
    nlinarith
  apply round_agree N D hD _ hy0
  · intro hs
    rw [abs_le] at hP2
    have hP2' := hP2.2
    generalize (1 : ℚ) / 2 ^ 53 = u at hu0 hu hP2'
    generalize (1 : ℚ) / 2 ^ 1075 = eta at heta0 heta hP2'
    have : (N : ℚ) / D * u ≤ (N : ℚ) / D * (1 / 1024) := mul_le_mul_of_nonneg_left hu hz0
    linarith
  · intro hb
    have hbig : 1 / 2 ^ 1021 ≤ (N : ℚ) / D := by
      generalize (1 : ℚ) / 2 ^ 1021 = mu at hmin ⊢
      linarith
    exact lt_of_le_of_lt (hP1 hbig) hfin
  · intro t ht
    apply hP3 (2 * t + 1) 1
    · rw [div_eq_div_iff (ne_of_gt hD0) (by norm_num)]
      have : ((2 * N : Nat) : ℚ) = ((D * (2 * t + 1) : Nat) : ℚ) := by exact_mod_cast ht
      push_cast at this ⊢
      linarith
    · have : 2 * t + 1 ≤ 2 * N := by
        rw [ht]
        exact Nat.le_mul_of_pos_left _ hD
      have h46 : (2 : Nat) ^ 53 = 2 ^ 46 * 128 := by norm_num
      omega
    · norm_num

set_option maxHeartbeats 2000000 in
theorem two_roundings (N D cn ce : Nat) (hD : 0 < D) (hcn : 0 < cn) (hc12 : cn ≤ 12)
    (hbound : 6 * (N * cn) < 2 ^ 53)
    (htie : ∀ t : Nat, 2 * (N * cn) = D * 2 ^ ce * (2 * t + 1) →
      ∃ m1 j1 m2 j2 : Nat, (N : ℚ) / D = m1 / 2 ^ j1 ∧ m1 < 2 ^ 53 ∧ j1 ≤ 1074
        ∧ ((N * cn : Nat) : ℚ) / ((D * 2 ^ ce : Nat) : ℚ) = m2 / 2 ^ j2
        ∧ m2 < 2 ^ 53 ∧ j2 ≤ 1074) :
    ∃ q1 k1 : Nat, roundMag N D = .fin q1 (-(k1 : Int))
      ∧ Mag.round (roundMag (q1 * cn) (2 ^ (k1 + ce)))
          = ((nearestInt (N * cn) (D * 2 ^ ce) : Nat) : ℕ∞) := by
  obtain ⟨hu0, hu, heta0, heta, hmin⟩ := small_consts
  have hDq : (1 : ℚ) ≤ D := by exact_mod_cast hD
  have hD0 : (0 : ℚ) < D := by linarith
  have hN0 : (0 : ℚ) ≤ N := by positivity
  have hcnq : (1 : ℚ) ≤ cn := by exact_mod_cast hcn
  have hcn12 : (cn : ℚ) ≤ 12 := by exact_mod_cast hc12
  have hbq : 6 * ((N : ℚ) * cn) < 2 ^ 53 := by exact_mod_cast hbound
  have hz0 : (0 : ℚ) ≤ (N : ℚ) / D := by positivity
  have hzN : (N : ℚ) / D ≤ N := div_le_self hN0 hDq
  have hNcn : (N : ℚ) ≤ N * cn := le_mul_of_one_le_right hN0 hcnq
  obtain ⟨q1, k1, heq1, hA2, hA1, hA3⟩ := roundMag_props N D hD (by linarith)
  have hpce : (1 : ℚ) ≤ 2 ^ ce := one_le_pow₀ (by norm_num)
  have hc0 : (0 : ℚ) < (cn : ℚ) / 2 ^ ce := by positivity
  have hccn : (cn : ℚ) / 2 ^ ce ≤ cn := div_le_self (by positivity) hpce
  have hc12' : (cn : ℚ) / 2 ^ ce ≤ 12 := le_trans hccn hcn12
  have hxc : ((N * cn : Nat) : ℚ) / ((D * 2 ^ ce : Nat) : ℚ)
      = (N : ℚ) / D * ((cn : ℚ) / 2 ^ ce) := by
    push_cast; field_simp
  have hz2c : ((q1 * cn : Nat) : ℚ) / ((2 ^ (k1 + ce) : Nat) : ℚ)
      = (q1 : ℚ) / 2 ^ k1 * ((cn : ℚ) / 2 ^ ce) := by
    push_cast; rw [pow_add]; field_simp
  have hw0 : (0 : ℚ) ≤ (q1 : ℚ) / 2 ^ k1 := by positivity
  have hfin : 3 * (((N * cn : Nat) : ℚ) / ((D * 2 ^ ce : Nat) : ℚ)) * (1 / 2 ^ 53)
      < 1 / (2 * ((D * 2 ^ ce : Nat) : ℚ)) := by
    have hB0 : (0 : ℚ) < ((D * 2 ^ ce : Nat) : ℚ) := by
      have : 0 < D * 2 ^ ce := by positivity
      exact_mod_cast this
    have hA : 6 * (((N * cn : Nat) : ℚ)) < 2 ^ 53 := by exact_mod_cast hbound
    rw [show 3 * (((N * cn : Nat) : ℚ) / ((D * 2 ^ ce : Nat) : ℚ)) * (1 / 2 ^ 53)
        = (3 * ((N * cn : Nat) : ℚ)) / (((D * 2 ^ ce : Nat) : ℚ) * 2 ^ 53) by field_simp]
    rw [div_lt_div_iff₀ (by positivity) (by positivity)]
    nlinarith
  rw [hxc] at hfin
  rw [abs_le] at hA2
  generalize hU : (1 : ℚ) / 2 ^ 53 = u at hu0 hu hA2 hA1 hfin
  generalize hE : (1 : ℚ) / 2 ^ 1075 = eta at heta0 heta hA2
  generalize hM : (1 : ℚ) / 2 ^ 1021 = mu at hmin hA1
  -- the first rounding in the small form
  have hwle : (q1 : ℚ) / 2 ^ k1 ≤ (N : ℚ) / D * (1025 / 1024) + 1 / 1024 := by
    have h2 : (N : ℚ) / D * u ≤ (N : ℚ) / D * (1 / 1024) := mul_le_mul_of_nonneg_left hu hz0
    linarith [hA2.2]
  have hz2lt : ((q1 * cn : Nat) : ℚ) / ((2 ^ (k1 + ce) : Nat) : ℚ) < 2 ^ 53 := by
    rw [hz2c]
    have h1 : (q1 : ℚ) / 2 ^ k1 * ((cn : ℚ) / 2 ^ ce) ≤ (q1 : ℚ) / 2 ^ k1 * cn :=
      mul_le_mul_of_nonneg_left hccn hw0
    have h2 : (q1 : ℚ) / 2 ^ k1 * cn ≤ ((N : ℚ) / D * (1025 / 1024) + 1 / 1024) * cn :=
      mul_le_mul_of_nonneg_right hwle (by positivity)
    have h3 : (N : ℚ) / D * cn ≤ N * cn := mul_le_mul_of_nonneg_right hzN (by positivity)
    have h4 : ((N : ℚ) / D * (1025 / 1024) + 1 / 1024) * cn
        = (N : ℚ) / D * cn * (1025 / 1024) + cn * (1 / 1024) := by ring
    have h5 : (2 : ℚ) ^ 53 = 9007199254740992 := by norm_num
    rw [h5] at hbq ⊢
    linarith
  obtain ⟨q2, k2, heq2, hB2, hB1, hB3⟩ :=
    roundMag_props (q1 * cn) (2 ^ (k1 + ce)) (by positivity) hz2lt
  rw [hz2c, hU, hE, abs_le] at hB2
  rw [hz2c, hU, hM] at hB1
  refine ⟨q1, k1, heq1, ?_⟩
  have hBpos : 0 < D * 2 ^ ce := by positivity
  rw [heq2, round_eq_floor, nearestInt_eq_floor _ _ hBpos]
  congr 1
  have hy0 : (0 : ℚ) ≤ (q2 : ℚ) / 2 ^ k2 := by positivity
  apply round_agree (N * cn) (D * 2 ^ ce) hBpos _ hy0
  · intro hs
    rw [hxc] at hs
    have hB2' := hB2.2
    generalize (N : ℚ) / D = z1 at hs hwle hz0
    generalize (q1 : ℚ) / 2 ^ k1 = w at hwle hw0 hB2'
    generalize (cn : ℚ) / 2 ^ ce = c at hs hB2' hc0 hc12'
    generalize (q2 : ℚ) / 2 ^ k2 = y at hB2' ⊢
    have h1 : w * c ≤ (z1 * (1025 / 1024) + 1 / 1024) * c :=
      mul_le_mul_of_nonneg_right hwle (le_of_lt hc0)
    have h1' : (z1 * (1025 / 1024) + 1 / 1024) * c = z1 * c * (1025 / 1024) + c * (1 / 1024) := by
      ring
    have h3 : w * c * u ≤ w * c * (1 / 1024) :=
      mul_le_mul_of_nonneg_left hu (mul_nonneg hw0 (le_of_lt hc0))
    linarith
  · intro hb
    rw [hxc] at hb
    have hz1big : mu ≤ (N : ℚ) / D := by
      have := mul_le_mul_of_nonneg_left hc12' hz0
      linarith
    have hE1 := hA1 hz1big
    rw [abs_le] at hE1
    have hz2big : mu ≤ (q1 : ℚ) / 2 ^ k1 * ((cn : ℚ) / 2 ^ ce) := by
      have h1 : ((N : ℚ) / D - (N : ℚ) / D * u) * ((cn : ℚ) / 2 ^ ce)
          ≤ (q1 : ℚ) / 2 ^ k1 * ((cn : ℚ) / 2 ^ ce) :=
        mul_le_mul_of_nonneg_right (by linarith [hE1.1]) (le_of_lt hc0)
      have h2 : ((N : ℚ) / D - (N : ℚ) / D * u) * ((cn : ℚ) / 2 ^ ce)
          = (N : ℚ) / D * ((cn : ℚ) / 2 ^ ce) - (N : ℚ) / D * ((cn : ℚ) / 2 ^ ce) * u := by ring
      have h3 : (N : ℚ) / D * ((cn : ℚ) / 2 ^ ce) * u
          ≤ (N : ℚ) / D * ((cn : ℚ) / 2 ^ ce) * (1 / 1024) :=
        mul_le_mul_of_nonneg_left hu (by positivity)
      linarith
    have hE2 := hB1 hz2big
    rw [abs_le] at hE2
    refine lt_of_le_of_lt ?_ hfin
    rw [hxc, abs_le]
    have hu1 : u ≤ 1 := by linarith
    generalize (N : ℚ) / D = z1 at hb hE1 hE2 hz0 ⊢
    generalize (q1 : ℚ) / 2 ^ k1 = w at hE1 hE2 hw0 ⊢
    generalize (cn : ℚ) / 2 ^ ce = c at hb hE2 hc0 ⊢
    generalize (q2 : ℚ) / 2 ^ k2 = y at hE2 ⊢
    have hx0 : 0 ≤ z1 * c := mul_nonneg hz0 (le_of_lt hc0)
    have k1' : w * c ≤ (z1 + z1 * u) * c :=
      mul_le_mul_of_nonneg_right (by linarith [hE1.2]) (le_of_lt hc0)
    have k2' : (z1 - z1 * u) * c ≤ w * c :=
      mul_le_mul_of_nonneg_right (by linarith [hE1.1]) (le_of_lt hc0)
    have k3 : w * c * u ≤ (z1 + z1 * u) * c * u := mul_le_mul_of_nonneg_right k1' hu0
    have k4 : z1 * c * u * u ≤ z1 * c * u * 1 :=
      mul_le_mul_of_nonneg_left hu1 (mul_nonneg hx0 hu0)
    have e1 : (z1 + z1 * u) * c = z1 * c + z1 * c * u := by ring
    have e2 : (z1 - z1 * u) * c = z1 * c - z1 * c * u := by ring
    have e3 : (z1 + z1 * u) * c * u = z1 * c * u + z1 * c * u * u := by ring
    have e4 : 3 * (z1 * c) * u = 3 * (z1 * c * u) := by ring
    constructor
    · linarith [hE2.1]
    · linarith [hE2.2]
  · intro t ht
    obtain ⟨m1, j1, m2, j2, r1, r2, r3, r4, r5, r6⟩ := htie t ht
    have hw := hA3 m1 j1 r1 r2 r3
    have hz2x : ((q1 * cn : Nat) : ℚ) / ((2 ^ (k1 + ce) : Nat) : ℚ)
        = ((N * cn : Nat) : ℚ) / ((D * 2 ^ ce : Nat) : ℚ) :=
      calc ((q1 * cn : Nat) : ℚ) / ((2 ^ (k1 + ce) : Nat) : ℚ)
          = (q1 : ℚ) / 2 ^ k1 * ((cn : ℚ) / 2 ^ ce) := hz2c
        _ = (N : ℚ) / D * ((cn : ℚ) / 2 ^ ce) := congrArg (fun z => z * ((cn : ℚ) / 2 ^ ce)) hw
        _ = ((N * cn : Nat) : ℚ) / ((D * 2 ^ ce : Nat) : ℚ) := hxc.symm
    exact (hB3 m2 j2 (hz2x.trans r4) r5 r6).trans hz2x



theorem px_tie (N kf : Nat) (hN : N < 2 ^ 46) (t : Nat)
    (ht : 2 * (N * 3) = 10 ^ kf * 2 ^ 2 * (2 * t + 1)) :
    ∃ m1 j1 m2 j2 : Nat, (N : ℚ) / ((10 ^ kf : Nat) : ℚ) = m1 / 2 ^ j1 ∧ m1 < 2 ^ 53 ∧ j1 ≤ 1074
      ∧ ((N * 3 : Nat) : ℚ) / ((10 ^ kf * 2 ^ 2 : Nat) : ℚ) = m2 / 2 ^ j2
      ∧ m2 < 2 ^ 53 ∧ j2 ≤ 1074 := by
  have hD : 0 < 10 ^ kf := by positivity
  have hcop : Nat.Coprime 3 (10 ^ kf) := Nat.Coprime.pow_right kf (by decide)
  generalize 10 ^ kf = D at ht hD hcop ⊢
  have hcop2 : Nat.Coprime 3 (2 * D) := Nat.Coprime.mul_right (by decide) hcop
  have h3 : 3 * N = 2 * D * (2 * t + 1) := by
    have : (2 : Nat) ^ 2 = 4 := by norm_num
    rw [this] at ht
    nlinarith
  have hdvd : 3 ∣ 2 * D * (2 * t + 1) := ⟨N, h3.symm⟩
  obtain ⟨s, hs⟩ := hcop2.dvd_of_dvd_mul_left hdvd
  have hN2 : N = 2 * D * s := by
    rw [hs] at h3
    nlinarith
  have hDq : (0 : ℚ) < D := by exact_mod_cast hD
  have hsN : 2 * s ≤ N := by
    rw [hN2]
    calc 2 * s = 2 * 1 * s := by ring
      _ ≤ 2 * D * s := Nat.mul_le_mul_right s (Nat.mul_le_mul_left 2 hD)
  have h53 : (2 : Nat) ^ 53 = 2 ^ 46 * 128 := by norm_num
  refine ⟨2 * s, 0, 3 * s, 1, ?_, by omega, by norm_num, ?_, by omega, by norm_num⟩
  · rw [hN2]
    push_cast
    field_simp
    ring
  · rw [hN2]
    push_cast
    field_simp
    ring

theorem em_tie (N kf : Nat) (hN : N < 2 ^ 46) (t : Nat)
    (ht : 2 * (N * 12) = 10 ^ kf * 2 ^ 0 * (2 * t + 1)) :
    ∃ m1 j1 m2 j2 : Nat, (N : ℚ) / ((10 ^ kf : Nat) : ℚ) = m1 / 2 ^ j1 ∧ m1 < 2 ^ 53 ∧ j1 ≤ 1074
      ∧ ((N * 12 : Nat) : ℚ) / ((10 ^ kf * 2 ^ 0 : Nat) : ℚ) = m2 / 2 ^ j2
      ∧ m2 < 2 ^ 53 ∧ j2 ≤ 1074 := by
  have hD : 0 < 10 ^ kf := by positivity
  have hcop : Nat.Coprime 3 (10 ^ kf) := Nat.Coprime.pow_right kf (by decide)
  generalize 10 ^ kf = D at ht hD hcop ⊢
  have h3 : 3 * (8 * N) = D * (2 * t + 1) := by
    rw [pow_zero, mul_one] at ht
    omega
  have hdvd : 3 ∣ D * (2 * t + 1) := ⟨8 * N, h3.symm⟩
  obtain ⟨s, hs⟩ := hcop.dvd_of_dvd_mul_left hdvd
  have hN2 : 8 * N = D * s := by
    rw [hs] at h3
    nlinarith
  have hDq : (0 : ℚ) < D := by exact_mod_cast hD
  have hsN : s ≤ 8 * N := by
    rw [hN2]
    exact Nat.le_mul_of_pos_left s hD
  have h53 : (2 : Nat) ^ 53 = 2 ^ 46 * 128 := by norm_num
  have hq : (8 : ℚ) * N = D * s := by exact_mod_cast hN2
  refine ⟨s, 3, 3 * s, 1, ?_, by omega, by norm_num, ?_, by omega, by norm_num⟩
  · rw [div_eq_div_iff (ne_of_gt hDq) (by positivity)]
    norm_num
    linarith
  · push_cast
    rw [div_eq_div_iff (by positivity) (by positivity)]
    norm_num
    linarith

theorem convertSize_exact (ip fp : Str) (u : SizeUnit)
    (h : digitsValue 10 (ip ++ fp) < 2 ^ 46) :
    convertSize ip fp u = ((specSize ip fp u : Nat) : ℕ∞) := by
  have hD : 0 < 10 ^ fp.length := by positivity
  have h53 : (2 : Nat) ^ 53 = 2 ^ 46 * 128 := by norm_num
  unfold convertSize specSize parseFloatDigits
  simp only []
  generalize digitsValue 10 (ip ++ fp) = N at h ⊢
  cases u with
  | pt => exact point_size_exact N _ hD h
  | px =>
    obtain ⟨q1, k1, heq, hr⟩ := two_roundings N (10 ^ fp.length) 3 2 hD (by norm_num)
      (by norm_num) (by omega) (px_tie N fp.length h)
    simp only [heq, Mag.scale, roundDyadic]
    have hneg : ¬ (0 : Int) ≤ -(k1 : Int) + -2 := by omega
    have hk : (-(-(k1 : Int) + -2)).toNat = k1 + 2 := by omega
    rw [if_neg hneg, hk, hr]
    norm_num
  | em =>
    obtain ⟨q1, k1, heq, hr⟩ := two_roundings N (10 ^ fp.length) 12 0 hD (by norm_num)
      (by norm_num) (by omega) (em_tie N fp.length h)
    simp only [heq, Mag.scale, roundDyadic]
    rw [add_zero] at hr
    by_cases hk0 : k1 = 0
    · subst hk0
      simp only [CharP.cast_eq_zero, neg_zero, add_zero, le_refl, if_true, Int.toNat_zero,
        pow_zero, mul_one] at hr ⊢
      exact hr
    · have hneg : ¬ (0 : Int) ≤ -(k1 : Int) + 0 := by omega
      have hk : (-(-(k1 : Int) + 0)).toNat = k1 := by omega
      rw [if_neg hneg, hk, hr]
      norm_num
  | rem =>
    obtain ⟨q1, k1, heq, hr⟩ := two_roundings N (10 ^ fp.length) 12 0 hD (by norm_num)
      (by norm_num) (by omega) (em_tie N fp.length h)
    simp only [heq, Mag.scale, roundDyadic]
    rw [add_zero] at hr
    by_cases hk0 : k1 = 0
    · subst hk0
      simp only [CharP.cast_eq_zero, neg_zero, add_zero, le_refl, if_true, Int.toNat_zero,
        pow_zero, mul_one] at hr ⊢
      exact hr
    · have hneg : ¬ (0 : Int) ≤ -(k1 : Int) + 0 := by omega
      have hk : (-(-(k1 : Int) + 0)).toNat = k1 := by omega
      rw [if_neg hneg, hk, hr]
      norm_num


theorem firstMatch_skip {α : Type} (m : Str → Option α) (pre s : Str)
    (h : ∀ c ∈ pre, ∀ t, m (c :: t) = none) : firstMatch m (pre ++ s) = firstMatch m s := by
  induction pre with
  | nil => rfl
  | cons c cs ih =>
    rw [List.cons_append, firstMatch, h c (List.mem_cons_self _ _)]
    exact ih (fun d hd => h d (List.mem_cons_of_mem _ hd))

theorem fontSizeAt_not_f (c : Char) (t : Str) (h : c.toLower ≠ 'f') :
    fontSizeAt (c :: t) = none := by
  have e : "font-size:".toList = 'f' :: "ont-size:".toList := by decide
  unfold fontSizeAt
  rw [e, litCI]
  have : (c.toLower == 'f') = false := by simpa using h
  rw [this]
  rfl

theorem toLower_digit (c : Char) (h : isDecDigit c = true) : c.toLower = c := by
  have hc := (isDecDigit_iff c).mp h
  have hn : ¬ (c.toNat ≥ 65 ∧ c.toNat ≤ 90) := by omega
  show (if c.toNat ≥ 65 ∧ c.toNat ≤ 90 then Char.ofNat (c.toNat + 32) else c) = c
  rw [if_neg hn]

theorem letter_not_digit (c l : Char) (hl : c.toLower = l) (hnd : isDecDigit l = false) :
    isDecDigit c = false := by
  rw [Bool.eq_false_iff]
  intro h
  rw [toLower_digit c h] at hl
  rw [hl] at h
  rw [h] at hnd
  cases hnd

theorem unitText_head (u : SizeUnit) (ut : Str) (hut : ut.map Char.toLower = unitText u) :
    ∃ c cs, ut = c :: cs ∧ isDecDigit c = false ∧ c ≠ '.' := by
  cases ut with
  | nil => cases u <;> simp [unitText] at hut
  | cons c cs =>
    refine ⟨c, cs, rfl, ?_, ?_⟩
    · cases u <;> simp only [unitText, List.map_cons] at hut
      · exact letter_not_digit c 'p' (by simpa using (List.cons.inj hut).1) (by decide)
      · exact letter_not_digit c 'p' (by simpa using (List.cons.inj hut).1) (by decide)
      · exact letter_not_digit c 'e' (by simpa using (List.cons.inj hut).1) (by decide)
      · exact letter_not_digit c 'r' (by simpa using (List.cons.inj hut).1) (by decide)
    · intro hc
      subst hc
      cases u <;> simp [unitText] at hut

theorem unitAt_complete (u : SizeUnit) (ut rest : Str)
    (hut : ut.map Char.toLower = unitText u) : unitAt (ut ++ rest) = some u := by
  have hyes : litCI (unitText u) (ut ++ rest) = some rest :=
    (litCI_eq_some _ _ _).mpr ⟨ut, rfl, hut⟩
  have hno : ∀ l : Str, l.length = 2 → l ≠ (ut.take 2).map Char.toLower →
      litCI l (ut ++ rest) = none := by
    intro l hl hne
    cases h : litCI l (ut ++ rest) with
    | none => rfl
    | some r =>
      exfalso
      obtain ⟨p, hp1, hp2⟩ := (litCI_eq_some _ _ _).mp h
      apply hne
      have hlen : p.length = 2 := by rw [← hl, ← hp2, List.length_map]
      have hut2 : 2 ≤ ut.length := by
        have := congrArg List.length hut
        rw [List.length_map] at this
        rw [this]
        cases u <;> decide
      have e1 : (ut ++ rest).take 2 = ut.take 2 := List.take_append_of_le_length hut2
      have e2 : (p ++ r).take 2 = p := by
        rw [List.take_append_of_le_length (by omega), List.take_of_length_le (by omega)]
      have : p = ut.take 2 := by rw [← e2, ← hp1, e1]
      rw [← this, hp2]
  have htake : (ut.take 2).map Char.toLower = (unitText u).take 2 := by
    rw [List.map_take, hut]
  unfold unitAt
  cases u with
  | px =>
    have : litCI "px".toList (ut ++ rest) = some rest := hyes
    rw [this]; rfl
  | pt =>
    have h1 : litCI "px".toList (ut ++ rest) = none :=
      hno _ (by decide) (by rw [htake]; decide)
    have h2 : litCI "pt".toList (ut ++ rest) = some rest := hyes
    rw [h1, h2]; rfl
  | em =>
    have h1 : litCI "px".toList (ut ++ rest) = none :=
      hno _ (by decide) (by rw [htake]; decide)
    have h2 : litCI "pt".toList (ut ++ rest) = none :=
      hno _ (by decide) (by rw [htake]; decide)
    have h3 : litCI "em".toList (ut ++ rest) = some rest := hyes
    rw [h1, h2, h3]; rfl
  | rem =>
    have h1 : litCI "px".toList (ut ++ rest) = none :=
      hno _ (by decide) (by rw [htake]; decide)
    have h2 : litCI "pt".toList (ut ++ rest) = none :=
      hno _ (by decide) (by rw [htake]; decide)
    have h3 : litCI "em".toList (ut ++ rest) = none :=
      hno _ (by decide) (by rw [htake]; decide)
    have h4 : litCI "rem".toList (ut ++ rest) = some rest := hyes
    rw [h1, h2, h3, h4]; rfl

theorem fontSizeAt_complete (p ws ip fp ut rest : Str) (u : SizeUnit)
    (hp : p.map Char.toLower = "font-size:".toList)
    (hws : ∀ c ∈ ws, isJsSpace c = true)
    (hip : ip ≠ []) (hdi : ∀ c ∈ ip, isDecDigit c = true) (hdf : ∀ c ∈ fp, isDecDigit c = true)
    (hut : ut.map Char.toLower = unitText u) :
    fontSizeAt (p ++ (ws ++ (ip ++ (fracText fp ++ (ut ++ rest))))) = some (ip, fp, u) := by
  obtain ⟨c, cs, hc, hcd, hcdot⟩ := unitText_head u ut hut
  have hlit : litCI "font-size:".toList (p ++ (ws ++ (ip ++ (fracText fp ++ (ut ++ rest)))))
      = some (ws ++ (ip ++ (fracText fp ++ (ut ++ rest)))) :=
    (litCI_eq_some _ _ _).mpr ⟨p, rfl, hp⟩
  have hstop1 : ∀ x, (ip ++ (fracText fp ++ (ut ++ rest))).head? = some x →
      isJsSpace x = false :=
    fun x hx => digit_not_space x (hdi x (head_append_ne_nil hip hx))
  have hstopU : ∀ x, (ut ++ rest).head? = some x → isDecDigit x = false := by
    intro x hx
    rw [hc] at hx
    simp at hx
    exact hx ▸ hcd
  have hstop2 : ∀ x, (fracText fp ++ (ut ++ rest)).head? = some x → isDecDigit x = false := by
    intro x hx
    unfold fracText at hx
    by_cases hf : fp = []
    · rw [if_pos hf] at hx
      exact hstopU x hx
    · rw [if_neg hf] at hx
      simp at hx
      subst hx
      decide
  unfold fontSizeAt
  rw [hlit]
  simp only []
  rw [dropWhile_append_stop ws _ hws hstop1, takeWhile_append_stop ip _ hdi hstop2,
    dropWhile_append_stop ip _ hdi hstop2, if_neg hip]
  unfold fracText
  by_cases hf : fp = []
  · rw [if_pos hf, List.nil_append, hf]
    rw [hc]
    have hu := unitAt_complete u ut rest hut
    rw [hc] at hu
    simp only [List.cons_append] at hu ⊢
    split
    · rename_i t3 heq
      exact absurd (List.cons.inj heq).1 hcdot
    · rw [hu]; rfl
  · rw [if_neg hf]
    simp only [List.cons_append]
    rw [takeWhile_append_stop fp _ hdf hstopU, dropWhile_append_stop fp _ hdf hstopU,
      if_neg hf, unitAt_complete u ut rest hut]
    rfl


theorem firstMatch_skip_of {α : Type} (m : Str → Option α) (pre s : Str)
    (h : ∀ a b, pre = a ++ b → b ≠ [] → m (b ++ s) = none) :
    firstMatch m (pre ++ s) = firstMatch m s := by
  induction pre with
  | nil => rfl
  | cons c cs ih =>
    rw [List.cons_append, firstMatch]
    have h0 := h [] (c :: cs) rfl (List.cons_ne_nil _ _)
    rw [List.cons_append] at h0
    rw [h0]
    exact ih (fun a b hab hb => h (c :: a) b (by rw [hab]; rfl) hb)

theorem none_before_of_tails {α : Type} (m : Str → Option α) (pre s : Str)
    (h : ∀ b ∈ pre.tails, b ≠ [] → m (b ++ s) = none) :
    ∀ a b, pre = a ++ b → b ≠ [] → m (b ++ s) = none := by
  intro a b hab hb
  exact h b ((List.mem_tails _ _).2 ⟨a, hab.symm⟩) hb

theorem unitAt_sound (s : Str) (u : SizeUnit) (h : unitAt s = some u) :
    ∃ ut rest, s = ut ++ rest ∧ ut.map Char.toLower = unitText u := by
  have key : ∀ l : Str, (litCI l s).isSome = true →
      ∃ ut rest, s = ut ++ rest ∧ ut.map Char.toLower = l := by
    intro l hl
    obtain ⟨r, hr⟩ := Option.isSome_iff_exists.1 hl
    obtain ⟨p, hp1, hp2⟩ := (litCI_eq_some _ _ _).1 hr
    exact ⟨p, r, hp1, hp2⟩
  unfold unitAt at h
  split_ifs at h with h1 h2 h3 h4
  · cases h; exact key _ h1
  · cases h; exact key _ h2
  · cases h; exact key _ h3
  · cases h; exact key _ h4

theorem fontSizeAt_sound (t : Str) (x : Str × Str × SizeUnit) (h : fontSizeAt t = some x) :
    StartsWithSize t := by
  unfold fontSizeAt at h
  cases hl : litCI "font-size:".toList t with
  | none => rw [hl] at h; cases h
  | some t0 =>
    rw [hl] at h
    simp only [] at h
    obtain ⟨p, hp1, hp2⟩ := (litCI_eq_some _ _ _).1 hl
    have e0 : t0 = t0.takeWhile isJsSpace ++ t0.dropWhile isJsSpace :=
      (List.takeWhile_append_dropWhile _ _).symm
    have e1 : t0.dropWhile isJsSpace
        = (t0.dropWhile isJsSpace).takeWhile isDecDigit
          ++ (t0.dropWhile isJsSpace).dropWhile isDecDigit :=
      (List.takeWhile_append_dropWhile _ _).symm
    generalize hws : t0.takeWhile isJsSpace = ws at e0
    generalize ht1 : t0.dropWhile isJsSpace = t1 at e0 e1 h
    generalize hip : t1.takeWhile isDecDigit = ip at e1 h
    generalize ht2 : t1.dropWhile isDecDigit = t2 at e1 h
    have hwsp : ∀ c ∈ ws, isJsSpace c = true := by
      rw [← hws]; exact mem_takeWhile_true _
    have hipd : ∀ c ∈ ip, isDecDigit c = true := by
      rw [← hip]; exact mem_takeWhile_true _
    by_cases hne : ip = []
    · rw [if_pos hne] at h; cases h
    · rw [if_neg hne] at h
      by_cases hdot : ∃ t3, t2 = '.' :: t3
      · obtain ⟨t3, ht3⟩ := hdot
        subst ht3
        simp only [] at h
        have e3 : t3 = t3.takeWhile isDecDigit ++ t3.dropWhile isDecDigit :=
          (List.takeWhile_append_dropWhile _ _).symm
        generalize hfp : t3.takeWhile isDecDigit = fp at e3 h
        generalize ht4 : t3.dropWhile isDecDigit = t4 at e3 h
        have hfpd : ∀ c ∈ fp, isDecDigit c = true := by
          rw [← hfp]; exact mem_takeWhile_true _
        by_cases hf : fp = []
        · rw [if_pos hf] at h; cases h
        · rw [if_neg hf] at h
          cases hu : unitAt t4 with
          | none => rw [hu] at h; cases h
          | some u =>
            obtain ⟨ut, rest, hs, hut⟩ := unitAt_sound _ _ hu
            refine ⟨p, ws, ip, fp, ut, rest, u, ?_, hp2, hwsp, hne, hipd, hfpd, hut⟩
            rw [hp1, e0, e1, e3, hs, fracText, if_neg hf]
            simp
      · have h2 : (unitAt t2).map (fun u => (ip, ([] : Str), u)) = some x := by
          cases t2 with
          | nil => exact h
          | cons c cs =>
            by_cases hc : c = '.'
            · exact absurd ⟨cs, by rw [hc]⟩ hdot
            · simpa [hc] using h
        cases hu : unitAt t2 with
        | none => rw [hu] at h2; cases h2
        | some u =>
          obtain ⟨ut, rest, hs, hut⟩ := unitAt_sound _ _ hu
          refine ⟨p, ws, ip, [], ut, rest, u, ?_, hp2, hwsp, hne, hipd, ?_, hut⟩
          · rw [hp1, e0, e1, hs, fracText, if_pos rfl]
            simp
          · intro c hc; cases hc

theorem fontSizeAt_none_of_not_starts (t : Str) (h : ¬ StartsWithSize t) :
    fontSizeAt t = none := by
  cases hf : fontSizeAt t with
  | none => rfl
  | some x => exact absurd (fontSizeAt_sound t x hf) h

theorem not_starts_of_fontSizeAt_none (t : Str) (h : fontSizeAt t = none) :
    ¬ StartsWithSize t := by
  rintro ⟨p, ws, ip, fp, ut, rest, u, ht, hp, hws, hip, hdi, hdf, hut⟩
  rw [ht, fontSizeAt_complete p ws ip fp ut rest u hp hws hip hdi hdf hut] at h
  cases h

/-- C6 (as amended): take a `style` attribute in which a `font-size` declaration is the first
one (no earlier position of the attribute starts with such a declaration; any other text may
come before it), with a value whose digits, read as one number without the point, stay below
`2 ^ 46` (every value of at most 13 significant digits does) and a unit `px`, `pt`, `em` or
`rem` in either case.  The size collected is the integer nearest to the value times 0.75 for
`px`, times 12 for `em` and `rem`, and to the value itself for `pt`, a tie going to the larger
integer. -/
theorem font_size_collected (pre p ws ip fp ut rest : Str) (u : SizeUnit)
    (hpre : ∀ a b, pre = a ++ b → b ≠ [] →
      ¬ StartsWithSize (b ++ (p ++ (ws ++ (ip ++ (fracText fp ++ (ut ++ rest)))))))
    (hp : p.map Char.toLower = "font-size:".toList)
    (hws : ∀ c ∈ ws, isJsSpace c = true)
    (hip : ip ≠ [])
    (hdi : ∀ c ∈ ip, isDecDigit c = true)
    (hdf : ∀ c ∈ fp, isDecDigit c = true)
    (hut : ut.map Char.toLower = unitText u)
    (hN : digitsValue 10 (ip ++ fp) < 2 ^ 46) :
    styleSize (pre ++ (p ++ (ws ++ (ip ++ (fracText fp ++ (ut ++ rest))))))
      = some ((specSize ip fp u : Nat) : ℕ∞) := by
  unfold styleSize
  rw [firstMatch_skip_of _ pre _
      (fun a b hab hb => fontSizeAt_none_of_not_starts _ (hpre a b hab hb)),
    firstMatch_head _ _ _ (fontSizeAt_complete p ws ip fp ut rest u hp hws hip hdi hdf hut)]
  simp only [Option.map]
  rw [convertSize_exact ip fp u hN]

set_option maxRecDepth 1000000 in
/-- C6 at `font-family:Arial;font-size: 18px`: the declaration of the size follows another
declaration, the value 13.5 lies halfway and the size collected is 14. -/
theorem font_size_collected_witness :
    (∀ a b, "font-family:Arial;".toList = a ++ b → b ≠ [] →
        ¬ StartsWithSize (b ++ "font-size: 18px".toList))
    ∧ "font-size:".toList.map Char.toLower = "font-size:".toList
    ∧ (∀ c ∈ [' '], isJsSpace c = true)
    ∧ "18".toList ≠ []
    ∧ (∀ c ∈ "18".toList, isDecDigit c = true)
    ∧ (∀ c ∈ ([] : Str), isDecDigit c = true)
    ∧ "px".toList.map Char.toLower = unitText .px
    ∧ digitsValue 10 ("18".toList ++ []) < 2 ^ 46
    ∧ styleSize "font-family:Arial;font-size: 18px".toList = some 14 :=
  have h0 : ∀ a b, "font-family:Arial;".toList = a ++ b → b ≠ [] →
      ¬ StartsWithSize (b ++ "font-size: 18px".toList) :=
    fun a b hab hb => not_starts_of_fontSizeAt_none _
      (none_before_of_tails fontSizeAt _ _ (by decide) a b hab hb)
  ⟨h0, by decide, by decide, by decide, by decide, by decide, by decide, by decide,
    font_size_collected "font-family:Arial;".toList "font-size:".toList [' '] "18".toList []
      "px".toList [] .px h0 (by decide) (by decide) (by decide) (by decide) (by decide)
      (by decide) (by decide)⟩

set_option maxRecDepth 1000000 in
/-- C6 (counterexample): for `font-size:0.6666666666666666px` the exact product
0.49999999999999995 has 0 as its nearest integer, but the double-precision product is 0.5 and the
size collected is 1; for `font-size:3.49999999999999999999pt` the nearest integer is 3 and the
size collected is 4. And a declaration that is not the first one of its attribute is not read:
`font-size:12px;font-size:18px` contributes the size 9 alone, not the 14 of its second
declaration. -/
theorem font_size_long_fraction :
    styleSize "font-size:0.6666666666666666px".toList = some 1
    ∧ specSize "0".toList "6666666666666666".toList .px = 0
    ∧ styleSize "font-size:3.49999999999999999999pt".toList = some 4
    ∧ specSize "3".toList "49999999999999999999".toList .pt = 3
    ∧ fontSizes ["font-size:12px;font-size:18px".toList] = [9]
    ∧ specSize "18".toList [] .px = 14 := by
  decide

/-! ## The font names -/

theorem dropWhile_head_false {p : Char → Bool} (l : Str)
    (h : ∀ x, l.head? = some x → p x = false) : l.dropWhile p = l := by
  cases l with
  | nil => rfl
  | cons a t => simp [List.dropWhile_cons, h a rfl]

theorem head_dropWhile_false {p : Char → Bool} (l : Str) (c : Char)
    (h : (l.dropWhile p).head? = some c) : p c = false := by
  induction l with
  | nil => simp at h
  | cons a t ih =>
    rw [List.dropWhile_cons] at h
    by_cases ha : p a = true
    · rw [if_pos ha] at h; exact ih h
    · rw [if_neg ha] at h
      simp only [List.head?_cons, Option.some.injEq] at h
      rw [← h]; simpa using ha

theorem head_dropWhile_true {p : Char → Bool} (l : Str) (c : Char)
    (h : (l.dropWhile (fun x => !p x)).head? = some c) : p c = true := by
  have := head_dropWhile_false (p := fun x => !p x) l c h
  simpa using this

theorem space_plain (c : Char) (h : isJsSpace c = true) :
    (c != ',') = true ∧ (c != Char.ofNat 34 && c != Char.ofNat 39) = true := by
  refine ⟨?_, ?_⟩
  · by_cases hc : c = ','
    · subst hc; revert h; decide
    · simpa using hc
  · by_cases h1 : c = Char.ofNat 34
    · subst h1; revert h; decide
    · by_cases h2 : c = Char.ofNat 39
      · subst h2; revert h; decide
      · simp [h1, h2]

/-- What `trim` returns: the text without a run of white space at its start and one at its
end, the rest neither starting nor ending with white space. -/
theorem trim_spec (x : Str) :
    ∃ l r : Str, x = l ++ (trim x ++ r)
      ∧ (∀ c ∈ l, isJsSpace c = true) ∧ (∀ c ∈ r, isJsSpace c = true)
      ∧ (∀ c, (trim x).head? = some c → isJsSpace c = false)
      ∧ (∀ c, (trim x).getLast? = some c → isJsSpace c = false) := by
  have ex : x = x.takeWhile isJsSpace ++ x.dropWhile isJsSpace :=
    (List.takeWhile_append_dropWhile _ _).symm
  have hy : ∀ c, (x.dropWhile isJsSpace).head? = some c → isJsSpace c = false :=
    fun c hc => head_dropWhile_false x c hc
  generalize hyd : x.dropWhile isJsSpace = y at ex hy
  have ey : y.reverse = y.reverse.takeWhile isJsSpace ++ y.reverse.dropWhile isJsSpace :=
    (List.takeWhile_append_dropWhile _ _).symm
  have ey2 : y = (y.reverse.dropWhile isJsSpace).reverse
      ++ (y.reverse.takeWhile isJsSpace).reverse := by
    have := congrArg List.reverse ey
    rw [List.reverse_reverse, List.reverse_append] at this
    exact this
  have ht : trim x = (y.reverse.dropWhile isJsSpace).reverse := by
    unfold trim; rw [hyd]
  refine ⟨x.takeWhile isJsSpace, (y.reverse.takeWhile isJsSpace).reverse, ?_,
    mem_takeWhile_true _, ?_, ?_, ?_⟩
  · rw [ht, ← ey2]; exact ex
  · intro c hc
    exact mem_takeWhile_true _ c (List.mem_reverse.1 hc)
  · intro c hc
    rw [ht] at hc
    apply hy c
    rw [ey2]
    cases hn : (y.reverse.dropWhile isJsSpace).reverse with
    | nil => rw [hn] at hc; simp at hc
    | cons a t => rw [hn] at hc; simpa using hc
  · intro c hc
    rw [ht, List.getLast?_reverse] at hc
    exact head_dropWhile_false _ c hc

theorem trim_append_left (w z : Str) (hw : ∀ c ∈ w, isJsSpace c = true) :
    trim (w ++ z) = trim z := by
  unfold trim
  rw [List.dropWhile_append_of_pos hw]

theorem trim_spaces (w : Str) (hw : ∀ c ∈ w, isJsSpace c = true) : trim w = [] := by
  have := trim_append_left w [] hw
  rw [List.append_nil] at this
  rw [this]; rfl

theorem filter_spaces (w : Str) (hw : ∀ c ∈ w, isJsSpace c = true) :
    w.filter (fun c => c != Char.ofNat 34 && c != Char.ofNat 39) = w :=
  List.filter_eq_self.2 (fun c hc => (space_plain c (hw c hc)).2)

theorem takeWhile_spaces (w : Str) (hw : ∀ c ∈ w, isJsSpace c = true) :
    w.takeWhile (fun c => c != ',') = w :=
  List.takeWhile_eq_self_iff.2 (fun c hc => (space_plain c (hw c hc)).1)

/-- The name taken from the capture of the pattern equals the name taken from the whole value
of the declaration: the white space that the pattern skips is white space that `trim`
removes. -/
theorem fontName_of_capture (value : Str) :
    trim (((if (value.takeWhile isJsSpace).length < value.length
          then value.drop (value.takeWhile isJsSpace).length
          else value.drop (value.length - 1)).takeWhile (fun c => c != ',')).filter
        (fun c => c != Char.ofNat 34 && c != Char.ofNat 39))
      = trim ((value.takeWhile (fun c => c != ',')).filter
          (fun c => c != Char.ofNat 34 && c != Char.ofNat 39)) := by
  have ex : value.takeWhile isJsSpace ++ value.dropWhile isJsSpace = value :=
    List.takeWhile_append_dropWhile _ _
  have hw : ∀ c ∈ value.takeWhile isJsSpace, isJsSpace c = true := mem_takeWhile_true _
  generalize value.takeWhile isJsSpace = w at ex hw
  generalize value.dropWhile isJsSpace = y at ex
  subst ex
  by_cases hy : y = []
  · subst hy
    rw [List.append_nil] at *
    rw [if_neg (lt_irrefl _)]
    have hd : ∀ c ∈ w.drop (w.length - 1), isJsSpace c = true :=
      fun c hc => hw c (List.mem_of_mem_drop hc)
    rw [takeWhile_spaces _ hd, filter_spaces _ hd, trim_spaces _ hd,
      takeWhile_spaces _ hw, filter_spaces _ hw, trim_spaces _ hw]
  · have hlen : w.length < (w ++ y).length := by
      rw [List.length_append]
      have := List.length_pos.2 hy
      omega
    rw [if_pos hlen, List.drop_left,
      List.takeWhile_append_of_pos (fun c hc => (space_plain c (hw c hc)).1),
      List.filter_append, filter_spaces _ hw, trim_append_left _ _ hw]

theorem fontFamilyAt_sound (t cap : Str) (h : fontFamilyAt t = some cap) :
    StartsWithFamily t := by
  unfold fontFamilyAt at h
  cases hl : litCI "font-family:".toList t with
  | none => rw [hl] at h; cases h
  | some t0 =>
    rw [hl] at h
    simp only [] at h
    obtain ⟨p, hp1, hp2⟩ := (litCI_eq_some _ _ _).1 hl
    cases t0 with
    | nil => simp at h
    | cons c r =>
      by_cases hc : c = ';'
      · subst hc; simp at h
      · exact ⟨p, c, r, hp1, hp2, hc⟩

theorem fontFamilyAt_value (p value rest : Str)
    (hp : p.map Char.toLower = "font-family:".toList) (hv : value ≠ [])
    (hsemi : ';' ∉ value) (hrest : ∀ c, rest.head? = some c → c = ';') :
    fontFamilyAt (p ++ (value ++ rest))
      = some (if (value.takeWhile isJsSpace).length < value.length
          then value.drop (value.takeWhile isJsSpace).length
          else value.drop (value.length - 1)) := by
  have hlit : litCI "font-family:".toList (p ++ (value ++ rest)) = some (value ++ rest) :=
    (litCI_eq_some _ _ _).mpr ⟨p, rfl, hp⟩
  have hbody : (value ++ rest).takeWhile (fun c => c != ';') = value := by
    apply takeWhile_append_stop
    · intro c hc
      have : c ≠ ';' := fun e => hsemi (e ▸ hc)
      simpa using this
    · intro c hc
      rw [hrest c hc]; rfl
  unfold fontFamilyAt
  rw [hlit]
  simp only []
  rw [hbody, if_neg hv]
  split_ifs <;> rfl

theorem fontFamilyAt_none_of_not_starts (t : Str) (h : ¬ StartsWithFamily t) :
    fontFamilyAt t = none := by
  cases hf : fontFamilyAt t with
  | none => rfl
  | some x => exact absurd (fontFamilyAt_sound t x hf) h

theorem not_starts_of_fontFamilyAt_none (t : Str) (h : fontFamilyAt t = none) :
    ¬ StartsWithFamily t := by
  rintro ⟨p, c, r, ht, hp, hc⟩
  have hlit : litCI "font-family:".toList t = some (c :: r) :=
    (litCI_eq_some _ _ _).mpr ⟨p, ht, hp⟩
  unfold fontFamilyAt at h
  rw [hlit] at h
  have hb : (c :: r).takeWhile (fun x => x != ';') ≠ [] := by
    rw [List.takeWhile_cons]
    have : (c != ';') = true := by simpa using hc
    rw [this]; simp
  simp only [] at h
  rw [if_neg hb] at h
  split_ifs at h

/-- The name that `styleFont` takes from the first declaration of a `style` attribute. -/
theorem styleFont_first (pre p value rest : Str)
    (hpre : ∀ a b, pre = a ++ b → b ≠ [] → ¬ StartsWithFamily (b ++ (p ++ (value ++ rest))))
    (hp : p.map Char.toLower = "font-family:".toList) (hv : value ≠ [])
    (hsemi : ';' ∉ value) (hrest : ∀ c, rest.head? = some c → c = ';') :
    ∃ name, styleFont (pre ++ (p ++ (value ++ rest))) = some name ∧ IsFontName name value := by
  refine ⟨trim ((value.takeWhile (fun c => c != ',')).filter
    (fun c => c != Char.ofNat 34 && c != Char.ofNat 39)), ?_, ?_⟩
  · unfold styleFont
    rw [firstMatch_skip_of _ pre _
        (fun a b hab hb => fontFamilyAt_none_of_not_starts _ (hpre a b hab hb)),
      firstMatch_head _ _ _ (fontFamilyAt_value p value rest hp hv hsemi hrest)]
    simp only []
    rw [fontName_of_capture]
  · obtain ⟨l, r, hx, hl, hr, hh, hlast⟩ := trim_spec
      ((value.takeWhile (fun c => c != ',')).filter
        (fun c => c != Char.ofNat 34 && c != Char.ofNat 39))
    refine ⟨value.takeWhile (fun c => c != ','), value.dropWhile (fun c => c != ','), l, r,
      (List.takeWhile_append_dropWhile _ _).symm, ?_, ?_, hx, hl, hr, hh, hlast⟩
    · intro hc
      have := mem_takeWhile_true (p := fun c => c != ',') value ',' hc
      simp at this
    · intro c hc
      have := head_dropWhile_false (p := fun c => c != ',') value c hc
      simpa using this

theorem styleFont_eq_none (style : Str) :
    styleFont style = none ↔ ∀ a b, style = a ++ b → ¬ StartsWithFamily b := by
  unfold styleFont
  constructor
  · intro h a b hab
    apply not_starts_of_fontFamilyAt_none
    cases hf : firstMatch fontFamilyAt style with
    | none => exact (firstMatch_eq_none _ _).1 hf a b hab
    | some cap => rw [hf] at h; cases h
  · intro h
    have : firstMatch fontFamilyAt style = none :=
      (firstMatch_eq_none _ _).2 (fun a b hab => fontFamilyAt_none_of_not_starts _ (h a b hab))
    rw [this]

theorem isFontName_unique (name value : Str) (h : IsFontName name value) :
    name = trim ((value.takeWhile (fun c => c != ',')).filter
      (fun c => c != Char.ofNat 34 && c != Char.ofNat 39)) := by
  obtain ⟨token, tail, l, r, hv, hcomma, htail, hf, hl, hr, hh, hlast⟩ := h
  have htok : value.takeWhile (fun c => c != ',') = token := by
    rw [hv]
    apply takeWhile_append_stop
    · intro c hc
      have : c ≠ ',' := fun e => hcomma (e ▸ hc)
      simpa using this
    · intro c hc
      rw [htail c hc]; rfl
  rw [htok, hf, trim_append_left _ _ hl]
  by_cases hn : name = []
  · subst hn
    rw [List.nil_append, trim_spaces _ hr]
  · unfold trim
    have h1 : (name ++ r).dropWhile isJsSpace = name ++ r := by
      apply dropWhile_head_false
      intro x hx
      cases name with
      | nil => exact absurd rfl hn
      | cons a t => exact hh x (by simpa using hx)
    rw [h1, List.reverse_append,
      dropWhile_append_stop r.reverse name.reverse
        (fun c hc => hr c (List.mem_reverse.1 hc))
        (fun c hc => hlast c (by rw [← List.head?_reverse]; exact hc)),
      List.reverse_reverse]

/-- C7: the font name taken from a `style` attribute is the one the specification describes:
when the first `font-family` declaration of the attribute has the value `value` (the text up to
the next `;` or to the end), the name is the first comma-separated token of `value` without
quote characters and without white space at either end, and no other text is such a name; an
attribute in which no declaration starts contributes no name.  The list `F` of the names has no
duplicates, has exactly the names found as its members and lists them in the order of their
first occurrences; `headingFont` is `F[0]`, `bodyFont` is `F[1]` when `F` has at least two
names and `F[0]` otherwise, and both are absent when `F` is empty. -/
theorem fonts_assignment (html txt : Str) (styles : List Str) :
    (fonts styles).Nodup
    ∧ (∀ x, x ∈ fonts styles ↔ x ∈ styles.filterMap styleFont)
    ∧ (fonts styles).Pairwise (SeenBefore (styles.filterMap styleFont))
    ∧ (∀ pre p value rest : Str,
        (∀ a b, pre = a ++ b → b ≠ [] → ¬ StartsWithFamily (b ++ (p ++ (value ++ rest)))) →
        p.map Char.toLower = "font-family:".toList → value ≠ [] → ';' ∉ value →
        (∀ c, rest.head? = some c → c = ';') →
        ∃ name, styleFont (pre ++ (p ++ (value ++ rest))) = some name
          ∧ IsFontName name value ∧ ∀ n, IsFontName n value → n = name)
    ∧ (∀ style : Str,
        styleFont style = none ↔ ∀ a b, style = a ++ b → ¬ StartsWithFamily b)
    ∧ (extractStylesFromDocx ⟨some html, some txt, styles⟩).typography.headingFont
        = (fonts styles)[0]?
    ∧ (extractStylesFromDocx ⟨some html, some txt, styles⟩).typography.bodyFont
        = (if 2 ≤ (fonts styles).length then (fonts styles)[1]? else (fonts styles)[0]?)
    ∧ (fonts styles = [] →
        (extractStylesFromDocx ⟨some html, some txt, styles⟩).typography.headingFont = none
        ∧ (extractStylesFromDocx ⟨some html, some txt, styles⟩).typography.bodyFont = none) := by
  refine ⟨nodup_setOf _, mem_setOf _, pairwise_setOf _, ?_, styleFont_eq_none, ?_, ?_, ?_⟩
  · intro pre p value rest hpre hp hv hsemi hrest
    obtain ⟨name, h1, h2⟩ := styleFont_first pre p value rest hpre hp hv hsemi hrest
    refine ⟨name, h1, h2, ?_⟩
    intro n hn
    rw [isFontName_unique n value hn, isFontName_unique name value h2]
  · simp only [extractStylesFromDocx, assignStyles, emptyStyles]
    split
    · rfl
    · rw [List.getElem?_eq_none (by omega)]
  · simp only [extractStylesFromDocx, assignStyles, emptyStyles]
    by_cases h2 : 1 < (fonts styles).length
    · rw [if_pos h2, if_pos (show 2 ≤ (fonts styles).length by omega)]
    · rw [if_neg h2, if_neg (show ¬ 2 ≤ (fonts styles).length by omega)]
      split
      · rfl
      · rw [List.getElem?_eq_none (by omega)]
  · intro h
    simp [extractStylesFromDocx, assignStyles, emptyStyles, h]

set_option maxRecDepth 1000000 in
/-- C7 at the attribute `color:red;font-family: 'Open Sans', Arial;font-size:12px`: the
declaration of the font follows another declaration, and the name taken is `Open Sans`, the
first token without its apostrophes and without the blank before it. -/
theorem fonts_assignment_witness :
    (∃ name, styleFont ("color:red;".toList ++ ("font-family:".toList
          ++ (quotedValue ++ ";font-size:12px".toList))) = some name
        ∧ IsFontName name quotedValue ∧ ∀ n, IsFontName n quotedValue → n = name)
    ∧ styleFont ("color:red;".toList ++ ("font-family:".toList
          ++ (quotedValue ++ ";font-size:12px".toList))) = some "Open Sans".toList
    ∧ fonts ["color:red;".toList ++ ("font-family:".toList
          ++ (quotedValue ++ ";font-size:12px".toList)), "font-family:Arial".toList,
        "FONT-FAMILY: Open Sans ;".toList, "color:blue".toList]
        = ["Open Sans".toList, "Arial".toList] :=
  ⟨(fonts_assignment [] [] []).2.2.2.1 "color:red;".toList "font-family:".toList quotedValue
      ";font-size:12px".toList
      (fun a b hab hb => not_starts_of_fontFamilyAt_none _
        (none_before_of_tails fontFamilyAt _ _ (by decide) a b hab hb))
      (by decide) (by decide) (by decide) (by decide),
    by decide, by decide⟩

/-! ## Idempotence of `normalizeColor` -/

/-- C11, at the failing input: the three-digit color `#abc` is normalized to `#aabbcc`, which
is not a fixed point, since normalizing it again gives `#AABBCC`. -/
theorem normalizeColor_short_hex_not_fixed :
    normalizeColor "#abc".toList = some "#aabbcc".toList
      ∧ normalizeColor "#aabbcc".toList = some "#AABBCC".toList
      ∧ (normalizeColor "#abc".toList).bind normalizeColor ≠ normalizeColor "#abc".toList := by
  decide

/-! ## `applyExtractedStyles` -/

theorem setColor_frame (h : Heap) (u : Nat) (v : Option Str)
    (set : ColorsObj → JSVal → ColorsObj) :
    (setColor h u v set).profiles = h.profiles ∧ (setColor h u v set).typographies = h.typographies
      ∧ (setColor h u v set).sizes = h.sizes := by
  unfold setColor
  split <;> simp

theorem setFont_frame (h : Heap) (u : Nat) (v : Option Str)
    (set : TypographyObj → JSVal → TypographyObj) :
    (setFont h u v set).profiles = h.profiles ∧ (setFont h u v set).colors = h.colors
      ∧ (setFont h u v set).sizes = h.sizes := by
  unfold setFont
  split <;> simp

theorem setHeadingSize_frame (h : Heap) (u : Nat) (v : Option ℕ∞)
    (set : SizesObj → JSVal → SizesObj) :
    (setHeadingSize h u v set).profiles = h.profiles
      ∧ (setHeadingSize h u v set).colors = h.colors
      ∧ (setHeadingSize h u v set).typographies = h.typographies := by
  unfold setHeadingSize
  split <;> simp

theorem setBodySize_frame (h : Heap) (u : Nat) (v : Option ℕ∞) :
    (setBodySize h u v).profiles = h.profiles ∧ (setBodySize h u v).colors = h.colors
      ∧ (setBodySize h u v).sizes = h.sizes := by
  unfold setBodySize
  split <;> simp

theorem upd_same {α : Type} (f : Nat → α) (a : Nat) (v : α) : upd f a v a = v := by
  simp [upd]

/-- C13, at the failing input: applying an extraction that carries only the first heading
size 40 to the default profile changes the first heading size of the input profile itself
from 32 to 40, because the returned profile shares the nested objects of the input. -/
theorem applyExtractedStyles_mutates_input :
    (defaultHeap.sizesOf 0).h1 = pt 32
      ∧ (applyExtractedStyles defaultHeap 0 onlyH1).2 ≠ 0
      ∧ ((applyExtractedStyles defaultHeap 0 onlyH1).1.sizesOf 0).h1 = pt 40
      ∧ ((applyExtractedStyles defaultHeap 0 onlyH1).1.profiles
          (applyExtractedStyles defaultHeap 0 onlyH1).2).typography
        = ((applyExtractedStyles defaultHeap 0 onlyH1).1.profiles 0).typography := by
  decide

theorem setColor_colors (h : Heap) (u : Nat) (v : Option Str)
    (set : ColorsObj → JSVal → ColorsObj) (a : Nat) :
    (setColor h u v set).colors a
      = if truthyStr v = true ∧ a = (h.profiles u).colors then
          set (h.colors a) (.str (v.getD []))
        else h.colors a := by
  unfold setColor
  by_cases hv : truthyStr v = true
  · by_cases ha : a = (h.profiles u).colors
    · simp [hv, ha, upd]
    · simp [hv, ha, upd]
  · simp [hv]

theorem setFont_typographies (h : Heap) (u : Nat) (v : Option Str)
    (set : TypographyObj → JSVal → TypographyObj) (a : Nat) :
    (setFont h u v set).typographies a
      = if truthyStr v = true ∧ a = (h.profiles u).typography then
          set (h.typographies a) (.str (v.getD []))
        else h.typographies a := by
  unfold setFont
  by_cases hv : truthyStr v = true
  · by_cases ha : a = (h.profiles u).typography
    · simp [hv, ha, upd]
    · simp [hv, ha, upd]
  · simp [hv]

theorem setHeadingSize_sizes (h : Heap) (u : Nat) (v : Option ℕ∞)
    (set : SizesObj → JSVal → SizesObj) (a : Nat) :
    (setHeadingSize h u v set).sizes a
      = if truthySize v = true ∧ a = (h.typographies (h.profiles u).typography).headingSizes then
          set (h.sizes a) (sizeVal (v.getD 0))
        else h.sizes a := by
  unfold setHeadingSize
  by_cases hv : truthySize v = true
  · by_cases ha : a = (h.typographies (h.profiles u).typography).headingSizes
    · simp [hv, ha, upd]
    · simp [hv, ha, upd]
  · simp [hv]

theorem setBodySize_typographies (h : Heap) (u : Nat) (v : Option ℕ∞) (a : Nat) :
    (setBodySize h u v).typographies a
      = if truthySize v = true ∧ a = (h.profiles u).typography then
          { (h.typographies a) with bodySize := sizeVal (v.getD 0) }
        else h.typographies a := by
  unfold setBodySize
  by_cases hv : truthySize v = true
  · by_cases ha : a = (h.profiles u).typography
    · simp [hv, ha, upd]
    · simp [hv, ha, upd]
  · simp [hv]

/-- The profile that `applyExtractedStyles` returns has the property values of the input
profile, so the same nested objects. -/
theorem applyExtractedStyles_profiles (h : Heap) (p : Nat) (e : ExtractedStyles) :
    (applyExtractedStyles h p e).2 = h.next
      ∧ (applyExtractedStyles h p e).1.profiles = upd h.profiles h.next (h.profiles p) := by
  simp [applyExtractedStyles, (setColor_frame _ _ _ _).1, (setFont_frame _ _ _ _).1,
    (setHeadingSize_frame _ _ _ _).1, (setBodySize_frame _ _ _).1]

/-- The colors object of the returned profile, one setter after the other. -/
theorem applyExtractedStyles_colors (h : Heap) (p : Nat) (e : ExtractedStyles) :
    (applyExtractedStyles h p e).1.colorsOf (applyExtractedStyles h p e).2
      = let o := h.colorsOf p
        let o1 := if truthyStr e.colors.primary then
          { o with primary := .str (e.colors.primary.getD []) } else o
        let o2 := if truthyStr e.colors.secondary then
          { o1 with secondary := .str (e.colors.secondary.getD []) } else o1
        let o3 := if truthyStr e.colors.accent then
          { o2 with accent := .str (e.colors.accent.getD []) } else o2
        let o4 := if truthyStr e.colors.text then
          { o3 with text := .str (e.colors.text.getD []) } else o3
        if truthyStr e.colors.background then
          { o4 with background := .str (e.colors.background.getD []) } else o4 := by
  have hp := applyExtractedStyles_profiles h p e
  unfold Heap.colorsOf
  rw [hp.2, hp.1, upd_same]
  simp only [applyExtractedStyles, (setColor_frame _ _ _ _).1, (setFont_frame _ _ _ _).2.1,
    (setHeadingSize_frame _ _ _ _).2.1, (setBodySize_frame _ _ _).2.1, setColor_colors,
    upd_same, and_true]

/-- The typography object of the returned profile. -/
theorem applyExtractedStyles_typography (h : Heap) (p : Nat) (e : ExtractedStyles) :
    (applyExtractedStyles h p e).1.typographyOf (applyExtractedStyles h p e).2
      = let o := h.typographyOf p
        let o1 := if truthyStr e.typography.headingFont then
          { o with headingFont := .str (e.typography.headingFont.getD []) } else o
        let o2 := if truthyStr e.typography.bodyFont then
          { o1 with bodyFont := .str (e.typography.bodyFont.getD []) } else o1
        if truthySize e.typography.bodySize then
          { o2 with bodySize := sizeVal (e.typography.bodySize.getD 0) } else o2 := by
  have hp := applyExtractedStyles_profiles h p e
  unfold Heap.typographyOf
  rw [hp.2, hp.1, upd_same]
  simp only [applyExtractedStyles, (setColor_frame _ _ _ _).1, (setColor_frame _ _ _ _).2.1,
    (setFont_frame _ _ _ _).1,
    (setHeadingSize_frame _ _ _ _).2.2, (setHeadingSize_frame _ _ _ _).1,
    setBodySize_typographies, setFont_typographies,
    upd_same, and_true]

/-- The heading sizes object of the returned profile. -/
theorem applyExtractedStyles_sizes (h : Heap) (p : Nat) (e : ExtractedStyles) :
    (applyExtractedStyles h p e).1.sizesOf (applyExtractedStyles h p e).2
      = let o := h.sizesOf p
        let o1 := if truthySize e.typography.headingSizes.h1 then
          { o with h1 := sizeVal (e.typography.headingSizes.h1.getD 0) } else o
        let o2 := if truthySize e.typography.headingSizes.h2 then
          { o1 with h2 := sizeVal (e.typography.headingSizes.h2.getD 0) } else o1
        if truthySize e.typography.headingSizes.h3 then
          { o2 with h3 := sizeVal (e.typography.headingSizes.h3.getD 0) } else o2 := by
  have ht := applyExtractedStyles_typography h p e
  have hhs : ((applyExtractedStyles h p e).1.typographyOf
      (applyExtractedStyles h p e).2).headingSizes = (h.typographyOf p).headingSizes := by
    rw [ht]
    simp only []
    split_ifs <;> rfl
  unfold Heap.sizesOf
  rw [hhs]
  unfold Heap.typographyOf
  simp only [applyExtractedStyles, (setColor_frame _ _ _ _).1, (setColor_frame _ _ _ _).2.1,
    (setColor_frame _ _ _ _).2.2, (setFont_frame _ _ _ _).2.2, (setFont_frame _ _ _ _).1,
    (setHeadingSize_frame _ _ _ _).2.2, (setHeadingSize_frame _ _ _ _).1,
    (setBodySize_frame _ _ _).2.2, setHeadingSize_sizes, setFont_typographies,
    upd_same, and_true]
  by_cases hf1 : truthyStr e.typography.headingFont = true <;>
    by_cases hf2 : truthyStr e.typography.bodyFont = true <;> simp [hf1, hf2]

/-- Each color of the returned profile is the extracted one when that is truthy and the one
of the input profile before the call otherwise. -/
theorem applyExtractedStyles_color_fields (h : Heap) (p : Nat) (e : ExtractedStyles) :
    ((applyExtractedStyles h p e).1.colorsOf (applyExtractedStyles h p e).2).primary
        = (if truthyStr e.colors.primary then .str (e.colors.primary.getD [])
            else (h.colorsOf p).primary)
      ∧ ((applyExtractedStyles h p e).1.colorsOf (applyExtractedStyles h p e).2).secondary
        = (if truthyStr e.colors.secondary then .str (e.colors.secondary.getD [])
            else (h.colorsOf p).secondary)
      ∧ ((applyExtractedStyles h p e).1.colorsOf (applyExtractedStyles h p e).2).accent
        = (if truthyStr e.colors.accent then .str (e.colors.accent.getD [])
            else (h.colorsOf p).accent)
      ∧ ((applyExtractedStyles h p e).1.colorsOf (applyExtractedStyles h p e).2).text
        = (if truthyStr e.colors.text then .str (e.colors.text.getD [])
            else (h.colorsOf p).text)
      ∧ ((applyExtractedStyles h p e).1.colorsOf (applyExtractedStyles h p e).2).background
        = (if truthyStr e.colors.background then .str (e.colors.background.getD [])
            else (h.colorsOf p).background) := by
  rw [applyExtractedStyles_colors]
  refine ⟨?_, ?_, ?_, ?_, ?_⟩ <;> (simp only []; split_ifs <;> rfl)

/-- Each property of the typography of the returned profile. -/
theorem applyExtractedStyles_typography_fields (h : Heap) (p : Nat) (e : ExtractedStyles) :
    ((applyExtractedStyles h p e).1.typographyOf (applyExtractedStyles h p e).2).headingFont
        = (if truthyStr e.typography.headingFont then .str (e.typography.headingFont.getD [])
            else (h.typographyOf p).headingFont)
      ∧ ((applyExtractedStyles h p e).1.typographyOf (applyExtractedStyles h p e).2).bodyFont
        = (if truthyStr e.typography.bodyFont then .str (e.typography.bodyFont.getD [])
            else (h.typographyOf p).bodyFont)
      ∧ ((applyExtractedStyles h p e).1.typographyOf (applyExtractedStyles h p e).2).bodySize
        = (if truthySize e.typography.bodySize then sizeVal (e.typography.bodySize.getD 0)
            else (h.typographyOf p).bodySize)
      ∧ ((applyExtractedStyles h p e).1.typographyOf (applyExtractedStyles h p e).2).headingWeight
        = (h.typographyOf p).headingWeight
      ∧ ((applyExtractedStyles h p e).1.typographyOf (applyExtractedStyles h p e).2).bodyWeight
        = (h.typographyOf p).bodyWeight
      ∧ ((applyExtractedStyles h p e).1.typographyOf (applyExtractedStyles h p e).2).lineHeight
        = (h.typographyOf p).lineHeight
      ∧ ((applyExtractedStyles h p e).1.typographyOf (applyExtractedStyles h p e).2).letterSpacing
        = (h.typographyOf p).letterSpacing := by
  rw [applyExtractedStyles_typography]
  refine ⟨?_, ?_, ?_, ?_, ?_, ?_, ?_⟩ <;> (simp only []; split_ifs <;> rfl)

/-- Each heading size of the returned profile. -/
theorem applyExtractedStyles_size_fields (h : Heap) (p : Nat) (e : ExtractedStyles) :
    ((applyExtractedStyles h p e).1.sizesOf (applyExtractedStyles h p e).2).h1
        = (if truthySize e.typography.headingSizes.h1 then
            sizeVal (e.typography.headingSizes.h1.getD 0) else (h.sizesOf p).h1)
      ∧ ((applyExtractedStyles h p e).1.sizesOf (applyExtractedStyles h p e).2).h2
        = (if truthySize e.typography.headingSizes.h2 then
            sizeVal (e.typography.headingSizes.h2.getD 0) else (h.sizesOf p).h2)
      ∧ ((applyExtractedStyles h p e).1.sizesOf (applyExtractedStyles h p e).2).h3
        = (if truthySize e.typography.headingSizes.h3 then
            sizeVal (e.typography.headingSizes.h3.getD 0) else (h.sizesOf p).h3) := by
  rw [applyExtractedStyles_sizes]
  refine ⟨?_, ?_, ?_⟩ <;> (simp only []; split_ifs <;> rfl)

/-- C14: the profile returned by `applyExtractedStyles` has the property values of the input
profile outside the extraction schema (id, name, time stamps, logo, header and footer,
watermark, layout, and the weights, line height and letter spacing of the typography), and
each color, font and size for which the extraction carries no value is the one of the input
profile before the call. -/
theorem applyExtractedStyles_keeps_absent (h : Heap) (p : Nat) (e : ExtractedStyles) :
    (applyExtractedStyles h p e).1.profiles (applyExtractedStyles h p e).2 = h.profiles p
      ∧ (((applyExtractedStyles h p e).1.typographyOf (applyExtractedStyles h p e).2).headingWeight
            = (h.typographyOf p).headingWeight
          ∧ ((applyExtractedStyles h p e).1.typographyOf (applyExtractedStyles h p e).2).bodyWeight
            = (h.typographyOf p).bodyWeight
          ∧ ((applyExtractedStyles h p e).1.typographyOf (applyExtractedStyles h p e).2).lineHeight
            = (h.typographyOf p).lineHeight
          ∧ ((applyExtractedStyles h p e).1.typographyOf
              (applyExtractedStyles h p e).2).letterSpacing = (h.typographyOf p).letterSpacing)
      ∧ ((e.colors.primary = none →
            ((applyExtractedStyles h p e).1.colorsOf (applyExtractedStyles h p e).2).primary
              = (h.colorsOf p).primary)
          ∧ (e.colors.secondary = none →
            ((applyExtractedStyles h p e).1.colorsOf (applyExtractedStyles h p e).2).secondary
              = (h.colorsOf p).secondary)
          ∧ (e.colors.accent = none →
            ((applyExtractedStyles h p e).1.colorsOf (applyExtractedStyles h p e).2).accent
              = (h.colorsOf p).accent)
          ∧ (e.colors.text = none →
            ((applyExtractedStyles h p e).1.colorsOf (applyExtractedStyles h p e).2).text
              = (h.colorsOf p).text)
          ∧ (e.colors.background = none →
            ((applyExtractedStyles h p e).1.colorsOf (applyExtractedStyles h p e).2).background
              = (h.colorsOf p).background))
      ∧ ((e.typography.headingFont = none →
            ((applyExtractedStyles h p e).1.typographyOf (applyExtractedStyles h p e).2).headingFont
              = (h.typographyOf p).headingFont)
          ∧ (e.typography.bodyFont = none →
            ((applyExtractedStyles h p e).1.typographyOf (applyExtractedStyles h p e).2).bodyFont
              = (h.typographyOf p).bodyFont)
          ∧ (e.typography.bodySize = none →
            ((applyExtractedStyles h p e).1.typographyOf (applyExtractedStyles h p e).2).bodySize
              = (h.typographyOf p).bodySize))
      ∧ ((e.typography.headingSizes.h1 = none →
            ((applyExtractedStyles h p e).1.sizesOf (applyExtractedStyles h p e).2).h1
              = (h.sizesOf p).h1)
          ∧ (e.typography.headingSizes.h2 = none →
            ((applyExtractedStyles h p e).1.sizesOf (applyExtractedStyles h p e).2).h2
              = (h.sizesOf p).h2)
          ∧ (e.typography.headingSizes.h3 = none →
            ((applyExtractedStyles h p e).1.sizesOf (applyExtractedStyles h p e).2).h3
              = (h.sizesOf p).h3)) := by
  have hp := applyExtractedStyles_profiles h p e
  obtain ⟨c1, c2, c3, c4, c5⟩ := applyExtractedStyles_color_fields h p e
  obtain ⟨t1, t2, t3, t4, t5, t6, t7⟩ := applyExtractedStyles_typography_fields h p e
  obtain ⟨s1, s2, s3⟩ := applyExtractedStyles_size_fields h p e
  refine ⟨by rw [hp.2, hp.1, upd_same], ⟨t4, t5, t6, t7⟩, ⟨?_, ?_, ?_, ?_, ?_⟩, ⟨?_, ?_, ?_⟩,
    ⟨?_, ?_, ?_⟩⟩
  · intro hn; rw [c1, hn]; rfl
  · intro hn; rw [c2, hn]; rfl
  · intro hn; rw [c3, hn]; rfl
  · intro hn; rw [c4, hn]; rfl
  · intro hn; rw [c5, hn]; rfl
  · intro hn; rw [t1, hn]; rfl
  · intro hn; rw [t2, hn]; rfl
  · intro hn; rw [t3, hn]; rfl
  · intro hn; rw [s1, hn]; rfl
  · intro hn; rw [s2, hn]; rfl
  · intro hn; rw [s3, hn]; rfl

/-- An application of C14: with only the first heading size extracted, as 40, the default
profile keeps its second and third heading sizes 24 and 18 and gets 40 as the first. -/
theorem applyExtractedStyles_keeps_absent_witness :
    ((applyExtractedStyles defaultHeap 0 onlyH1).1.sizesOf
        (applyExtractedStyles defaultHeap 0 onlyH1).2).h1 = pt 40
      ∧ ((applyExtractedStyles defaultHeap 0 onlyH1).1.sizesOf
        (applyExtractedStyles defaultHeap 0 onlyH1).2).h2 = pt 24
      ∧ ((applyExtractedStyles defaultHeap 0 onlyH1).1.sizesOf
        (applyExtractedStyles defaultHeap 0 onlyH1).2).h3 = pt 18 :=
  ⟨by decide,
    ((applyExtractedStyles_keeps_absent defaultHeap 0 onlyH1).2.2.2.2.2.1 (by decide)).trans
      (by decide),
    ((applyExtractedStyles_keeps_absent defaultHeap 0 onlyH1).2.2.2.2.2.2 (by decide)).trans
      (by decide)⟩

set_option maxRecDepth 1000000 in
/-- C15, at the failing input: the size 0 that the extraction gets from `font-size:0px` and
the empty font name that it gets from a font family of white space are present in the
extracted styles, yet `applyExtractedStyles` leaves the first heading size of the default
profile at 32 and its heading font at `Playfair Display`. -/
theorem applyExtractedStyles_skips_zero_and_empty :
    (extractStylesFromDocx zeroSize).typography.headingSizes.h1 = some 0
      ∧ ((applyExtractedStyles defaultHeap 0 (extractStylesFromDocx zeroSize)).1.sizesOf
          (applyExtractedStyles defaultHeap 0 (extractStylesFromDocx zeroSize)).2).h1 = pt 32
      ∧ (extractStylesFromDocx blankFont).typography.headingFont = some []
      ∧ ((applyExtractedStyles defaultHeap 0 (extractStylesFromDocx blankFont)).1.typographyOf
          (applyExtractedStyles defaultHeap 0 (extractStylesFromDocx blankFont)).2).headingFont
        = .str "Playfair Display".toList := by
  decide

/-! ## `getExtractionSummary` -/

/-- C16, amended: the summary is the one that the specification words, with the values that
count being the truthy ones: a string that is present and not empty, a size that is present
and not 0. -/
theorem getExtractionSummary_eq_specSummary (e : ExtractedStyles) :
    getExtractionSummary e = specSummary truthyStr truthySize e := by
  unfold getExtractionSummary specSummary
  simp only [List.countP_eq_length_filter]
  generalize ([e.colors.primary, e.colors.secondary, e.colors.accent, e.colors.text,
    e.colors.background].filter truthyStr).length = n
  generalize ([e.typography.headingSizes.h1, e.typography.headingSizes.h2,
    e.typography.headingSizes.h3].filter truthySize).length = m
  generalize truthySize e.typography.bodySize = b
  rcases e.typography.headingFont with _ | (_ | ⟨c, cs⟩) <;>
    rcases e.typography.bodyFont with _ | (_ | ⟨d, ds⟩) <;>
    cases b <;> cases n <;> cases m <;> simp [truthyStr, join]

set_option maxRecDepth 1000000 in
/-- C16, counterexample: for the styles extracted from a document whose only font family is
white space both fonts are present, as the empty name, so that the summary of the
non-absent values has a font message; the summary computed is the fallback message. -/
theorem summary_ignores_empty_font :
    (extractStylesFromDocx blankFont).typography.headingFont = some []
      ∧ specSummary Option.isSome Option.isSome (extractStylesFromDocx blankFont)
        = ["Font(s): , ".toList]
      ∧ getExtractionSummary (extractStylesFromDocx blankFont)
        = ["No styles could be extracted".toList]
      ∧ getExtractionSummary (extractStylesFromDocx blankFont)
        ≠ specSummary Option.isSome Option.isSome (extractStylesFromDocx blankFont) := by
  decide

/-- With no truthy value to apply, `applyExtractedStyles` changes no nested object. -/
theorem applyExtractedStyles_nothing (h : Heap) (p : Nat) (e : ExtractedStyles)
    (hc : e.colors = ⟨none, none, none, none, none⟩)
    (ht : e.typography = ⟨none, none, ⟨none, none, none⟩, none⟩) :
    (applyExtractedStyles h p e).1.colors = h.colors
      ∧ (applyExtractedStyles h p e).1.typographies = h.typographies
      ∧ (applyExtractedStyles h p e).1.sizes = h.sizes := by
  simp [applyExtractedStyles, setColor, setFont, setHeadingSize, setBodySize, hc, ht,
    truthyStr, truthySize]

/-- The styles extracted when a collaborator fails or nothing is styled carry no value. -/
theorem extractStylesFromDocx_empty (c : Converted)
    (hc : c.html = none ∨ c.rawText = none ∨ c.styles = []) :
    (extractStylesFromDocx c).colors = ⟨none, none, none, none, none⟩
      ∧ (extractStylesFromDocx c).typography = ⟨none, none, ⟨none, none, none⟩, none⟩ := by
  unfold extractStylesFromDocx
  rcases hh : c.html with _ | html
  · exact ⟨rfl, rfl⟩
  · rcases hr : c.rawText with _ | txt
    · exact ⟨rfl, rfl⟩
    · rcases hc with hc | hc | hc
      · rw [hh] at hc; cases hc
      · rw [hr] at hc; cases hc
      · simp only [hc]
        exact ⟨rfl, rfl⟩

/-- The summary of styles that carry no value is the fallback message. -/
theorem getExtractionSummary_empty (e : ExtractedStyles)
    (hc : e.colors = ⟨none, none, none, none, none⟩)
    (ht : e.typography = ⟨none, none, ⟨none, none, none⟩, none⟩) :
    getExtractionSummary e = ["No styles could be extracted".toList] := by
  simp [getExtractionSummary, hc, ht, truthyStr, truthySize]

/-- C17: from markup without any inline style the extraction returns styles in which the
five colors, both fonts, the three heading sizes and the body size are absent; the summary
of these styles is the fallback message alone, and applying them to a profile changes no
color, typography or heading size object and returns a profile with the property values of
the input. -/
theorem extraction_without_styles (html rawText : Option Str) :
    (extractStylesFromDocx ⟨html, rawText, []⟩).colors = ⟨none, none, none, none, none⟩
      ∧ (extractStylesFromDocx ⟨html, rawText, []⟩).typography
        = ⟨none, none, ⟨none, none, none⟩, none⟩
      ∧ getExtractionSummary (extractStylesFromDocx ⟨html, rawText, []⟩)
        = ["No styles could be extracted".toList]
      ∧ ∀ (h : Heap) (p : Nat),
          (applyExtractedStyles h p (extractStylesFromDocx ⟨html, rawText, []⟩)).1.colors
              = h.colors
            ∧ (applyExtractedStyles h p (extractStylesFromDocx ⟨html, rawText, []⟩)).1.typographies
              = h.typographies
            ∧ (applyExtractedStyles h p (extractStylesFromDocx ⟨html, rawText, []⟩)).1.sizes
              = h.sizes
            ∧ (applyExtractedStyles h p (extractStylesFromDocx ⟨html, rawText, []⟩)).1.profiles
                (applyExtractedStyles h p (extractStylesFromDocx ⟨html, rawText, []⟩)).2
              = h.profiles p := by
  obtain ⟨hc, ht⟩ := extractStylesFromDocx_empty ⟨html, rawText, []⟩ (Or.inr (Or.inr rfl))
  refine ⟨hc, ht, getExtractionSummary_empty _ hc ht, fun h p => ?_⟩
  obtain ⟨a, b, c⟩ := applyExtractedStyles_nothing h p _ hc ht
  have hp := applyExtractedStyles_profiles h p (extractStylesFromDocx ⟨html, rawText, []⟩)
  exact ⟨a, b, c, by rw [hp.2, hp.1, upd_same]⟩

/-! ## `parseWordDocument` and the upload handler -/

/-- C18, amended: when a conversion fails, `parseWordDocument` still delivers styles, all
absent; for a valid file the handler then shows the fallback summary, and with a current
profile it applies the styles, which changes no color, typography or heading size, and saves
the profile. Only when the file cannot be read is the promise rejected; the handler then
shows the error message and neither applies nor saves. -/
theorem conversion_failure_is_caught (c : Converted) (hfail : c.html = none ∨ c.rawText = none)
    (h : Heap) (currentProfile : Option Nat) (type name : Str)
    (hvalid : isValidDocxFile type name = true) :
    (∃ e, parseWordDocument (some c) = .ok e
        ∧ e.colors = ⟨none, none, none, none, none⟩
        ∧ e.typography = ⟨none, none, ⟨none, none, none⟩, none⟩)
      ∧ (handleTemplateUpload h currentProfile type name (some c)).status
        = "Extracted: No styles could be extracted".toList
      ∧ (handleTemplateUpload h currentProfile type name (some c)).saved
        = currentProfile.isSome
      ∧ (handleTemplateUpload h currentProfile type name (some c)).heap.colors = h.colors
      ∧ (handleTemplateUpload h currentProfile type name (some c)).heap.typographies
        = h.typographies
      ∧ (handleTemplateUpload h currentProfile type name (some c)).heap.sizes = h.sizes
      ∧ (∃ err, parseWordDocument none = .error err)
      ∧ (handleTemplateUpload h currentProfile type name none).status
        = "Error parsing document".toList
      ∧ (handleTemplateUpload h currentProfile type name none).saved = false
      ∧ (handleTemplateUpload h currentProfile type name none).heap.colors = h.colors
      ∧ (handleTemplateUpload h currentProfile type name none).heap.typographies
        = h.typographies
      ∧ (handleTemplateUpload h currentProfile type name none).heap.sizes = h.sizes := by
  have hc' : c.html = none ∨ c.rawText = none ∨ c.styles = [] := by tauto
  obtain ⟨hc, ht⟩ := extractStylesFromDocx_empty c hc'
  have hs := getExtractionSummary_empty _ hc ht
  refine ⟨⟨_, rfl, hc, ht⟩, ?_, ?_, ?_, ?_, ?_, ⟨_, rfl⟩, ?_, ?_, ?_, ?_, ?_⟩
  all_goals simp only [handleTemplateUpload, hvalid, parseWordDocument, hs, Bool.not_true,
    Bool.false_eq_true, if_false]
  all_goals first
    | rfl
    | (cases currentProfile with
       | none => rfl
       | some p =>
         obtain ⟨a, b, d⟩ := applyExtractedStyles_nothing h p _ hc ht
         first | rfl | exact a | exact b | exact d)

/-- An application of C18 to a conversion to markup that fails, for the file `a.docx`
and the default profile. -/
theorem conversion_failure_is_caught_witness :
    (handleTemplateUpload defaultHeap (some 0) [] "a.docx".toList
        (some ⟨none, none, []⟩)).status = "Extracted: No styles could be extracted".toList :=
  (conversion_failure_is_caught ⟨none, none, []⟩ (Or.inl rfl) defaultHeap (some 0) []
    "a.docx".toList (by decide)).2.1

/-- C18, counterexample: with a conversion to markup that fails, `parseWordDocument` is not
rejected but delivers the empty styles, and the handler for the file `a.docx` and the
default profile reports an extraction and saves the profile. -/
theorem conversion_failure_not_signalled :
    (∃ e, parseWordDocument (some ⟨none, none, []⟩) = .ok e)
      ∧ (∀ err, parseWordDocument (some ⟨none, none, []⟩) ≠ .error err)
      ∧ (handleTemplateUpload defaultHeap (some 0) [] "a.docx".toList
          (some ⟨none, none, []⟩)).saved = true
      ∧ (handleTemplateUpload defaultHeap (some 0) [] "a.docx".toList
          (some ⟨none, none, []⟩)).status ≠ "Error parsing document".toList := by
  refine ⟨⟨_, rfl⟩, ?_, by decide, by decide⟩
  intro err h
  cases h

/-! ## `isValidDocxFile` -/

/-- C19, at the failing input: a file without a type whose name is `doc` or `docx`, with no
dot and so no extension, is accepted. -/
theorem isValidDocxFile_accepts_bare_name :
    isValidDocxFile [] "doc".toList = true ∧ isValidDocxFile [] "docx".toList = true
      ∧ lastSegment "doc".toList = "doc".toList := by
  decide

/-! ## The luminance in binary64 -/

theorem roundMag_isVal (num den : Nat) (hd : 0 < den) (hlt : (num : ℚ) / den < 2 ^ 53) :
    ∃ z, (Dbl.num false (roundMag num den)).IsVal z ∧ Near z ((num : ℚ) / den) := by
  obtain ⟨q, k, he, hb, -, -⟩ := roundMag_props num den hd hlt
  exact ⟨(q : ℚ) / 2 ^ k, ⟨q, k, by rw [he], rfl⟩, hb⟩

theorem roundMag_isVal_exact (n : Nat) (hn : n < 2 ^ 53) :
    (Dbl.num false (roundMag n 1)).IsVal n := by
  have h1 : ((n : ℚ) / (1 : Nat)) < 2 ^ 53 := by
    rw [Nat.cast_one, div_one]
    exact_mod_cast hn
  obtain ⟨q, k, he, -, -, hx⟩ := roundMag_props n 1 Nat.one_pos h1
  refine ⟨q, k, by rw [he], ?_⟩
  rw [hx n 0 (by simp) hn (by omega)]
  simp

theorem roundDyadic_neg (m K : Nat) : roundDyadic m (-(K : Int)) = roundMag m (2 ^ K) := by
  unfold roundDyadic
  rcases Nat.eq_zero_or_pos K with h | h
  · subst h
    simp
  · have h1 : ¬ (0 : Int) ≤ -(K : Int) := by omega
    rw [if_neg h1]
    simp

theorem Dbl.IsVal.mul {a b : Dbl} {x y : ℚ} (ha : a.IsVal x) (hb : b.IsVal y)
    (hlt : x * y < 2 ^ 53) : ∃ z, (a.mul b).IsVal z ∧ Near z (x * y) := by
  obtain ⟨q1, k1, rfl, rfl⟩ := ha
  obtain ⟨q2, k2, rfl, rfl⟩ := hb
  have e1 : -(k1 : Int) + -(k2 : Int) = -((k1 + k2 : Nat) : Int) := by push_cast; ring
  have hv : ((q1 * q2 : Nat) : ℚ) / ((2 ^ (k1 + k2) : Nat) : ℚ)
      = (q1 : ℚ) / 2 ^ k1 * ((q2 : ℚ) / 2 ^ k2) := by
    push_cast
    rw [pow_add]
    field_simp
  have h := roundMag_isVal (q1 * q2) (2 ^ (k1 + k2)) (by positivity) (by rw [hv]; exact hlt)
  rw [hv] at h
  have hm : (Dbl.num false (.fin q1 (-(k1 : Int)))).mul (.num false (.fin q2 (-(k2 : Int))))
      = .num false (roundMag (q1 * q2) (2 ^ (k1 + k2))) := by
    simp only [Dbl.mul, Mag.mul, Mag.scale]
    rw [e1, roundDyadic_neg]
    rfl
  rw [hm]
  exact h

theorem Dbl.IsVal.div {a b : Dbl} {x y : ℚ} (ha : a.IsVal x) (hb : b.IsVal y) (hy : 0 < y)
    (hlt : x / y < 2 ^ 53) : ∃ z, (a.div b).IsVal z ∧ Near z (x / y) := by
  obtain ⟨q1, k1, rfl, rfl⟩ := ha
  obtain ⟨q2, k2, rfl, rfl⟩ := hb
  have hq2 : q2 ≠ 0 := by
    rintro rfl
    simp at hy
  have t1 : (-(k1 : Int) - min (-(k1 : Int)) (-(k2 : Int))).toNat = max k1 k2 - k1 := by omega
  have t2 : (-(k2 : Int) - min (-(k1 : Int)) (-(k2 : Int))).toNat = max k1 k2 - k2 := by omega
  have hv : ((q1 * 2 ^ (max k1 k2 - k1) : Nat) : ℚ) / ((q2 * 2 ^ (max k1 k2 - k2) : Nat) : ℚ)
      = (q1 : ℚ) / 2 ^ k1 / ((q2 : ℚ) / 2 ^ k2) := by
    have a1 : (2 : ℚ) ^ (max k1 k2) = 2 ^ (max k1 k2 - k1) * 2 ^ k1 := by
      rw [← pow_add]; congr 1; omega
    have a2 : (2 : ℚ) ^ (max k1 k2) = 2 ^ (max k1 k2 - k2) * 2 ^ k2 := by
      rw [← pow_add]; congr 1; omega
    have hq : (q2 : ℚ) ≠ 0 := by exact_mod_cast hq2
    push_cast
    field_simp
    linear_combination ((q1 : ℚ) * q2) * (a1.symm.trans a2)
  have hpos : 0 < q2 * 2 ^ (max k1 k2 - k2) := by positivity
  have h := roundMag_isVal (q1 * 2 ^ (max k1 k2 - k1)) (q2 * 2 ^ (max k1 k2 - k2)) hpos
    (by rw [hv]; exact hlt)
  rw [hv] at h
  simpa [Dbl.div, Mag.div, hq2, t1, t2] using h

theorem scaled_cast (q k K : Nat) (hk : k ≤ K) :
    ((q * 2 ^ (K - k) : Nat) : ℚ) = (q : ℚ) / 2 ^ k * 2 ^ K := by
  have a1 : (2 : ℚ) ^ K = 2 ^ (K - k) * 2 ^ k := by
    rw [← pow_add]; congr 1; omega
  push_cast
  rw [a1]
  field_simp
  ring

theorem Dbl.IsVal.add {a b : Dbl} {x y : ℚ} (ha : a.IsVal x) (hb : b.IsVal y)
    (hlt : x + y < 2 ^ 53) : ∃ z, (a.add b).IsVal z ∧ Near z (x + y) := by
  obtain ⟨q1, k1, rfl, rfl⟩ := ha
  obtain ⟨q2, k2, rfl, rfl⟩ := hb
  have hmin : min (-(k1 : Int)) (-(k2 : Int)) = -((max k1 k2 : Nat) : Int) := by omega
  have t1 : (-(k1 : Int) - -((max k1 k2 : Nat) : Int)).toNat = max k1 k2 - k1 := by omega
  have t2 : (-(k2 : Int) - -((max k1 k2 : Nat) : Int)).toNat = max k1 k2 - k2 := by omega
  have hv : ((q1 * 2 ^ (max k1 k2 - k1) + q2 * 2 ^ (max k1 k2 - k2) : Nat) : ℚ)
      / ((2 ^ (max k1 k2) : Nat) : ℚ) = (q1 : ℚ) / 2 ^ k1 + (q2 : ℚ) / 2 ^ k2 := by
    rw [Nat.cast_add, scaled_cast q1 k1 _ (le_max_left _ _),
      scaled_cast q2 k2 _ (le_max_right _ _)]
    push_cast
    field_simp
    ring
  have h := roundMag_isVal (q1 * 2 ^ (max k1 k2 - k1) + q2 * 2 ^ (max k1 k2 - k2))
    (2 ^ (max k1 k2)) (by positivity) (by rw [hv]; exact hlt)
  rw [hv] at h
  have hm : (Dbl.num false (.fin q1 (-(k1 : Int)))).add (.num false (.fin q2 (-(k2 : Int))))
      = .num false (roundMag (q1 * 2 ^ (max k1 k2 - k1) + q2 * 2 ^ (max k1 k2 - k2))
          (2 ^ (max k1 k2))) := by
    simp only [Dbl.add]
    rw [hmin, t1, t2, roundDyadic_neg]
    have hs : (if false = true then (-1 : Int) else 1) * ((q1 * 2 ^ (max k1 k2 - k1) : Nat) : Int)
        + (if false = true then (-1 : Int) else 1) * ((q2 * 2 ^ (max k1 k2 - k2) : Nat) : Int)
        = ((q1 * 2 ^ (max k1 k2 - k1) + q2 * 2 ^ (max k1 k2 - k2) : Nat) : Int) := by
      simp
    rw [hs, Int.natAbs_ofNat]
    congr 1
    split_ifs with h0
    · rfl
    · exact decide_eq_false (by omega)
  rw [hm]
  exact h

theorem Dbl.IsVal.lt_iff {a b : Dbl} {x y : ℚ} (ha : a.IsVal x) (hb : b.IsVal y) :
    a.lt b = true ↔ x < y := by
  obtain ⟨q1, k1, rfl, rfl⟩ := ha
  obtain ⟨q2, k2, rfl, rfl⟩ := hb
  have hmin : min (-(k1 : Int)) (-(k2 : Int)) = -((max k1 k2 : Nat) : Int) := by omega
  have t1 : (-(k1 : Int) - -((max k1 k2 : Nat) : Int)).toNat = max k1 k2 - k1 := by omega
  have t2 : (-(k2 : Int) - -((max k1 k2 : Nat) : Int)).toNat = max k1 k2 - k2 := by omega
  simp only [Dbl.lt]
  rw [hmin, t1, t2]
  simp only [Bool.false_eq_true, if_false, one_mul, decide_eq_true_eq, Nat.cast_lt]
  have h1 := scaled_cast q1 k1 _ (le_max_left k1 k2)
  have h2 := scaled_cast q2 k2 _ (le_max_right k1 k2)
  have hp : (0 : ℚ) < 2 ^ (max k1 k2) := by positivity
  rw [← @Nat.cast_lt ℚ, h1, h2]
  exact mul_lt_mul_right hp

theorem Near.bound {z v B : ℚ} (h : Near z v) (h0 : 0 ≤ v) (hB : v ≤ B) :
    |z - v| ≤ (B + 1) * (1 / 2 ^ 40) := by
  unfold Near at h
  have hu : (1 : ℚ) / 2 ^ 53 ≤ 1 / 2 ^ 40 :=
    one_div_le_one_div_of_le (by positivity) (pow_le_pow_right₀ (by norm_num) (by norm_num))
  have he : (1 : ℚ) / 2 ^ 1075 ≤ 1 / 2 ^ 40 :=
    one_div_le_one_div_of_le (by positivity) (pow_le_pow_right₀ (by norm_num) (by norm_num))
  have hd : (0 : ℚ) ≤ 1 / 2 ^ 40 := by positivity
  have hu0 : (0 : ℚ) ≤ 1 / 2 ^ 53 := by positivity
  generalize (1 : ℚ) / 2 ^ 53 = u at h hu hu0
  generalize (1 : ℚ) / 2 ^ 1075 = η at h he
  generalize (1 : ℚ) / 2 ^ 40 = d at hu he hd ⊢
  have h1 : v * u ≤ B * d := mul_le_mul hB hu hu0 (h0.trans hB)
  linarith

theorem Dbl.IsVal.nonneg {a : Dbl} {x : ℚ} (ha : a.IsVal x) : 0 ≤ x := by
  obtain ⟨q, k, -, rfl⟩ := ha
  positivity

theorem roundMag_isVal_dyadic (num den m j : Nat) (hd : 0 < den)
    (hv : (num : ℚ) / den = m / 2 ^ j) (hm : m < 2 ^ 53) (hj : j ≤ 1074) :
    (Dbl.num false (roundMag num den)).IsVal ((num : ℚ) / den) := by
  have h1 : (num : ℚ) / den < 2 ^ 53 := by
    rw [hv]
    have h2 : (m : ℚ) < 2 ^ 53 := by exact_mod_cast hm
    have h3 : (1 : ℚ) ≤ 2 ^ j := one_le_pow₀ (by norm_num)
    have h4 : (0 : ℚ) ≤ m := Nat.cast_nonneg m
    rw [div_lt_iff₀ (by positivity)]
    nlinarith
  obtain ⟨q, k, he, -, -, hx⟩ := roundMag_props num den hd h1
  exact ⟨q, k, by rw [he], hx m j hv hm hj⟩

set_option maxHeartbeats 2000000 in
/-- The luminance that `isColorDark` computes in binary64 from the channel values `R`, `G`
and `B` differs from the exact `(299 R + 587 G + 114 B) / 255000` by `14 / 2 ^ 40` at most. -/
theorem luminance_near (r g b : Dbl) (R G B : Nat) (hr : r.IsVal R) (hg : g.IsVal G)
    (hb : b.IsVal B) (hR : R ≤ 255) (hG : G ≤ 255) (hB : B ≤ 255) :
    ∃ l : ℚ, (((((Dbl.lit 299 1000).mul r).add ((Dbl.lit 587 1000).mul g)).add
        ((Dbl.lit 114 1000).mul b)).div (Dbl.ofInt 255)).IsVal l
      ∧ |l - ((299 * R + 587 * G + 114 * B : Nat) : ℚ) / 255000| ≤ 14 * (1 / 2 ^ 40) := by
  have hR0 : (0 : ℚ) ≤ R := Nat.cast_nonneg R
  have hG0 : (0 : ℚ) ≤ G := Nat.cast_nonneg G
  have hB0 : (0 : ℚ) ≤ B := Nat.cast_nonneg B
  have hR1 : (R : ℚ) ≤ 255 := by exact_mod_cast hR
  have hG1 : (G : ℚ) ≤ 255 := by exact_mod_cast hG
  have hB1 : (B : ℚ) ≤ 255 := by exact_mod_cast hB
  have hbig : (600 : ℚ) < 2 ^ 53 := by norm_num
  have hd0 : (0 : ℚ) < 1 / 2 ^ 40 := by positivity
  have hd1 : (1 : ℚ) / 2 ^ 40 < 1 / 10 ^ 12 := by norm_num
  -- the three coefficients
  obtain ⟨z1, hz1, n1⟩ := roundMag_isVal 299 1000 (by norm_num) (by norm_num)
  obtain ⟨z2, hz2, n2⟩ := roundMag_isVal 587 1000 (by norm_num) (by norm_num)
  obtain ⟨z3, hz3, n3⟩ := roundMag_isVal 114 1000 (by norm_num) (by norm_num)
  have b1 := abs_le.mp (n1.bound (B := 1) (by norm_num) (by norm_num))
  have b2 := abs_le.mp (n2.bound (B := 1) (by norm_num) (by norm_num))
  have b3 := abs_le.mp (n3.bound (B := 1) (by norm_num) (by norm_num))
  clear n1 n2 n3
  -- the three products
  have m1u := mul_le_mul_of_nonneg_right (show z1 ≤ 299 / 1000 + 2 * (1 / 2 ^ 40) by linarith) hR0
  have m1l := mul_le_mul_of_nonneg_right (show 299 / 1000 - 2 * (1 / 2 ^ 40) ≤ z1 by linarith) hR0
  have m2u := mul_le_mul_of_nonneg_right (show z2 ≤ 587 / 1000 + 2 * (1 / 2 ^ 40) by linarith) hG0
  have m2l := mul_le_mul_of_nonneg_right (show 587 / 1000 - 2 * (1 / 2 ^ 40) ≤ z2 by linarith) hG0
  have m3u := mul_le_mul_of_nonneg_right (show z3 ≤ 114 / 1000 + 2 * (1 / 2 ^ 40) by linarith) hB0
  have m3l := mul_le_mul_of_nonneg_right (show 114 / 1000 - 2 * (1 / 2 ^ 40) ≤ z3 by linarith) hB0
  have q1 : z1 * R ≤ 100 := by linarith
  have q2 : z2 * G ≤ 200 := by linarith
  have q3 : z3 * B ≤ 100 := by linarith
  have q1' : 0 ≤ z1 * R := by linarith
  have q2' : 0 ≤ z2 * G := by linarith
  have q3' : 0 ≤ z3 * B := by linarith
  obtain ⟨p1, hp1, np1⟩ := hz1.mul hr (by linarith)
  obtain ⟨p2, hp2, np2⟩ := hz2.mul hg (by linarith)
  obtain ⟨p3, hp3, np3⟩ := hz3.mul hb (by linarith)
  have c1 := abs_le.mp (np1.bound q1' q1)
  have c2 := abs_le.mp (np2.bound q2' q2)
  have c3 := abs_le.mp (np3.bound q3' q3)
  clear np1 np2 np3
  have f1 := hp1.nonneg
  have f2 := hp2.nonneg
  have f3 := hp3.nonneg
  -- the two sums
  obtain ⟨s1, hs1, ns1⟩ := hp1.add hp2 (by linarith)
  have d1 := abs_le.mp (ns1.bound (B := 301) (by linarith) (by linarith))
  clear ns1
  have f4 := hs1.nonneg
  obtain ⟨s2, hs2, ns2⟩ := hs1.add hp3 (by linarith)
  have d2 := abs_le.mp (ns2.bound (B := 402) (by linarith) (by linarith))
  clear ns2
  have f5 := hs2.nonneg
  -- the quotient
  have h255 : (Dbl.ofInt 255).IsVal ((255 : Nat) : ℚ) := roundMag_isVal_exact 255 (by norm_num)
  have hs2u : s2 / ((255 : Nat) : ℚ) ≤ 2 := by
    rw [div_le_iff₀ (by norm_num)]
    push_cast
    linarith
  have hs2l : 0 ≤ s2 / ((255 : Nat) : ℚ) := by
    apply div_nonneg _ (by norm_num)
    linarith
  obtain ⟨l, hl, nl⟩ := hs2.div h255 (by norm_num) (by linarith)
  have e1 := abs_le.mp (nl.bound hs2l hs2u)
  clear nl
  refine ⟨l, hl, abs_le.mpr ⟨?_, ?_⟩⟩
  · push_cast at e1 ⊢
    linarith
  · push_cast at e1 ⊢
    linarith

theorem isHexDigit_iff (c : Char) :
    isHexDigit c = true ↔ (48 ≤ c.toNat ∧ c.toNat ≤ 57) ∨ (97 ≤ c.toNat ∧ c.toNat ≤ 102)
      ∨ (65 ≤ c.toNat ∧ c.toNat ≤ 70) := by
  unfold isHexDigit
  simp only [Bool.or_eq_true, Bool.and_eq_true, decide_eq_true_eq, or_assoc]
  rfl

theorem digitVal_hex (c : Char) (h : isHexDigit c = true) : digitVal c < 16 := by
  rw [isHexDigit_iff] at h
  unfold digitVal
  split_ifs with h1 h2 h3
  · rw [isDecDigit_iff] at h1
    omega
  · change 97 ≤ c.toNat ∧ c.toNat ≤ 122 at h2
    rw [isDecDigit_iff] at h1
    omega
  · change 65 ≤ c.toNat ∧ c.toNat ≤ 90 at h3
    change ¬ (97 ≤ c.toNat ∧ c.toNat ≤ 122) at h2
    rw [isDecDigit_iff] at h1
    omega
  · change ¬ (65 ≤ c.toNat ∧ c.toNat ≤ 90) at h3
    change ¬ (97 ≤ c.toNat ∧ c.toNat ≤ 122) at h2
    rw [isDecDigit_iff] at h1
    omega

theorem hexDigit_not_space (c : Char) (h : isHexDigit c = true) : isJsSpace c = false := by
  rw [Bool.eq_false_iff]
  intro hs
  rw [isHexDigit_iff] at h
  unfold isJsSpace at hs
  simp only [Bool.or_eq_true, beq_iff_eq, Bool.and_eq_true, decide_eq_true_eq] at hs
  omega

/-- The value that `parseInt(s, 16)` has for a string of two hexadecimal digits. -/
theorem parseInt_hex_pair (a b : Char) (ha : isHexDigit a = true) (hb : isHexDigit b = true) :
    (parseInt [a, b] (some 16)).IsVal ((digitVal a * 16 + digitVal b : Nat) : ℚ) := by
  have hsp := hexDigit_not_space a ha
  have han := (isHexDigit_iff a).mp ha
  have hbn := (isHexDigit_iff b).mp hb
  have hminus : a ≠ '-' := by
    intro h; rw [h] at han; revert han; decide
  have hplus : a ≠ '+' := by
    intro h; rw [h] at han; revert han; decide
  have hx : b ≠ 'x' := by
    intro h; rw [h] at hbn; revert hbn; decide
  have hX : b ≠ 'X' := by
    intro h; rw [h] at hbn; revert hbn; decide
  have h1 : (some a == some '-') = false := by simpa using hminus
  have h2 : (some a == some '+') = false := by simpa using hplus
  have hpre : (([a, b] : Str).take 2 == ['0', 'x'] || ([a, b] : Str).take 2 == ['0', 'X'])
      = false := by
    simp [hx, hX]
  have hall : ([a, b] : Str).takeWhile (fun c => decide (digitVal c < 16)) = [a, b] := by
    rw [List.takeWhile_eq_self_iff]
    intro x hx
    simp only [List.mem_cons, List.mem_singleton, List.not_mem_nil, or_false] at hx
    rcases hx with rfl | rfl
    · simpa using digitVal_hex _ ha
    · simpa using digitVal_hex _ hb
  have hval : digitsValue 16 [a, b] = digitVal a * 16 + digitVal b := by
    simp [digitsValue]
  have hlt : digitVal a * 16 + digitVal b < 2 ^ 53 := by
    have := digitVal_hex a ha
    have := digitVal_hex b hb
    have : (256 : Nat) < 2 ^ 53 := by norm_num
    omega
  have hp : parseInt [a, b] (some 16)
      = .num false (roundMag (digitVal a * 16 + digitVal b) 1) := by
    unfold parseInt
    simp only [List.dropWhile_cons, hsp, List.head?_cons, Option.getD_some, h1, h2,
      Bool.or_false, Bool.false_eq_true, if_false]
    simp only [hpre, Bool.and_false, Bool.false_eq_true, if_false, hall, hval]
    rw [if_neg (List.cons_ne_nil a [b])]
  rw [hp]
  exact roundMag_isVal_exact _ hlt

set_option maxHeartbeats 1000000 in
/-- C12, amended: for a color `#` followed by six hexadecimal digits, with channel values
`R`, `G` and `B`, `isColorDark` returns true whenever `299 R + 587 G + 114 B < 127500` and
false whenever `299 R + 587 G + 114 B > 127500`; at equality the luminance computed in
binary64 decides. -/
theorem isColorDark_luminance (c1 c2 c3 c4 c5 c6 : Char)
    (hh : ∀ c ∈ [c1, c2, c3, c4, c5, c6], isHexDigit c = true) :
    (299 * (digitVal c1 * 16 + digitVal c2) + 587 * (digitVal c3 * 16 + digitVal c4)
          + 114 * (digitVal c5 * 16 + digitVal c6) < 127500 →
        isColorDark (some ['#', c1, c2, c3, c4, c5, c6]) = true)
      ∧ (127500 < 299 * (digitVal c1 * 16 + digitVal c2)
          + 587 * (digitVal c3 * 16 + digitVal c4) + 114 * (digitVal c5 * 16 + digitVal c6) →
        isColorDark (some ['#', c1, c2, c3, c4, c5, c6]) = false) := by
  have h1 := hh c1 (by simp)
  have h2 := hh c2 (by simp)
  have h3 := hh c3 (by simp)
  have h4 := hh c4 (by simp)
  have h5 := hh c5 (by simp)
  have h6 := hh c6 (by simp)
  have v1 := digitVal_hex c1 h1
  have v2 := digitVal_hex c2 h2
  have v3 := digitVal_hex c3 h3
  have v4 := digitVal_hex c4 h4
  have v5 := digitVal_hex c5 h5
  have v6 := digitVal_hex c6 h6
  have hdef : isColorDark (some ['#', c1, c2, c3, c4, c5, c6])
      = (((((Dbl.lit 299 1000).mul (parseInt [c1, c2] (some 16))).add
          ((Dbl.lit 587 1000).mul (parseInt [c3, c4] (some 16)))).add
          ((Dbl.lit 114 1000).mul (parseInt [c5, c6] (some 16)))).div (Dbl.ofInt 255)).lt
          (Dbl.lit 5 10) := by
    simp [isColorDark, substr]
  obtain ⟨l, hl, hn⟩ := luminance_near _ _ _ _ _ _ (parseInt_hex_pair c1 c2 h1 h2)
    (parseInt_hex_pair c3 c4 h3 h4) (parseInt_hex_pair c5 c6 h5 h6) (by omega) (by omega)
    (by omega)
  have hhalf : (Dbl.lit 5 10).IsVal (((5 : Nat) : ℚ) / (10 : Nat)) :=
    roundMag_isVal_dyadic 5 10 1 1 (by norm_num) (by norm_num) (by norm_num) (by norm_num)
  have hlt := hl.lt_iff hhalf
  rw [hdef]
  have hn' := abs_le.mp hn
  generalize 299 * (digitVal c1 * 16 + digitVal c2) + 587 * (digitVal c3 * 16 + digitVal c4)
    + 114 * (digitVal c5 * 16 + digitVal c6) = N at hn' ⊢
  constructor
  · intro hN
    rw [hlt]
    have hN' : (N : ℚ) ≤ 127499 := by exact_mod_cast Nat.lt_succ_iff.mp hN
    push_cast
    linarith [hn'.2]
  · intro hN
    rw [Bool.eq_false_iff, Ne, hlt]
    have hN' : (127501 : ℚ) ≤ N := by exact_mod_cast hN
    push_cast
    intro hc
    linarith [hn'.1]

/-- An application of C12 to the colors `#1A73E8` and `#000000`, which are dark, and
`#FFFFFF`, which is not. -/
theorem isColorDark_luminance_witness :
    isColorDark (some "#1A73E8".toList) = true ∧ isColorDark (some "#000000".toList) = true
      ∧ isColorDark (some "#FFFFFF".toList) = false :=
  ⟨(isColorDark_luminance '1' 'A' '7' '3' 'E' '8' (by decide)).1 (by decide),
    (isColorDark_luminance '0' '0' '0' '0' '0' '0' (by decide)).1 (by decide),
    (isColorDark_luminance 'F' 'F' 'F' 'F' 'F' 'F' (by decide)).2 (by decide)⟩

set_option maxRecDepth 1000000 in
/-- C12, counterexample: for `#00CC44` the exact sum `299 R + 587 G + 114 B` is 127500, which
is not below 127500, yet `isColorDark` returns true, the luminance computed in binary64
being below one half. -/
theorem isColorDark_tie_is_dark :
    digitVal '0' * 16 + digitVal '0' = 0 ∧ digitVal 'C' * 16 + digitVal 'C' = 204
      ∧ digitVal '4' * 16 + digitVal '4' = 68
      ∧ ¬ (299 * 0 + 587 * 204 + 114 * 68 < 127500)
      ∧ isColorDark (some "#00CC44".toList) = true := by
  decide

/-! ## Well-formed colors through the pipeline -/

theorem matchAll_mem (m : Str → Option Str) (t : Str) :
    ∀ (s : Str) (k : Nat), t ∈ matchAll m s k → ∃ pre suf, s = pre ++ suf ∧ m suf = some t := by
  intro s
  induction s with
  | nil => intro k h; simp [matchAll] at h
  | cons c cs ih =>
    intro k h
    cases k with
    | succ k =>
      rw [matchAll] at h
      obtain ⟨pre, suf, h1, h2⟩ := ih k h
      exact ⟨c :: pre, suf, by rw [h1]; rfl, h2⟩
    | zero =>
      rw [matchAll] at h
      cases hm : m (c :: cs) with
      | none =>
        rw [hm] at h
        obtain ⟨pre, suf, h1, h2⟩ := ih 0 h
        exact ⟨c :: pre, suf, by rw [h1]; rfl, h2⟩
      | some x =>
        rw [hm] at h
        rcases List.mem_cons.mp h with h | h
        · exact ⟨[], c :: cs, rfl, by rw [hm, h]⟩
        · obtain ⟨pre, suf, h1, h2⟩ := ih _ h
          exact ⟨c :: pre, suf, by rw [h1]; rfl, h2⟩

theorem firstMatch_eq_some {α : Type} (m : Str → Option α) (a : α) :
    ∀ s : Str, firstMatch m s = some a → ∃ pre t, s = pre ++ t ∧ m t = some a := by
  intro s
  induction s with
  | nil => intro h; exact ⟨[], [], rfl, by simpa [firstMatch] using h⟩
  | cons c cs ih =>
    intro h
    rw [firstMatch] at h
    cases hm : m (c :: cs) with
    | some x =>
      rw [hm] at h
      exact ⟨[], c :: cs, rfl, by rw [hm]; exact h⟩
    | none =>
      rw [hm] at h
      obtain ⟨pre, t, h1, h2⟩ := ih h
      exact ⟨c :: pre, t, by rw [h1]; rfl, h2⟩

/-- The three shapes of the text that the alternation of the color patterns matches. -/
theorem colorValueAt_some (x v : Str) (h : colorValueAt x = some v) :
    ∃ rest, x = v ++ rest ∧
      ((∃ d, v = '#' :: d ∧ d.length = 6 ∧ d.all isHexDigit = true)
        ∨ (∃ d, v = '#' :: d ∧ d.length = 3 ∧ d.all isHexDigit = true)
        ∨ (∃ p body, v = p ++ (body ++ [')']) ∧ p.map Char.toLower = "rgb(".toList
            ∧ body ≠ [] ∧ ∀ c ∈ body, c ≠ ')')) := by
  unfold colorValueAt at h
  split at h
  · rename_i t
    split_ifs at h with h1 h2
    · cases h
      exact ⟨t.drop 6, by simp, Or.inl ⟨_, rfl, h1.1, h1.2⟩⟩
    · cases h
      exact ⟨t.drop 3, by simp, Or.inr (Or.inl ⟨_, rfl, h2.1, h2.2⟩)⟩
  · cases hl : litCI "rgb(".toList x with
    | none => rw [hl] at h; cases h
    | some t =>
      rw [hl] at h
      simp only [] at h
      obtain ⟨p, hx, hp⟩ := (litCI_eq_some _ _ _).mp hl
      split_ifs at h with h1
      cases h
      have hlen : p.length = 4 := by
        have := congrArg List.length hp
        simpa using this
      have htake : x.take 4 = p := by
        rw [hx, List.take_append_of_le_length (by omega), List.take_of_length_le (by omega)]
      obtain ⟨hb, hd⟩ := h1
      have hsplit := List.takeWhile_append_dropWhile (fun c => c != ')') t
      have hdrop : ∃ rest, t.dropWhile (fun c => c != ')') = ')' :: rest := by
        cases hdw : t.dropWhile (fun c => c != ')') with
        | nil => exact absurd hdw hd
        | cons a rest =>
          have := List.head_dropWhile_not (fun c => c != ')') t (by rw [hdw]; simp)
          simp only [hdw, List.head_cons] at this
          have ha : a = ')' := by simpa using this
          exact ⟨rest, by rw [ha]⟩
      obtain ⟨rest, hrest⟩ := hdrop
      refine ⟨rest, ?_, Or.inr (Or.inr ⟨p, _, by rw [htake, List.append_assoc], hp, hb, ?_⟩)⟩
      · rw [htake, hx]
        nth_rewrite 1 [← hsplit]
        rw [hrest]
        simp
      · intro c hc
        have := mem_takeWhile_true t c hc
        simpa using this

theorem trim_eq_self (v : Str) (h1 : ∀ x, v.head? = some x → isJsSpace x = false)
    (h2 : ∀ x, v.getLast? = some x → isJsSpace x = false) : trim v = v := by
  unfold trim
  rw [dropWhile_head_false v h1, dropWhile_head_false v.reverse (by simpa using h2),
    List.reverse_reverse]

/-- What a match of a color declaration consists of: the property name and colon in either
case, white space, and a color value `v` that the text continues with. -/
theorem colorDeclAt_some (name s c : Str) (h : colorDeclAt name s = some c) :
    ∃ p ws v rest, s = p ++ (ws ++ (v ++ rest)) ∧ c = p ++ (ws ++ v)
      ∧ p.map Char.toLower = name ++ [':'] ∧ (∀ x ∈ ws, isJsSpace x = true)
      ∧ colorValueAt (v ++ rest) = some v
      ∧ (∀ x, (v ++ rest).head? = some x → isJsSpace x = false) := by
  unfold colorDeclAt at h
  cases hl : litCI (name ++ [':']) s with
  | none => rw [hl] at h; cases h
  | some t =>
    rw [hl] at h
    simp only [] at h
    obtain ⟨p, hs, hp⟩ := (litCI_eq_some _ _ _).mp hl
    cases hv : colorValueAt (t.dropWhile isJsSpace) with
    | none => rw [hv] at h; cases h
    | some v =>
      rw [hv] at h
      cases h
      obtain ⟨rest, hrest, -⟩ := colorValueAt_some _ _ hv
      have hlen : p.length = name.length + 1 := by
        have := congrArg List.length hp
        simpa using this
      have htake : s.take (name.length + 1) = p := by
        rw [hs, List.take_append_of_le_length (by omega), List.take_of_length_le (by omega)]
      have hsplit := List.takeWhile_append_dropWhile isJsSpace t
      refine ⟨p, t.takeWhile isJsSpace, v, rest, ?_, by rw [htake, List.append_assoc], hp,
        mem_takeWhile_true t, by rw [← hrest]; exact hv, ?_⟩
      · rw [hs, ← hrest, hsplit]
      · intro x hx
        rw [← hrest] at hx
        have hne : t.dropWhile isJsSpace ≠ [] := by
          intro h0; rw [h0] at hx; cases hx
        have := List.head_dropWhile_not isJsSpace t hne
        rw [List.head?_eq_head hne] at hx
        cases hx
        simpa using this

/-- Deleting the property name, the colon and the white space from a match of a color
declaration leaves the color value. -/
theorem deleteFirst_decl (name p ws v : Str) (hp : p.map Char.toLower = name ++ [':'])
    (hws : ∀ x ∈ ws, isJsSpace x = true) (hv : ∀ x, v.head? = some x → isJsSpace x = false) :
    deleteFirst (declPrefixAt name) (p ++ (ws ++ v)) = v := by
  have hl : litCI (name ++ [':']) (p ++ (ws ++ v)) = some (ws ++ v) :=
    (litCI_eq_some _ _ _).mpr ⟨p, rfl, hp⟩
  have hd : declPrefixAt name (p ++ (ws ++ v)) = some (p.length + ws.length) := by
    unfold declPrefixAt
    rw [hl]
    simp only []
    rw [takeWhile_append_stop ws v hws hv]
    have := congrArg List.length hp
    simp only [List.length_map, List.length_append, List.length_singleton] at this
    rw [this]
  have hne : p ≠ [] := by
    intro h0
    rw [h0] at hp
    simp at hp
  cases hpc : p with
  | nil => exact absurd hpc hne
  | cons a t =>
    rw [hpc, List.cons_append] at hd
    rw [List.cons_append, deleteFirst, hd]
    simp only []
    have e : a :: (t ++ (ws ++ v)) = ((a :: t) ++ ws) ++ v := by simp
    rw [e]
    exact List.drop_left' (by simp; omega)

theorem isHexDigit_toUpper (c : Char) (h : isHexDigit c = true) :
    isHexDigit c.toUpper = true := by
  have hc := (isHexDigit_iff c).mp h
  rw [isHexDigit_iff]
  have e : c.toUpper = if c.toNat ≥ 97 ∧ c.toNat ≤ 122 then Char.ofNat (c.toNat - 32) else c :=
    rfl
  rw [e]
  split_ifs with h1
  · have h2 : c.toNat = 97 ∨ c.toNat = 98 ∨ c.toNat = 99 ∨ c.toNat = 100 ∨ c.toNat = 101
        ∨ c.toNat = 102 := by omega
    rcases h2 with h2 | h2 | h2 | h2 | h2 | h2 <;> rw [h2] <;> decide
  · exact hc

set_option maxRecDepth 100000 in
theorem hex2_brute : ∀ n, n < 256 → (hex2 n).length = 2 ∧ (hex2 n).all isHexDigit = true := by
  decide

theorem RgbNotation.append {t r g b : Str} (h : RgbNotation t r g b) (s : Str) :
    RgbNotation (t ++ s) r g b := by
  obtain ⟨p, w0, w1, w2, w3, w4, w5, rest, ht, hrest⟩ := h
  exact ⟨p, w0, w1, w2, w3, w4, w5, rest ++ s, by rw [ht]; simp, hrest⟩

/-- The two-digit form that `normalizeColor` gives a channel written with decimal digits
whose value is below 256. -/
theorem channelHex_digits (ds : Str) (hne : ds ≠ []) (hd : ∀ c ∈ ds, isDecDigit c = true)
    (hlt : digitsValue 10 ds < 256) :
    toUpperCase (channelHex ds) = hex2 (digitsValue 10 ds) := by
  unfold channelHex
  rw [parseInt_digits ds hne hd]
  exact channel_brute _ hlt

/-- Whenever `normalizeColor` returns a color for a text of one of the three shapes that the
color patterns match, the rgb notations in it having channels below 256, that color is `#`
followed by six hexadecimal digits. -/
theorem normalizeColor_wellformed (v w : Str)
    (hshape : (∃ d, v = '#' :: d ∧ d.length = 6 ∧ d.all isHexDigit = true)
      ∨ (∃ d, v = '#' :: d ∧ d.length = 3 ∧ d.all isHexDigit = true)
      ∨ (∃ p body, v = p ++ (body ++ [')']) ∧ p.map Char.toLower = "rgb(".toList
          ∧ body ≠ [] ∧ ∀ c ∈ body, c ≠ ')'))
    (hch : ∀ pre t r g b, v = pre ++ t → RgbNotation t r g b →
      digitsValue 10 r < 256 ∧ digitsValue 10 g < 256 ∧ digitsValue 10 b < 256)
    (hw : normalizeColor v = some w) : isHex6 w = true := by
  rcases hshape with ⟨d, rfl, hl, hd⟩ | ⟨d, rfl, hl, hd⟩ | ⟨p, body, rfl, hp, -, -⟩
  · match d, hl, hd with
    | [c1, c2, c3, c4, c5, c6], _, hd =>
      simp only [normalizeColor, List.head?_cons, if_true, reduceCtorEq, if_false] at hw
      cases hw
      simp only [List.all_cons, List.all_nil, Bool.and_true, Bool.and_eq_true] at hd
      obtain ⟨h1, h2, h3, h4, h5, h6⟩ := hd
      simp [isHex6, toUpperCase, isHexDigit_toUpper, h1, h2, h3, h4, h5, h6]
  · match d, hl, hd with
    | [c1, c2, c3], _, hd =>
      simp only [normalizeColor, List.head?_cons, if_true, reduceCtorEq, if_false] at hw
      cases hw
      simp only [List.all_cons, List.all_nil, Bool.and_true, Bool.and_eq_true] at hd
      obtain ⟨h1, h2, h3⟩ := hd
      simp [isHex6, h1, h2, h3]
  · have hlen : p.length = 4 := by
      have := congrArg List.length hp
      simpa using this
    match p, hlen, hp with
    | [p1, p2, p3, p4], _, hp =>
      have hp1 : p1.toLower = 'r' := by
        have := congrArg List.head? hp
        simpa using this
      have hne : p1 ≠ '#' := by
        intro h0
        rw [h0] at hp1
        revert hp1
        decide
      unfold normalizeColor at hw
      rw [if_neg (by simp), if_neg (by simpa using hne)] at hw
      cases hf : firstMatch rgbAt ([p1, p2, p3, p4] ++ (body ++ [')'])) with
      | none => rw [hf] at hw; cases hw
      | some rgb =>
        obtain ⟨r, g, b⟩ := rgb
        rw [hf] at hw
        simp only [Option.some.injEq] at hw
        obtain ⟨pre, t, hv, ht⟩ := firstMatch_eq_some _ _ _ hf
        have hn := rgbAt_sound t r g b ht
        obtain ⟨lr, lg, lb⟩ := hch pre t r g b hv hn
        obtain ⟨-, -, -, -, -, -, -, -, -, -, -, hd, hr, hg, hb⟩ := hn
        have er := channelHex_digits r hr (fun c hc => hd c (by simp [hc])) lr
        have eg := channelHex_digits g hg (fun c hc => hd c (by simp [hc])) lg
        have eb := channelHex_digits b hb (fun c hc => hd c (by simp [hc])) lb
        have e : toUpperCase ('#' :: (channelHex r ++ (channelHex g ++ channelHex b)))
            = '#' :: (hex2 (digitsValue 10 r) ++ (hex2 (digitsValue 10 g)
                ++ hex2 (digitsValue 10 b))) := by
          rw [← er, ← eg, ← eb]
          simp [toUpperCase]
        rw [List.append_assoc, e] at hw
        subst hw
        obtain ⟨a1, a2⟩ := hex2_brute _ lr
        obtain ⟨a3, a4⟩ := hex2_brute _ lg
        obtain ⟨a5, a6⟩ := hex2_brute _ lb
        simp [isHex6, a1, a2, a3, a4, a5, a6]

theorem head_append_left {v rest : Str} {x : Char} (h : v.head? = some x) :
    (v ++ rest).head? = some x := by
  cases v with
  | nil => cases h
  | cons a t => simpa using h

/-- A color that a declaration of a style attribute yields is well formed, the rgb
notations of the attribute having channels below 256. -/
theorem decl_color_wellformed (name style c w : Str)
    (hc : c ∈ matchAll (colorDeclAt name) style 0)
    (hch : ∀ pre t r g b, style = pre ++ t → RgbNotation t r g b →
      digitsValue 10 r < 256 ∧ digitsValue 10 g < 256 ∧ digitsValue 10 b < 256)
    (hw : normalizeColor (trim (deleteFirst (declPrefixAt name) c)) = some w) :
    isHex6 w = true := by
  obtain ⟨pre, suf, hs, hm⟩ := matchAll_mem _ _ _ _ hc
  obtain ⟨p, ws, v, rest, hsuf, hcv, hp, hws, hval, hhead⟩ := colorDeclAt_some _ _ _ hm
  obtain ⟨-, -, hshape⟩ := colorValueAt_some _ _ hval
  have hv1 : ∀ x, v.head? = some x → isJsSpace x = false :=
    fun x hx => hhead x (head_append_left hx)
  have hv2 : ∀ x, v.getLast? = some x → isJsSpace x = false := by
    intro x hx
    rcases hshape with ⟨d, rfl, -, hd⟩ | ⟨d, rfl, -, hd⟩ | ⟨q, body, rfl, -, -, -⟩
    · rcases List.mem_cons.mp (List.mem_of_getLast?_eq_some hx) with h | h
      · rw [h]; decide
      · exact hexDigit_not_space x (List.all_eq_true.mp hd x h)
    · rcases List.mem_cons.mp (List.mem_of_getLast?_eq_some hx) with h | h
      · rw [h]; decide
      · exact hexDigit_not_space x (List.all_eq_true.mp hd x h)
    · rw [← List.append_assoc, List.getLast?_concat] at hx
      cases hx
      decide
  rw [hcv, deleteFirst_decl name p ws v hp hws hv1, trim_eq_self v hv1 hv2] at hw
  refine normalizeColor_wellformed v w hshape ?_ hw
  intro pre2 t r g b hv hn
  refine hch (pre ++ (p ++ (ws ++ pre2))) (t ++ rest) r g b ?_ (hn.append rest)
  rw [hs, hsuf, hv]
  simp

theorem styleColors_wellformed (style w : Str)
    (hch : ∀ pre t r g b, style = pre ++ t → RgbNotation t r g b →
      digitsValue 10 r < 256 ∧ digitsValue 10 g < 256 ∧ digitsValue 10 b < 256)
    (hw : some w ∈ styleColors style) : isHex6 w = true := by
  unfold styleColors at hw
  rcases List.mem_append.mp hw with h | h
  · obtain ⟨c, hc, he⟩ := List.mem_map.mp h
    exact decl_color_wellformed _ style c w hc hch he
  · obtain ⟨c, hc, he⟩ := List.mem_map.mp h
    exact decl_color_wellformed _ style c w hc hch he

theorem colorMatches_wellformed (styles : List Str) (w : Str)
    (hch : ∀ style ∈ styles, ∀ pre t r g b, style = pre ++ t → RgbNotation t r g b →
      digitsValue 10 r < 256 ∧ digitsValue 10 g < 256 ∧ digitsValue 10 b < 256)
    (hw : some w ∈ colorMatches styles) : isHex6 w = true := by
  unfold colorMatches at hw
  rw [mem_setOf] at hw
  obtain ⟨style, hs, hm⟩ := List.mem_flatMap.mp hw
  exact styleColors_wellformed style w (hch style hs) hm

/-- Every color that the extraction returns is a member of `colorMatches`. -/
theorem extracted_color_mem (c : Converted) (w : Str)
    (h : (extractStylesFromDocx c).colors.primary = some w
      ∨ (extractStylesFromDocx c).colors.secondary = some w
      ∨ (extractStylesFromDocx c).colors.accent = some w
      ∨ (extractStylesFromDocx c).colors.text = some w
      ∨ (extractStylesFromDocx c).colors.background = some w) :
    some w ∈ colorMatches c.styles := by
  have huc : ∀ i : Nat, (uniqueColors c.styles)[i]? = some w → some w ∈ colorMatches c.styles := by
    intro i hi
    have hm := List.getElem?_mem hi
    unfold uniqueColors at hm
    obtain ⟨x, hx, hf⟩ := List.mem_filterMap.mp hm
    cases x with
    | none => cases hf
    | some v =>
      simp only [] at hf
      split_ifs at hf
      cases hf
      exact hx
  unfold extractStylesFromDocx at h
  cases hh : c.html with
  | none =>
    rw [hh] at h
    simp [emptyStyles] at h
  | some html =>
    rw [hh] at h
    simp only [] at h
    cases hr : c.rawText with
    | none =>
      rw [hr] at h
      simp [emptyStyles] at h
    | some txt =>
      rw [hr] at h
      simp only [assignStyles, emptyStyles] at h
      rcases h with h | h | h | h | h
      · split_ifs at h
        exact huc _ h
      · split_ifs at h
        exact huc _ h
      · split_ifs at h
        exact huc _ h
      · split_ifs at h
        have h2 : (darkColors c.styles)[0]? = some (some w) := by
          cases hd : (darkColors c.styles)[0]? with
          | none => rw [hd] at h; cases h
          | some x => rw [hd] at h; simp only [Option.join] at h; rw [← h]; rfl
        have hm := List.getElem?_mem h2
        unfold darkColors at hm
        exact (List.mem_filter.mp hm).1
      · cases h

theorem isHex6_isHexColor (w : Str) (h : isHex6 w = true) : isHexColor w = true := by
  unfold isHex6 at h
  unfold isHexColor
  split at h
  · simp only [Bool.and_eq_true, beq_iff_eq] at h
    simp [h.1, h.2]
  · cases h

theorem applied_color_valid (old : JSVal) (v : Option Str) (hold : old.isHexColor = true)
    (hv : ∀ w, v = some w → isHex6 w = true) :
    (if truthyStr v = true then JSVal.str (v.getD []) else old).isHexColor = true := by
  split_ifs with ht
  · cases v with
    | none => cases ht
    | some w => exact isHex6_isHexColor w (hv w rfl)
  · exact hold

/-- A check by evaluation that every rgb notation in the style attributes has channels
below 256. -/
theorem rgb_channels_of_check (styles : List Str)
    (hdec : styles.all (fun style => style.tails.all (fun t => (rgbAt t).all (fun x =>
      decide (digitsValue 10 x.1 < 256) && decide (digitsValue 10 x.2.1 < 256)
        && decide (digitsValue 10 x.2.2 < 256)))) = true) :
    ∀ style ∈ styles, ∀ pre t r g b, style = pre ++ t → RgbNotation t r g b →
      digitsValue 10 r < 256 ∧ digitsValue 10 g < 256 ∧ digitsValue 10 b < 256 := by
  intro style hs pre t r g b hst hn
  have h1 := List.all_eq_true.mp hdec style hs
  have ht : t ∈ style.tails := by
    rw [List.mem_tails, hst]
    exact List.suffix_append pre t
  have h2 := List.all_eq_true.mp h1 t ht
  rw [rgbAt_complete t r g b hn] at h2
  simpa [Option.all, and_assoc] using h2

/-- C20, amended: when every rgb notation inside the style attributes has channels below
256, every color that the extraction returns is `#` followed by six hexadecimal digits, and
applying the extracted styles to a profile whose five colors are valid 3- or 6-digit hex
colors returns a profile whose five colors are valid again. -/
theorem pipeline_colors_wellformed (c : Converted)
    (hch : ∀ style ∈ c.styles, ∀ pre t r g b, style = pre ++ t → RgbNotation t r g b →
      digitsValue 10 r < 256 ∧ digitsValue 10 g < 256 ∧ digitsValue 10 b < 256) :
    (∀ w, ((extractStylesFromDocx c).colors.primary = some w
          ∨ (extractStylesFromDocx c).colors.secondary = some w
          ∨ (extractStylesFromDocx c).colors.accent = some w
          ∨ (extractStylesFromDocx c).colors.text = some w
          ∨ (extractStylesFromDocx c).colors.background = some w) → isHex6 w = true)
      ∧ ∀ (h : Heap) (p : Nat),
          ((h.colorsOf p).primary.isHexColor = true ∧ (h.colorsOf p).secondary.isHexColor = true
            ∧ (h.colorsOf p).accent.isHexColor = true ∧ (h.colorsOf p).text.isHexColor = true
            ∧ (h.colorsOf p).background.isHexColor = true) →
          (((applyExtractedStyles h p (extractStylesFromDocx c)).1.colorsOf
              (applyExtractedStyles h p (extractStylesFromDocx c)).2).primary.isHexColor = true
            ∧ ((applyExtractedStyles h p (extractStylesFromDocx c)).1.colorsOf
              (applyExtractedStyles h p (extractStylesFromDocx c)).2).secondary.isHexColor = true
            ∧ ((applyExtractedStyles h p (extractStylesFromDocx c)).1.colorsOf
              (applyExtractedStyles h p (extractStylesFromDocx c)).2).accent.isHexColor = true
            ∧ ((applyExtractedStyles h p (extractStylesFromDocx c)).1.colorsOf
              (applyExtractedStyles h p (extractStylesFromDocx c)).2).text.isHexColor = true
            ∧ ((applyExtractedStyles h p (extractStylesFromDocx c)).1.colorsOf
              (applyExtractedStyles h p (extractStylesFromDocx c)).2).background.isHexColor
                = true) := by
  have hall : ∀ w, ((extractStylesFromDocx c).colors.primary = some w
          ∨ (extractStylesFromDocx c).colors.secondary = some w
          ∨ (extractStylesFromDocx c).colors.accent = some w
          ∨ (extractStylesFromDocx c).colors.text = some w
          ∨ (extractStylesFromDocx c).colors.background = some w) → isHex6 w = true :=
    fun w hw => colorMatches_wellformed c.styles w hch (extracted_color_mem c w hw)
  refine ⟨hall, ?_⟩
  intro h p ⟨v1, v2, v3, v4, v5⟩
  obtain ⟨c1, c2, c3, c4, c5⟩ := applyExtractedStyles_color_fields h p (extractStylesFromDocx c)
  rw [c1, c2, c3, c4, c5]
  exact ⟨applied_color_valid _ _ v1 (fun w hw => hall w (Or.inl hw)),
    applied_color_valid _ _ v2 (fun w hw => hall w (Or.inr (Or.inl hw))),
    applied_color_valid _ _ v3 (fun w hw => hall w (Or.inr (Or.inr (Or.inl hw)))),
    applied_color_valid _ _ v4 (fun w hw => hall w (Or.inr (Or.inr (Or.inr (Or.inl hw))))),
    applied_color_valid _ _ v5 (fun w hw => hall w (Or.inr (Or.inr (Or.inr (Or.inr hw)))))⟩

set_option maxRecDepth 1000000 in
/-- An application of C20 to the document with black text on an `rgb(255,255,255)`
background: the colors extracted from it are well formed. -/
theorem pipeline_colors_wellformed_witness :
    (extractStylesFromDocx blackOnWhite).colors.text = some "#000000".toList
      ∧ isHex6 "#000000".toList = true
      ∧ (extractStylesFromDocx blackOnWhite).colors.primary = some "#FFFFFF".toList
      ∧ isHex6 "#FFFFFF".toList = true :=
  ⟨by decide,
    (pipeline_colors_wellformed blackOnWhite (rgb_channels_of_check _ (by decide))).1 _
      (Or.inr (Or.inr (Or.inr (Or.inl (by decide))))),
    by decide,
    (pipeline_colors_wellformed blackOnWhite (rgb_channels_of_check _ (by decide))).1 _
      (Or.inl (by decide))⟩

set_option maxRecDepth 1000000 in
/-- C20, counterexample: from the inline value `rgb(300,0,0)` the extraction returns the
primary color `#12C0000`, which has seven digits, and applying it to the default profile,
whose colors are valid, gives a profile whose primary color is not valid. -/
theorem rgb_overflow_not_wellformed :
    (extractStylesFromDocx rgbOverflow).colors.primary = some "#12C0000".toList
      ∧ isHex6 "#12C0000".toList = false
      ∧ (defaultHeap.colorsOf 0).primary.isHexColor = true
      ∧ ((applyExtractedStyles defaultHeap 0 (extractStylesFromDocx rgbOverflow)).1.colorsOf
          (applyExtractedStyles defaultHeap 0 (extractStylesFromDocx rgbOverflow)).2).primary
        = .str "#12C0000".toList
      ∧ ((applyExtractedStyles defaultHeap 0 (extractStylesFromDocx rgbOverflow)).1.colorsOf
          (applyExtractedStyles defaultHeap 0
            (extractStylesFromDocx rgbOverflow)).2).primary.isHexColor = false := by
  decide

/-! ## Duplicates, other properties and roles -/

set_option maxRecDepth 1000000 in
/-- C24, at the failing input: the color written `#abc` in one element and `#AABBCC` in
another gives two members of the set of colors, `#aabbcc` and `#AABBCC`, which become
`primary` and `secondary`; written `#aabbcc` or `rgb(170,187,204)` it is normalized to
`#AABBCC`. -/
theorem short_hex_not_collapsed :
    colorMatches shortAndLong.styles = [some "#aabbcc".toList, some "#AABBCC".toList]
      ∧ (extractStylesFromDocx shortAndLong).colors.primary = some "#aabbcc".toList
      ∧ (extractStylesFromDocx shortAndLong).colors.secondary = some "#AABBCC".toList
      ∧ normalizeColor "#aabbcc".toList = some "#AABBCC".toList
      ∧ normalizeColor "rgb(170,187,204)".toList = some "#AABBCC".toList := by
  decide

set_option maxRecDepth 1000000 in
/-- C25, at the failing input: from an element whose style is `border-color: #FF0000` the
pattern of the `color:` declarations matches the end of the property name, and `#FF0000`
is a member of the set of colors and becomes `primary`. -/
theorem border_color_is_collected :
    styleColors "border-color: #FF0000".toList = [some "#FF0000".toList]
      ∧ colorMatches borderOnly.styles = [some "#FF0000".toList]
      ∧ (extractStylesFromDocx borderOnly).colors.primary = some "#FF0000".toList := by
  decide

set_option maxRecDepth 1000000 in
/-- C26, at the failing input: with white before `#1A73E8`, the first candidate that is
neither black nor white is `#1A73E8`, which is also the first dark color, yet `primary` is
white and differs from `text`; with `#1A73E8` as the only color, `primary` and `text` are
both `#1A73E8`. -/
theorem white_primary_differs_from_text :
    colorMatches whiteThenBlue.styles = [some "#FFFFFF".toList, some "#1A73E8".toList]
      ∧ isColorDark (some "#FFFFFF".toList) = false
      ∧ isColorDark (some "#1A73E8".toList) = true
      ∧ (extractStylesFromDocx whiteThenBlue).colors.primary = some "#FFFFFF".toList
      ∧ (extractStylesFromDocx whiteThenBlue).colors.text = some "#1A73E8".toList
      ∧ (extractStylesFromDocx onlyBlue).colors.primary = some "#1A73E8".toList
      ∧ (extractStylesFromDocx onlyBlue).colors.text = some "#1A73E8".toList := by
  decide

/-! ## Order of the sizes, repeated application and the background -/

theorem sorted_getElem?_lt (l : List ℕ∞) (h : l.Sorted (· > ·)) (i j : Nat) (hij : i < j)
    (a b : ℕ∞) (hi : l[i]? = some a) (hj : l[j]? = some b) : b < a := by
  obtain ⟨hj1, hj2⟩ := List.getElem?_eq_some_iff.mp hj
  obtain ⟨hi1, hi2⟩ := List.getElem?_eq_some_iff.mp hi
  have := (List.pairwise_iff_getElem.mp h) i j hi1 hj1 hij
  rw [hi2, hj2] at this
  exact this

theorem getElem?_isSome_of_lt {α : Type} (l : List α) (i j : Nat) (hij : i ≤ j)
    (hj : l[j]? ≠ none) : l[i]? ≠ none := by
  intro hi
  rw [List.getElem?_eq_none_iff] at hi
  exact hj (List.getElem?_eq_none_iff.mpr (by omega))

/-- The sizes that the extraction returns, in terms of the sorted list of the sizes. -/
theorem extracted_sizes (c : Converted) :
    (extractStylesFromDocx c).typography.headingSizes.h1 = none
        ∧ (extractStylesFromDocx c).typography.headingSizes.h2 = none
        ∧ (extractStylesFromDocx c).typography.headingSizes.h3 = none
        ∧ (extractStylesFromDocx c).typography.bodySize = none
      ∨ (extractStylesFromDocx c).typography.headingSizes.h1 = (uniqueSizes c.styles)[0]?
        ∧ (extractStylesFromDocx c).typography.headingSizes.h2 = (uniqueSizes c.styles)[1]?
        ∧ (extractStylesFromDocx c).typography.headingSizes.h3 = (uniqueSizes c.styles)[2]?
        ∧ (extractStylesFromDocx c).typography.bodySize
          = (if 3 < (uniqueSizes c.styles).length then
              (uniqueSizes c.styles)[(uniqueSizes c.styles).length - 1]? else none) := by
  unfold extractStylesFromDocx
  cases c.html with
  | none => exact Or.inl ⟨rfl, rfl, rfl, rfl⟩
  | some html =>
    cases c.rawText with
    | none => exact Or.inl ⟨rfl, rfl, rfl, rfl⟩
    | some txt =>
      right
      simp only [assignStyles, emptyStyles]
      refine ⟨?_, ?_, ?_, trivial⟩
      · split_ifs with h0
        · rfl
        · exact (List.getElem?_eq_none_iff.mpr (by omega)).symm
      · split_ifs with h0
        · rfl
        · exact (List.getElem?_eq_none_iff.mpr (by omega)).symm
      · split_ifs with h0
        · rfl
        · exact (List.getElem?_eq_none_iff.mpr (by omega)).symm

/-- C27: the sizes that the extraction returns are strictly ordered wherever present, the
first heading size above the second, the second above the third, the third above the body
size; the second is present only if the first is, the third only if the second is, and the
body size only if the third is. -/
theorem sizes_strictly_ordered (c : Converted) :
    (∀ a b, (extractStylesFromDocx c).typography.headingSizes.h1 = some a →
        (extractStylesFromDocx c).typography.headingSizes.h2 = some b → b < a)
      ∧ (∀ a b, (extractStylesFromDocx c).typography.headingSizes.h2 = some a →
        (extractStylesFromDocx c).typography.headingSizes.h3 = some b → b < a)
      ∧ (∀ a b, (extractStylesFromDocx c).typography.headingSizes.h3 = some a →
        (extractStylesFromDocx c).typography.bodySize = some b → b < a)
      ∧ ((extractStylesFromDocx c).typography.headingSizes.h2 ≠ none →
        (extractStylesFromDocx c).typography.headingSizes.h1 ≠ none)
      ∧ ((extractStylesFromDocx c).typography.headingSizes.h3 ≠ none →
        (extractStylesFromDocx c).typography.headingSizes.h2 ≠ none)
      ∧ ((extractStylesFromDocx c).typography.bodySize ≠ none →
        (extractStylesFromDocx c).typography.headingSizes.h3 ≠ none) := by
  have hs : (uniqueSizes c.styles).Sorted (· > ·) := sortedUnique_sorted _
  rcases extracted_sizes c with ⟨e1, e2, e3, e4⟩ | ⟨e1, e2, e3, e4⟩
  · rw [e1, e2, e3, e4]
    simp
  · rw [e1, e2, e3, e4]
    refine ⟨fun a b ha hb => sorted_getElem?_lt _ hs 0 1 (by omega) a b ha hb,
      fun a b ha hb => sorted_getElem?_lt _ hs 1 2 (by omega) a b ha hb, ?_,
      getElem?_isSome_of_lt _ 0 1 (by omega), getElem?_isSome_of_lt _ 1 2 (by omega), ?_⟩
    · intro a b ha hb
      split_ifs at hb with h3
      exact sorted_getElem?_lt _ hs 2 _ (by omega) a b ha hb
    · intro hb
      split_ifs at hb with h3
      · exact fun h2 => by
          rw [List.getElem?_eq_none_iff] at h2
          omega
      · exact absurd rfl hb

set_option maxRecDepth 1000000 in
/-- An application of C27 to the document with six font sizes: the sizes 32, 24, 18 and 12
returned for it are strictly ordered. -/
theorem sizes_strictly_ordered_witness :
    ((24 : ℕ∞) < 32) ∧ ((18 : ℕ∞) < 24) ∧ ((12 : ℕ∞) < 18) :=
  ⟨(sizes_strictly_ordered sixSizes).1 32 24 (by decide) (by decide),
    (sizes_strictly_ordered sixSizes).2.1 24 18 (by decide) (by decide),
    (sizes_strictly_ordered sixSizes).2.2.1 18 12 (by decide) (by decide)⟩

theorem colorsObj_eq_of_fields (a b : ColorsObj) (h1 : a.primary = b.primary)
    (h2 : a.secondary = b.secondary) (h3 : a.accent = b.accent) (h4 : a.text = b.text)
    (h5 : a.background = b.background) : a = b := by
  cases a; cases b; simp_all

theorem sizesObj_eq_of_fields (a b : SizesObj) (h1 : a.h1 = b.h1) (h2 : a.h2 = b.h2)
    (h3 : a.h3 = b.h3) : a = b := by
  cases a; cases b; simp_all

theorem typographyObj_eq_of_fields (a b : TypographyObj) (h1 : a.headingFont = b.headingFont)
    (h2 : a.bodyFont = b.bodyFont) (h3 : a.headingSizes = b.headingSizes)
    (h4 : a.bodySize = b.bodySize) (h5 : a.headingWeight = b.headingWeight)
    (h6 : a.bodyWeight = b.bodyWeight) (h7 : a.lineHeight = b.lineHeight)
    (h8 : a.letterSpacing = b.letterSpacing) : a = b := by
  cases a; cases b; simp_all

/-- The typography of the returned profile has the heading sizes object of the input. -/
theorem applyExtractedStyles_headingSizes (h : Heap) (p : Nat) (e : ExtractedStyles) :
    ((applyExtractedStyles h p e).1.typographyOf (applyExtractedStyles h p e).2).headingSizes
      = (h.typographyOf p).headingSizes := by
  rw [applyExtractedStyles_typography]
  simp only []
  split_ifs <;> rfl

/-- C28: applying the same extracted styles a second time, to the profile that the first
application returned, returns a profile with the same property values, colors, typography
and heading sizes as the first application; and applying extracted styles whose fields are
all absent returns a profile with the values of the input profile. -/
theorem applyExtractedStyles_idempotent (h : Heap) (p : Nat) (e : ExtractedStyles) :
    ((applyExtractedStyles (applyExtractedStyles h p e).1 (applyExtractedStyles h p e).2 e).1.profiles
          (applyExtractedStyles (applyExtractedStyles h p e).1 (applyExtractedStyles h p e).2 e).2
        = (applyExtractedStyles h p e).1.profiles (applyExtractedStyles h p e).2
      ∧ (applyExtractedStyles (applyExtractedStyles h p e).1 (applyExtractedStyles h p e).2 e).1.colorsOf
          (applyExtractedStyles (applyExtractedStyles h p e).1 (applyExtractedStyles h p e).2 e).2
        = (applyExtractedStyles h p e).1.colorsOf (applyExtractedStyles h p e).2
      ∧ (applyExtractedStyles (applyExtractedStyles h p e).1
            (applyExtractedStyles h p e).2 e).1.typographyOf
          (applyExtractedStyles (applyExtractedStyles h p e).1 (applyExtractedStyles h p e).2 e).2
        = (applyExtractedStyles h p e).1.typographyOf (applyExtractedStyles h p e).2
      ∧ (applyExtractedStyles (applyExtractedStyles h p e).1 (applyExtractedStyles h p e).2 e).1.sizesOf
          (applyExtractedStyles (applyExtractedStyles h p e).1 (applyExtractedStyles h p e).2 e).2
        = (applyExtractedStyles h p e).1.sizesOf (applyExtractedStyles h p e).2)
      ∧ ∀ rawContent rawText : Option Str,
          (applyExtractedStyles h p ⟨⟨none, none, none, none, none⟩,
              ⟨none, none, ⟨none, none, none⟩, none⟩, rawContent, rawText⟩).1.profiles
            (applyExtractedStyles h p ⟨⟨none, none, none, none, none⟩,
              ⟨none, none, ⟨none, none, none⟩, none⟩, rawContent, rawText⟩).2 = h.profiles p
          ∧ (applyExtractedStyles h p ⟨⟨none, none, none, none, none⟩,
              ⟨none, none, ⟨none, none, none⟩, none⟩, rawContent, rawText⟩).1.colorsOf
            (applyExtractedStyles h p ⟨⟨none, none, none, none, none⟩,
              ⟨none, none, ⟨none, none, none⟩, none⟩, rawContent, rawText⟩).2 = h.colorsOf p
          ∧ (applyExtractedStyles h p ⟨⟨none, none, none, none, none⟩,
              ⟨none, none, ⟨none, none, none⟩, none⟩, rawContent, rawText⟩).1.typographyOf
            (applyExtractedStyles h p ⟨⟨none, none, none, none, none⟩,
              ⟨none, none, ⟨none, none, none⟩, none⟩, rawContent, rawText⟩).2
            = h.typographyOf p
          ∧ (applyExtractedStyles h p ⟨⟨none, none, none, none, none⟩,
              ⟨none, none, ⟨none, none, none⟩, none⟩, rawContent, rawText⟩).1.sizesOf
            (applyExtractedStyles h p ⟨⟨none, none, none, none, none⟩,
              ⟨none, none, ⟨none, none, none⟩, none⟩, rawContent, rawText⟩).2 = h.sizesOf p := by
  have key : ∀ (h : Heap) (p : Nat) (e : ExtractedStyles),
      (applyExtractedStyles h p e).1.profiles (applyExtractedStyles h p e).2 = h.profiles p := by
    intro h p e
    have hp := applyExtractedStyles_profiles h p e
    rw [hp.2, hp.1, upd_same]
  constructor
  · generalize hr : applyExtractedStyles h p e = r
    obtain ⟨c1, c2, c3, c4, c5⟩ := applyExtractedStyles_color_fields r.1 r.2 e
    obtain ⟨t1, t2, t3, t4, t5, t6, t7⟩ := applyExtractedStyles_typography_fields r.1 r.2 e
    obtain ⟨s1, s2, s3⟩ := applyExtractedStyles_size_fields r.1 r.2 e
    have t8 := applyExtractedStyles_headingSizes r.1 r.2 e
    obtain ⟨d1, d2, d3, d4, d5⟩ := applyExtractedStyles_color_fields h p e
    obtain ⟨u1, u2, u3, u4, u5, u6, u7⟩ := applyExtractedStyles_typography_fields h p e
    obtain ⟨v1, v2, v3⟩ := applyExtractedStyles_size_fields h p e
    rw [hr] at d1 d2 d3 d4 d5 u1 u2 u3 v1 v2 v3
    refine ⟨key _ _ _, colorsObj_eq_of_fields _ _ ?_ ?_ ?_ ?_ ?_,
      typographyObj_eq_of_fields _ _ ?_ ?_ t8 ?_ t4 t5 t6 t7,
      sizesObj_eq_of_fields _ _ ?_ ?_ ?_⟩
    · rw [c1, d1]; split_ifs <;> rfl
    · rw [c2, d2]; split_ifs <;> rfl
    · rw [c3, d3]; split_ifs <;> rfl
    · rw [c4, d4]; split_ifs <;> rfl
    · rw [c5, d5]; split_ifs <;> rfl
    · rw [t1, u1]; split_ifs <;> rfl
    · rw [t2, u2]; split_ifs <;> rfl
    · rw [t3, u3]; split_ifs <;> rfl
    · rw [s1, v1]; split_ifs <;> rfl
    · rw [s2, v2]; split_ifs <;> rfl
    · rw [s3, v3]; split_ifs <;> rfl
  · intro rc rt
    obtain ⟨a, b, c⟩ := applyExtractedStyles_nothing h p
      ⟨⟨none, none, none, none, none⟩, ⟨none, none, ⟨none, none, none⟩, none⟩, rc, rt⟩ rfl rfl
    have k := key h p
      ⟨⟨none, none, none, none, none⟩, ⟨none, none, ⟨none, none, none⟩, none⟩, rc, rt⟩
    refine ⟨k, ?_, ?_, ?_⟩
    · unfold Heap.colorsOf
      rw [k, a]
    · unfold Heap.typographyOf
      rw [k, b]
    · unfold Heap.sizesOf Heap.typographyOf
      rw [k, b, c]

/-- The first message of the summary is the one of the colors, with `colorCount`. -/
theorem getExtractionSummary_head (e : ExtractedStyles) (h : 0 < colorCount e) :
    (getExtractionSummary e).head?
      = some (countText (colorCount e) ++ " color(s) detected".toList) := by
  unfold colorCount at h
  simp only [] at h
  unfold getExtractionSummary colorCount
  simp only [h, if_true]
  split_ifs <;> simp_all

/-- C30: the extraction leaves the background absent; so the number of colors that the
summary of an extraction result reports is 4 at most, and applying an extraction result
leaves the background color of the profile as it was. -/
theorem background_never_extracted (c : Converted) :
    (extractStylesFromDocx c).colors.background = none
      ∧ colorCount (extractStylesFromDocx c) ≤ 4
      ∧ (0 < colorCount (extractStylesFromDocx c) →
          (getExtractionSummary (extractStylesFromDocx c)).head?
            = some (countText (colorCount (extractStylesFromDocx c))
                ++ " color(s) detected".toList))
      ∧ ∀ (h : Heap) (p : Nat),
          ((applyExtractedStyles h p (extractStylesFromDocx c)).1.colorsOf
              (applyExtractedStyles h p (extractStylesFromDocx c)).2).background
            = (h.colorsOf p).background := by
  have hb : (extractStylesFromDocx c).colors.background = none := by
    unfold extractStylesFromDocx
    cases c.html with
    | none => rfl
    | some html =>
      cases c.rawText with
      | none => rfl
      | some txt => rfl
  refine ⟨hb, ?_, getExtractionSummary_head _, ?_⟩
  · unfold colorCount
    simp only [hb]
    have h1 : ∀ (l : List (Option Str)), (l.filter truthyStr).length ≤ l.length :=
      fun l => List.length_filter_le _ _
    have h2 := h1 [(extractStylesFromDocx c).colors.primary,
      (extractStylesFromDocx c).colors.secondary, (extractStylesFromDocx c).colors.accent,
      (extractStylesFromDocx c).colors.text]
    have h3 : ∀ l : List (Option Str), (l ++ [none]).filter truthyStr = l.filter truthyStr := by
      intro l
      simp [List.filter_append, truthyStr]
    have h4 := h3 [(extractStylesFromDocx c).colors.primary,
      (extractStylesFromDocx c).colors.secondary, (extractStylesFromDocx c).colors.accent,
      (extractStylesFromDocx c).colors.text]
    simp only [List.cons_append, List.nil_append] at h4
    rw [h4]
    simpa using h2
  · intro h p
    rw [(applyExtractedStyles_color_fields h p _).2.2.2.2, hb]
    rfl

set_option maxRecDepth 1000000 in
/-- An application of C30 to the document with black text on a white background: its summary
reports two colors. -/
theorem background_never_extracted_witness :
    (getExtractionSummary (extractStylesFromDocx blackOnWhite)).head?
      = some "2 color(s) detected".toList :=
  ((background_never_extracted blackOnWhite).2.2.1 (by decide)).trans (by decide)

/-! ## The store of profiles -/

theorem getOwn_setProp (k key : Str) (v : Json) (ps : Props) :
    getOwn k (setProp key v ps) = if key = k then some v else getOwn k ps := by
  induction ps with
  | nil =>
    simp only [setProp, getOwn]
  | cons a rest ih =>
    obtain ⟨k1, v1⟩ := a
    by_cases h1 : k1 = key <;> by_cases h2 : key = k <;> by_cases h3 : k1 = k <;>
      simp_all [setProp, getOwn]

theorem getOwn_reparseProps (k : Str) (ps : Props) :
    getOwn k (reparseProps ps) = (getOwn k ps).map reparse := by
  induction ps with
  | nil => simp [reparseProps, getOwn]
  | cons a rest ih =>
    obtain ⟨k1, v1⟩ := a
    simp only [reparseProps, getOwn]
    split_ifs
    · rfl
    · exact ih

theorem strictEq_reparse (v : Option Json) (id : Str) :
    strictEq (v.map reparse) (some (.str id)) = strictEq v (some (.str id)) := by
  cases v with
  | none => rfl
  | some j =>
    cases j with
    | null => rfl
    | bool b => rfl
    | str s => rfl
    | arr xs => simp [reparse, strictEq]
    | obj ps => simp [reparse, strictEq]
    | num d =>
      cases d with
      | nan => rfl
      | num neg m =>
        cases m with
        | inf => cases neg <;> simp [reparse, strictEq]
        | fin q e =>
          cases neg <;> cases q <;> simp [reparse, strictEq]

theorem hasId_reparseProps (id : Str) (p : Props) :
    hasId (some (.str id)) (reparseProps p) = hasId (some (.str id)) p := by
  unfold hasId
  rw [getOwn_reparseProps, strictEq_reparse]

theorem find?_map_reparseProps (id : Str) (l : List Props) :
    (l.map reparseProps).find? (hasId (some (.str id)))
      = (l.find? (hasId (some (.str id)))).map reparseProps := by
  induction l with
  | nil => rfl
  | cons a rest ih =>
    simp only [List.map_cons, List.find?_cons, hasId_reparseProps]
    cases hasId (some (.str id)) a with
    | true => rfl
    | false => exact ih

theorem find?_set_findIndex {α : Type} (q : α → Bool) (x : α) (hx : q x = true) :
    ∀ (l : List α) (i : Nat), findIndex q l = some i → (l.set i x).find? q = some x := by
  intro l
  induction l with
  | nil => intro i h; simp [findIndex] at h
  | cons a rest ih =>
    intro i h
    simp only [findIndex] at h
    by_cases ha : q a = true
    · rw [if_pos ha] at h
      cases h
      simp [List.set, List.find?_cons, hx]
    · rw [if_neg ha] at h
      cases hr : findIndex q rest with
      | none => rw [hr] at h; cases h
      | some j =>
        rw [hr] at h
        cases h
        have ha' : q a = false := by simpa using ha
        simp only [List.set, List.find?_cons, ha']
        exact ih j hr

theorem find?_append_findIndex {α : Type} (q : α → Bool) (x : α) (hx : q x = true) :
    ∀ (l : List α), findIndex q l = none → (l ++ [x]).find? q = some x := by
  intro l
  induction l with
  | nil => intro _; simp [List.find?_cons, hx]
  | cons a rest ih =>
    intro h
    simp only [findIndex] at h
    by_cases ha : q a = true
    · rw [if_pos ha] at h; cases h
    · rw [if_neg ha] at h
      have ha' : q a = false := by simpa using ha
      have hr : findIndex q rest = none := by
        cases hf : findIndex q rest with
        | none => rfl
        | some j => rw [hf] at h; cases h
      simp only [List.cons_append, List.find?_cons, ha']
      exact ih hr

/-- After `saveProfile` of a profile whose id is the string `id`, `getProfile` of that id
finds what `JSON.parse` reads back for the profile as `saveProfile` left it. -/
theorem getProfile_saveProfile (t1 t2 : Str) (s : Store) (profile : Props) (id : Str)
    (hid : getOwn "id".toList profile = some (.str id)) :
    getProfile (saveProfile t1 t2 s profile).1 id
      = some (reparseProps (saveProfile t1 t2 s profile).2) := by
  have hq1 : hasId (some (.str id)) (setProp "updatedAt".toList (.str t1) profile) = true := by
    unfold hasId
    rw [getOwn_setProp, if_neg (by decide), hid]
    simp [strictEq]
  have hq2 : hasId (some (.str id))
      (setProp "createdAt".toList (.str t2) (setProp "updatedAt".toList (.str t1) profile))
        = true := by
    unfold hasId
    rw [getOwn_setProp, if_neg (by decide), getOwn_setProp, if_neg (by decide), hid]
    simp [strictEq]
  unfold getProfile saveProfile getAllProfiles
  simp only [hid]
  cases hi : findIndex (hasId (some (.str id))) s.profiles with
  | some i =>
    simp only [saveAllProfiles]
    rw [find?_map_reparseProps, find?_set_findIndex _ _ hq1 _ _ hi]
    rfl
  | none =>
    simp only [saveAllProfiles]
    rw [find?_map_reparseProps, find?_append_findIndex _ _ hq2 _ hi]
    rfl

theorem getOwn_saveProfile (t1 t2 : Str) (s : Store) (profile : Props) (k : Str)
    (h1 : "updatedAt".toList ≠ k) (h2 : "createdAt".toList ≠ k) :
    getOwn k (saveProfile t1 t2 s profile).2 = getOwn k profile := by
  unfold saveProfile
  simp only []
  cases findIndex (hasId (getOwn "id".toList profile)) (getAllProfiles s) with
  | some i =>
    simp only []
    rw [getOwn_setProp, if_neg h1]
  | none =>
    simp only []
    rw [getOwn_setProp, if_neg h2, getOwn_setProp, if_neg h1]

theorem getOwn_eq_none_of_not_mem (k : Str) (ps : Props) (h : k ∉ ps.map Prod.fst) :
    getOwn k ps = none := by
  induction ps with
  | nil => rfl
  | cons a rest ih =>
    obtain ⟨k1, v1⟩ := a
    simp only [List.map_cons, List.mem_cons, not_or] at h
    simp only [getOwn]
    rw [if_neg (fun e => h.1 e.symm)]
    exact ih h.2

theorem mem_keys_of_getOwn (k : Str) (v : Json) (ps : Props) (h : getOwn k ps = some v) :
    k ∈ ps.map Prod.fst := by
  by_contra hn
  rw [getOwn_eq_none_of_not_mem k ps hn] at h
  cases h

theorem keys_setProp (key : Str) (v : Json) (ps : Props) :
    (setProp key v ps).map Prod.fst
      = if key ∈ ps.map Prod.fst then ps.map Prod.fst else ps.map Prod.fst ++ [key] := by
  induction ps with
  | nil => simp [setProp]
  | cons a rest ih =>
    obtain ⟨k1, v1⟩ := a
    simp only [setProp]
    by_cases h1 : k1 = key
    · subst h1
      simp only [List.map_cons, List.mem_cons, true_or, if_true]
    · rw [if_neg h1]
      simp only [List.map_cons, ih, List.mem_cons]
      by_cases h2 : key ∈ rest.map Prod.fst
      · rw [if_pos h2, if_pos (Or.inr h2)]
      · have h3 : ¬ (key = k1 ∨ key ∈ rest.map Prod.fst) := by
          rintro (h | h)
          · exact h1 h.symm
          · exact h2 h
        rw [if_neg h2, if_neg h3]
        rfl

theorem nodup_setProp (key : Str) (v : Json) (ps : Props) (h : (ps.map Prod.fst).Nodup) :
    ((setProp key v ps).map Prod.fst).Nodup := by
  rw [keys_setProp]
  split_ifs with hm
  · exact h
  · exact List.Nodup.append h (List.nodup_singleton _) (List.disjoint_singleton.2 hm)

theorem mem_of_getOwn (k : Str) (v : Json) (ps : Props) (h : getOwn k ps = some v) :
    (k, v) ∈ ps := by
  induction ps with
  | nil => cases h
  | cons a rest ih =>
    obtain ⟨k1, v1⟩ := a
    simp only [getOwn] at h
    split_ifs at h with hk
    · cases h
      rw [hk]
      exact List.mem_cons_self _ _
    · exact List.mem_cons_of_mem _ (ih h)

/-- A check by evaluation that an object covers a default object. -/
theorem covers_of_check (d : Props) (groups : List Str) (g : Props)
    (h1 : (g.map Prod.fst).Nodup)
    (h2 : d.all (fun kv => (getOwn kv.1 g).isSome) = true)
    (h3 : getOwn "__proto__".toList g = none)
    (h4 : g.all (fun kv => match kv.2 with
      | .obj _ => groups.contains kv.1
      | _ => true) = true) : Covers d groups g := by
  refine ⟨h1, ?_, h3, ?_⟩
  · intro k hk
    cases hd : getOwn k d with
    | none => rw [hd] at hk; cases hk
    | some v => exact List.all_eq_true.mp h2 (k, v) (mem_of_getOwn k v d hd)
  · intro k ps hg
    have := List.all_eq_true.mp h4 (k, .obj ps) (mem_of_getOwn k _ g hg)
    simpa using this


theorem getOwn_of_mem (k : Str) (v : Json) (ps : Props) (hnd : (ps.map Prod.fst).Nodup)
    (h : (k, v) ∈ ps) : getOwn k ps = some v := by
  induction ps with
  | nil => cases h
  | cons a rest ih =>
    obtain ⟨k1, v1⟩ := a
    simp only [List.map_cons, List.nodup_cons] at hnd
    simp only [getOwn]
    rcases List.mem_cons.1 h with e | e
    · cases e
      rw [if_pos rfl]
    · have hk : k1 ≠ k := by
        rintro rfl
        exact hnd.1 (List.mem_map_of_mem Prod.fst e)
      rw [if_neg hk]
      exact ih hnd.2 e

theorem mergeInto_cons (target : Json) (result : Props) (key : Str) (v : Json) (rest : Props)
    (hk : key ≠ "__proto__".toList) :
    mergeInto target result ((key, v) :: rest)
      = (mergeVal target key v).bind
          (fun w => mergeInto target (setProp key w result) rest) := by
  cases v with
  | obj ps =>
    simp only [mergeInto, mergeVal, deepMerge, if_neg hk]
    cases target.get key with
    | none => rfl
    | some found =>
      simp only [Option.bind]
      cases mergeInto (orEmpty found) (spread (orEmpty found)) ps with
      | none => rfl
      | some merged => rfl
  | _ => simp only [mergeInto, mergeVal, if_neg hk, Option.bind]

theorem mergeInto_proto (target : Json) (result : Props) (v : Json) (rest : Props) :
    mergeInto target result (("__proto__".toList, v) :: rest) = none := by
  cases v <;> simp only [mergeInto, if_pos]

/-- The value of a property after the loop of `deepMerge`: the merged value of the property
of the source when the source has it, otherwise the value that the result had. -/
theorem getOwn_mergeInto (target : Json) (k : Str) :
    ∀ (source result out : Props), (source.map Prod.fst).Nodup →
      mergeInto target result source = some out →
      getOwn k out
        = match getOwn k source with
          | some v => mergeVal target k v
          | none => getOwn k result := by
  intro source
  induction source with
  | nil =>
    intro result out _ h
    simp only [mergeInto, Option.some.injEq] at h
    rw [← h]
    rfl
  | cons a rest ih =>
    intro result out hnd h
    obtain ⟨key, v⟩ := a
    simp only [List.map_cons, List.nodup_cons] at hnd
    by_cases hp : key = "__proto__".toList
    · rw [hp, mergeInto_proto] at h
      cases h
    · rw [mergeInto_cons _ _ _ _ _ hp] at h
      cases hm : mergeVal target key v with
      | none => rw [hm] at h; cases h
      | some w =>
        rw [hm] at h
        simp only [Option.bind] at h
        rw [ih _ _ hnd.2 h]
        simp only [getOwn]
        by_cases hk : key = k
        · subst hk
          rw [if_pos rfl, getOwn_eq_none_of_not_mem _ _ hnd.1]
          simp only []
          rw [getOwn_setProp, if_pos rfl, hm]
        · rw [if_neg hk]
          cases getOwn k rest with
          | some x => rfl
          | none =>
            simp only []
            rw [getOwn_setProp, if_neg hk]

/-- The loop of `deepMerge` gives a result when no property of the source is named
`__proto__` and each of them has a merged value. -/
theorem mergeInto_defined (target : Json) :
    ∀ (source result : Props),
      (∀ kv ∈ source, kv.1 ≠ "__proto__".toList ∧ (mergeVal target kv.1 kv.2).isSome = true) →
      ∃ out, mergeInto target result source = some out := by
  intro source
  induction source with
  | nil => intro result _; exact ⟨result, rfl⟩
  | cons a rest ih =>
    intro result h
    obtain ⟨key, v⟩ := a
    obtain ⟨hp, hv⟩ := h (key, v) (List.mem_cons_self _ _)
    obtain ⟨w, hw⟩ := Option.isSome_iff_exists.1 hv
    rw [mergeInto_cons _ _ _ _ _ hp, hw]
    exact ih _ (fun kv hkv => h kv (List.mem_cons_of_mem _ hkv))

theorem covers_no_proto (d : Props) (groups : List Str) (g : Props) (h : Covers d groups g)
    (k : Str) (v : Json) (hm : (k, v) ∈ g) : k ≠ "__proto__".toList := by
  intro e
  have := getOwn_of_mem k v g h.1 hm
  rw [e, h.2.2.1] at this
  cases this

/-- Merging a group that covers a default group without nested groups gives the fields of
the group. -/
theorem deepMerge_flat (d g : Props) (h : Covers d [] g) :
    ∃ out, deepMerge (.obj d) g = some out ∧ SameFields out g := by
  have hc := h
  obtain ⟨hnd, hall, -, hobj⟩ := h
  have hdef : ∃ out, mergeInto (.obj d) (spread (.obj d)) g = some out := by
    apply mergeInto_defined
    rintro ⟨k, v⟩ hm
    refine ⟨covers_no_proto d [] g hc k v hm, ?_⟩
    cases v with
    | obj ps => exact absurd (hobj k ps (getOwn_of_mem k _ g hnd hm)) (List.not_mem_nil _)
    | _ => rfl
  obtain ⟨out, hout⟩ := hdef
  refine ⟨out, hout, ?_⟩
  intro k
  rw [getOwn_mergeInto _ _ _ _ _ hnd hout]
  cases hg : getOwn k g with
  | some v =>
    simp only []
    cases v with
    | obj ps => exact absurd (hobj k ps hg) (List.not_mem_nil _)
    | _ => rfl
  | none =>
    simp only [spread]
    cases hd : getOwn k d with
    | none => rfl
    | some w =>
      have := hall k (by rw [hd]; rfl)
      rw [hg] at this
      cases this

/-- The merged value of a group that the target holds as an object. -/
theorem mergeVal_group (d dk ps x : Props) (k : Str) (hd : getOwn k d = some (.obj dk))
    (hx : deepMerge (.obj dk) ps = some x) :
    mergeVal (.obj d) k (.obj ps) = some (.obj x) := by
  simp only [mergeVal, Json.get, hd, Option.bind, orEmpty, truthy, if_true, Option.getD_some,
    hx, Option.map]

/-- Merging a group that covers a default group with one nested group gives the fields of
the group, the nested group being merged in its turn. -/
theorem deepMerge_nested (d g dn gn : Props) (n : Str) (h : Covers d [n] g)
    (hd : getOwn n d = some (.obj dn)) (hg : getOwn n g = some (.obj gn))
    (hn : Covers dn [] gn) :
    ∃ out, deepMerge (.obj d) g = some out ∧ SameFieldsNested n out g := by
  have hc := h
  obtain ⟨hnd, hall, -, hobj⟩ := h
  obtain ⟨x, hx, hsame⟩ := deepMerge_flat dn gn hn
  have hdef : ∃ out, mergeInto (.obj d) (spread (.obj d)) g = some out := by
    apply mergeInto_defined
    rintro ⟨k, v⟩ hm
    refine ⟨covers_no_proto d [n] g hc k v hm, ?_⟩
    cases v with
    | obj ps =>
      have hgk := getOwn_of_mem k _ g hnd hm
      have hk : k = n := by simpa using hobj k ps hgk
      subst hk
      rw [hg] at hgk
      cases hgk
      show (mergeVal (.obj d) k (.obj gn)).isSome = true
      rw [mergeVal_group d dn gn x k hd hx]
      rfl
    | _ => rfl
  obtain ⟨out, hout⟩ := hdef
  refine ⟨out, hout, ?_, ?_⟩
  · intro k hk
    rw [getOwn_mergeInto _ _ _ _ _ hnd hout]
    cases hgk : getOwn k g with
    | some v =>
      simp only []
      cases v with
      | obj ps =>
        have := hobj k ps hgk
        simp only [List.mem_singleton] at this
        exact absurd this hk
      | _ => rfl
    | none =>
      simp only [spread]
      cases hdk : getOwn k d with
      | none => rfl
      | some w =>
        have := hall k (by rw [hdk]; rfl)
        rw [hgk] at this
        cases this
  · refine ⟨x, gn, ?_, hg, hsame⟩
    rw [getOwn_mergeInto _ _ _ _ _ hnd hout, hg]
    exact mergeVal_group d dn gn x n hd hx

theorem within_cons (target : Json) (key : Str) (v : Json) (rest : Props) :
    within target ((key, v) :: rest)
      = (!decide (key ∈ inheritedNames)
        && (match v with
          | .obj ps =>
            (match target with
            | .obj d =>
              (match orEmpty (getOwn key d) with
              | .obj dk => within (.obj dk) ps
              | _ => false)
            | _ => false)
          | _ => true)
        && within target rest) := by
  cases v <;> rfl

theorem get_of_not_inherited (d : Props) (key : Str) (hk : key ∉ inheritedNames) :
    (Json.obj d).get key = some (getOwn key d) := by
  simp only [Json.get]
  cases getOwn key d with
  | none => simp only [if_neg hk]
  | some v => rfl

/-- The loop of `deepMerge` gives a result for a source that stays within the shape of the
target. -/
theorem within_defined : ∀ (n : Nat) (source : Props), sizeOf source ≤ n →
    ∀ (target : Json) (result : Props), within target source = true →
      ∃ out, mergeInto target result source = some out := by
  intro n
  induction n with
  | zero =>
    intro source hs
    cases source with
    | nil => simp at hs
    | cons a rest => simp at hs
  | succ n ih =>
    intro source hs target result hw
    cases source with
    | nil => exact ⟨result, rfl⟩
    | cons a rest =>
      obtain ⟨key, v⟩ := a
      rw [within_cons] at hw
      simp only [Bool.and_eq_true, Bool.not_eq_true', decide_eq_false_iff_not] at hw
      obtain ⟨⟨hk, hv⟩, hrest⟩ := hw
      have hp : key ≠ "__proto__".toList := by
        intro e
        apply hk
        rw [e]
        decide
      simp only [List.cons.sizeOf_spec, Prod.mk.sizeOf_spec] at hs
      have hsr : sizeOf rest ≤ n := by omega
      rw [mergeInto_cons _ _ _ _ _ hp]
      suffices hsuf : ∃ w, mergeVal target key v = some w by
        obtain ⟨w, hw⟩ := hsuf
        rw [hw]
        exact ih rest hsr target _ hrest
      cases v with
      | obj ps =>
        simp only [Json.obj.sizeOf_spec] at hs
        cases target with
        | obj d =>
          simp only [] at hv
          cases ho : orEmpty (getOwn key d) with
          | obj dk =>
            rw [ho] at hv
            simp only [] at hv
            obtain ⟨m, hm⟩ := ih ps (by omega) (.obj dk) (spread (.obj dk)) hv
            refine ⟨.obj m, ?_⟩
            simp only [mergeVal, get_of_not_inherited d key hk, Option.bind, ho, deepMerge, hm,
              Option.map]
          | _ => rw [ho] at hv; cases hv
        | _ => cases hv
      | _ => exact ⟨_, rfl⟩

theorem within_setProp (target : Json) (key : Str) (t : Str) (hk : key ∉ inheritedNames) :
    ∀ ps : Props, within target ps = true → within target (setProp key (.str t) ps) = true := by
  intro ps
  induction ps with
  | nil =>
    intro _
    simp only [setProp]
    rw [within_cons]
    simp only [Bool.and_eq_true, Bool.not_eq_true', decide_eq_false_iff_not]
    exact ⟨⟨hk, trivial⟩, rfl⟩
  | cons a rest ih =>
    intro h
    obtain ⟨k1, v1⟩ := a
    rw [within_cons] at h
    simp only [Bool.and_eq_true, Bool.not_eq_true', decide_eq_false_iff_not] at h
    simp only [setProp]
    by_cases h1 : k1 = key
    · rw [if_pos h1, within_cons]
      simp only [Bool.and_eq_true, Bool.not_eq_true', decide_eq_false_iff_not]
      exact ⟨⟨h.1.1, trivial⟩, h.2⟩
    · rw [if_neg h1, within_cons]
      simp only [Bool.and_eq_true, Bool.not_eq_true', decide_eq_false_iff_not]
      exact ⟨h.1, ih h.2⟩

/-- C21, amended: whenever the call is one that the embedding follows, `importProfile` returns
a profile, whose name is the imported name as a string followed by ` (Imported)` and whose id
is the freshly generated one, and stores it, if the parsed value is an object with truthy
`name`, `colors` and `typography` whose name can be converted to a string, and in every other
case it returns `null` and leaves the store as it was. The embedding follows the call (the
second part) for every text that cannot be parsed, every value that is rejected, and every
object that stays within the shape of the default profile. -/
theorem importProfile_outcome (env : Env) (s : Store) (parsed : Option Json) :
    (∀ out, importProfile env s parsed = some out →
        (∀ profile nameText, parsed = some (.obj profile) →
          truthy (getOwn "name".toList profile) = true →
          truthy (getOwn "colors".toList profile) = true →
          truthy (getOwn "typography".toList profile) = true →
          ((getOwn "name".toList profile).getD .null).toStr env.numText = some nameText →
          ∃ r, out.1 = some r
            ∧ getOwn "name".toList r = some (.str (nameText ++ " (Imported)".toList))
            ∧ getOwn "id".toList r = some (.str env.newId)
            ∧ getProfile out.2 env.newId = some (reparseProps r))
        ∧ ((¬ ∃ profile nameText, parsed = some (.obj profile)
              ∧ truthy (getOwn "name".toList profile) = true
              ∧ truthy (getOwn "colors".toList profile) = true
              ∧ truthy (getOwn "typography".toList profile) = true
              ∧ ((getOwn "name".toList profile).getD .null).toStr env.numText
                  = some nameText) →
            out = (none, s)))
      ∧ ((∀ profile, parsed = some (.obj profile) →
            truthy (getOwn "name".toList profile) = true →
            truthy (getOwn "colors".toList profile) = true →
            truthy (getOwn "typography".toList profile) = true →
            within (.obj (createDefaultProfile env.defaultId "New Brand".toList (env.time 2)
              (env.time 3))) profile = true) →
          ∃ out, importProfile env s parsed = some out) := by
  have hname : ∀ profile : Props,
      getOwn "name".toList (setProp "updatedAt".toList (.str (env.time 1))
        (setProp "createdAt".toList (.str (env.time 0))
          (setProp "id".toList (.str env.newId) profile))) = getOwn "name".toList profile := by
    intro profile
    rw [getOwn_setProp, if_neg (by decide), getOwn_setProp, if_neg (by decide), getOwn_setProp,
      if_neg (by decide)]
  have hid : ∀ profile : Props,
      getOwn "id".toList (setProp "updatedAt".toList (.str (env.time 1))
        (setProp "createdAt".toList (.str (env.time 0))
          (setProp "id".toList (.str env.newId) profile))) = some (.str env.newId) := by
    intro profile
    rw [getOwn_setProp, if_neg (by decide), getOwn_setProp, if_neg (by decide), getOwn_setProp,
      if_pos rfl]
  refine ⟨fun out hout => ⟨?_, ?_⟩, ?_⟩
  · intro profile nameText hp h1 h2 h3 h4
    subst hp
    simp only [importProfile, h1, h2, h3, Bool.not_true, Bool.or_self, Bool.false_eq_true,
      if_false, hname, hid, h4, Option.getD_some] at hout
    cases hm : deepMerge (.obj (createDefaultProfile env.defaultId "New Brand".toList
        (env.time 2) (env.time 3)))
        (setProp "updatedAt".toList (.str (env.time 1))
          (setProp "createdAt".toList (.str (env.time 0))
            (setProp "id".toList (.str env.newId) profile))) with
    | none => rw [hm] at hout; cases hout
    | some merged =>
      rw [hm] at hout
      simp only [Option.some.injEq] at hout
      rw [← hout]
      refine ⟨_, rfl, ?_, ?_, ?_⟩
      · rw [getOwn_saveProfile _ _ _ _ _ (by decide) (by decide), getOwn_setProp, if_pos rfl]
      · rw [getOwn_saveProfile _ _ _ _ _ (by decide) (by decide), getOwn_setProp,
          if_neg (by decide), getOwn_setProp, if_pos rfl]
      · apply getProfile_saveProfile
        rw [getOwn_setProp, if_neg (by decide), getOwn_setProp, if_pos rfl]
  · intro hno
    cases parsed with
    | none =>
      simp only [importProfile, Option.some.injEq] at hout
      exact hout.symm
    | some j =>
      cases j with
      | obj profile =>
        simp only [importProfile] at hout
        by_cases h1 : truthy (getOwn "name".toList profile) = true
        · by_cases h2 : truthy (getOwn "colors".toList profile) = true
          · by_cases h3 : truthy (getOwn "typography".toList profile) = true
            · simp only [h1, h2, h3, Bool.not_true, Bool.or_self, Bool.false_eq_true, if_false,
                hname] at hout
              cases hm : deepMerge (.obj (createDefaultProfile env.defaultId "New Brand".toList
                  (env.time 2) (env.time 3)))
                  (setProp "updatedAt".toList (.str (env.time 1))
                    (setProp "createdAt".toList (.str (env.time 0))
                      (setProp "id".toList (.str env.newId) profile))) with
              | none => rw [hm] at hout; cases hout
              | some merged =>
                rw [hm] at hout
                cases h4 : ((getOwn "name".toList profile).getD .null).toStr env.numText with
                | none =>
                  rw [h4] at hout
                  simp only [Option.some.injEq] at hout
                  exact hout.symm
                | some nameText => exact absurd ⟨profile, nameText, rfl, h1, h2, h3, h4⟩ hno
            · rw [Bool.not_eq_true] at h3
              simp only [h3, Bool.not_false, Bool.or_true, if_true, Option.some.injEq] at hout
              exact hout.symm
          · rw [Bool.not_eq_true] at h2
            simp only [h2, Bool.not_false, Bool.or_true, Bool.true_or, if_true,
              Option.some.injEq] at hout
            exact hout.symm
        · rw [Bool.not_eq_true] at h1
          simp only [h1, Bool.not_false, Bool.true_or, if_true, Option.some.injEq] at hout
          exact hout.symm
      | _ =>
        simp only [importProfile, Option.some.injEq] at hout
        exact hout.symm
  · intro hw
    cases parsed with
    | none => exact ⟨_, rfl⟩
    | some j =>
      cases j with
      | obj profile =>
        simp only [importProfile]
        by_cases h1 : truthy (getOwn "name".toList profile) = true
        · by_cases h2 : truthy (getOwn "colors".toList profile) = true
          · by_cases h3 : truthy (getOwn "typography".toList profile) = true
            · simp only [h1, h2, h3, Bool.not_true, Bool.or_self, Bool.false_eq_true, if_false]
              have hin := within_setProp _ "updatedAt".toList (env.time 1) (by decide) _
                (within_setProp _ "createdAt".toList (env.time 0) (by decide) _
                  (within_setProp _ "id".toList env.newId (by decide) _
                    (hw profile rfl h1 h2 h3)))
              obtain ⟨merged, hm⟩ := within_defined _ _ (le_refl _) _
                (spread (.obj (createDefaultProfile env.defaultId "New Brand".toList
                  (env.time 2) (env.time 3)))) hin
              unfold deepMerge
              rw [hm]
              simp only []
              cases ((getOwn "name".toList (setProp "updatedAt".toList (.str (env.time 1))
                (setProp "createdAt".toList (.str (env.time 0))
                  (setProp "id".toList (.str env.newId) profile)))).getD .null).toStr
                  env.numText with
              | none => exact ⟨_, rfl⟩
              | some nameText => exact ⟨_, rfl⟩
            · rw [Bool.not_eq_true] at h3
              simp only [h3, Bool.not_false, Bool.or_true, if_true]
              exact ⟨_, rfl⟩
          · rw [Bool.not_eq_true] at h2
            simp only [h2, Bool.not_false, Bool.or_true, Bool.true_or, if_true]
            exact ⟨_, rfl⟩
        · rw [Bool.not_eq_true] at h1
          simp only [h1, Bool.not_false, Bool.true_or, if_true]
          exact ⟨_, rfl⟩
      | _ => exact ⟨_, rfl⟩

set_option maxRecDepth 100000 in
/-- An application of C21 to the value of the text
`{"name":"x","colors":{},"typography":{"headingSizes":{"h1":40}},"extra":{"a":{}}}`, which
stays within the shape of the default profile, imported into the empty store: the call is
followed and returns a stored profile named `x (Imported)` with the fresh id. -/
theorem importProfile_outcome_witness :
    ∃ out r, importProfile sampleEnv emptyStore (some nestedProfile) = some out
      ∧ out.1 = some r
      ∧ getOwn "name".toList r = some (.str "x (Imported)".toList)
      ∧ getOwn "id".toList r = some (.str "profile_2".toList)
      ∧ getProfile out.2 "profile_2".toList = some (reparseProps r) := by
  obtain ⟨out, hout⟩ := (importProfile_outcome sampleEnv emptyStore (some nestedProfile)).2
    (fun profile hp _ _ _ => Json.obj.inj (Option.some.inj hp) ▸ rfl)
  obtain ⟨r, h1, h2, h3, h4⟩ :=
    ((importProfile_outcome sampleEnv emptyStore (some nestedProfile)).1 out hout).1 _
      "x".toList rfl rfl rfl rfl rfl
  exact ⟨out, r, hout, h1, h2, h3, h4⟩

/-- C21, counterexample: the value of the text
`{"name":{"toString":0},"colors":{},"typography":{}}` has a truthy name, colors and
typography, yet `importProfile` returns `null` and stores nothing, since the name cannot be
converted to a string. -/
theorem importProfile_rejects_unprintable_name :
    (∃ profile, unprintableName = .obj profile
        ∧ truthy (getOwn "name".toList profile) = true
        ∧ truthy (getOwn "colors".toList profile) = true
        ∧ truthy (getOwn "typography".toList profile) = true)
      ∧ importProfile sampleEnv emptyStore (some unprintableName) = some (none, emptyStore) :=
  ⟨⟨_, rfl, rfl, rfl, rfl⟩, rfl⟩

/-- For the value of the text
`{"name":"x","colors":{},"typography":{},"constructor":{"caller":{}}}` the merge reads
`defaultProfile.constructor`, which the default profile inherits: the embedding does not
follow the call and no statement about `importProfile` covers it. -/
theorem importProfile_inherited_read :
    importProfile sampleEnv emptyStore
      (some (.obj [("name".toList, .str "x".toList), ("colors".toList, .obj []),
        ("typography".toList, .obj []),
        ("constructor".toList, .obj [("caller".toList, .obj [])])])) = none :=
  rfl

/-- C22, at the failing input: for the value of the text
`{"name":"x","colors":"red","typography":{},"logo":null}` the profile returned has the string
`red` as its colors and `null` as its logo; its typography, its header and footer and the
other groups are filled from the default profile. -/
theorem importProfile_keeps_non_objects :
    ∃ out r, importProfile sampleEnv emptyStore (some looseProfile) = some out
      ∧ out.1 = some r
      ∧ getOwn "colors".toList r = some (.str "red".toList)
      ∧ getOwn "logo".toList r = some .null
      ∧ getOwn "typography".toList r
        = getOwn "typography".toList (createDefaultProfile [] [] [] [])
      ∧ getOwn "headerFooter".toList r
        = getOwn "headerFooter".toList (createDefaultProfile [] [] [] []) :=
  ⟨_, _, rfl, rfl, rfl, rfl, rfl, rfl⟩

/-- C23, at the failing input: deleting the active profile `a` from a store that holds the
profiles `a` and `b` leaves `b` stored and makes `b` the active profile, instead of leaving
no active profile. -/
theorem deleteProfile_activates_next :
    twoProfiles.active = some "a".toList
      ∧ (deleteProfile sampleEnv.numText twoProfiles "a".toList).map (fun s => s.active)
        = some (some "b".toList)
      ∧ (deleteProfile sampleEnv.numText twoProfiles "a".toList).map (fun s => s.profiles)
        = some [[("id".toList, .str "b".toList), ("name".toList, .str "B".toList)]] :=
  ⟨rfl, rfl, rfl⟩

/-! ## The round trip of export and import -/

/-- A group of the profile that `importProfile` builds: the group of the source merged into
the group of the default profile. -/
theorem imported_group (t0 t1 t4 t5 newId name : Str) (x : Json) (s : Store)
    (d top merged : Props) (K : Str) (g : Props) (hnd : (top.map Prod.fst).Nodup)
    (h1 : "updatedAt".toList ≠ K) (h2 : "createdAt".toList ≠ K) (h3 : "name".toList ≠ K)
    (h4 : "id".toList ≠ K) (hg : getOwn K top = some (.obj g))
    (hm : deepMerge (.obj d)
      (setProp "updatedAt".toList (.str t1) (setProp "createdAt".toList (.str t0)
        (setProp "id".toList (.str newId) top))) = some merged) :
    getOwn K (saveProfile t4 t5 s (setProp "name".toList (.str name)
        (setProp "id".toList x merged))).2
      = mergeVal (.obj d) K (.obj g) := by
  have hnd3 := nodup_setProp "updatedAt".toList (.str t1) _
    (nodup_setProp "createdAt".toList (.str t0) _
      (nodup_setProp "id".toList (.str newId) _ hnd))
  rw [getOwn_saveProfile _ _ _ _ _ h1 h2, getOwn_setProp, if_neg h3, getOwn_setProp, if_neg h4]
  unfold deepMerge at hm
  rw [getOwn_mergeInto _ _ _ _ _ hnd3 hm, getOwn_setProp, if_neg h1, getOwn_setProp, if_neg h2,
    getOwn_setProp, if_neg h4, hg]

/-- The merge of a profile of the full default structure into a default profile gives a
result, once the merges of its groups do. -/
theorem fullStructure_defined (a b c e t0 t1 newId : Str) (top : Props)
    (hcov : Covers defaults ["colors".toList, "typography".toList, "logo".toList,
      "headerFooter".toList, "watermark".toList, "layout".toList] top)
    (hgroups : ∀ K ∈ ["colors".toList, "typography".toList, "logo".toList,
        "headerFooter".toList, "watermark".toList, "layout".toList],
      ∀ ps, getOwn K top = some (.obj ps) →
        (mergeVal (.obj (createDefaultProfile a b c e)) K (.obj ps)).isSome = true) :
    ∃ merged, deepMerge (.obj (createDefaultProfile a b c e))
      (setProp "updatedAt".toList (.str t1) (setProp "createdAt".toList (.str t0)
        (setProp "id".toList (.str newId) top))) = some merged := by
  obtain ⟨hnd, -, hproto, hobj⟩ := hcov
  have hnd3 := nodup_setProp "updatedAt".toList (.str t1) _
    (nodup_setProp "createdAt".toList (.str t0) _
      (nodup_setProp "id".toList (.str newId) _ hnd))
  unfold deepMerge
  apply mergeInto_defined
  rintro ⟨k, v⟩ hmem
  have hget := getOwn_of_mem k v _ hnd3 hmem
  rw [getOwn_setProp, getOwn_setProp, getOwn_setProp] at hget
  constructor
  · intro hk
    simp only [] at hk
    rw [hk, if_neg (by decide), if_neg (by decide), if_neg (by decide), hproto] at hget
    cases hget
  · cases v with
    | obj ps =>
      split_ifs at hget with e1 e2 e3
      · cases hget
      · cases hget
      · cases hget
      · exact hgroups k (hobj k ps hget) ps hget
    | _ => rfl

/-- C29, amended: for a stored profile whose exported value has the full default structure
and a truthy name that can be converted to a string, importing the exported value returns a
profile with the name followed by ` (Imported)`, the fresh id, and the same fields with the
same values in colors, typography, logo, header and footer, watermark and layout. -/
theorem export_import_round_trip (env : Env) (s : Store) (id : Str) (top : Props)
    (nameText : Str) (hv : exportProfile s id = some (.obj top)) (hfull : FullStructure top)
    (hname : truthy (getOwn "name".toList top) = true)
    (hstr : ((getOwn "name".toList top).getD .null).toStr env.numText = some nameText) :
    ∃ out r, importProfile env s (exportProfile s id) = some out
      ∧ out.1 = some r
      ∧ getOwn "name".toList r = some (.str (nameText ++ " (Imported)".toList))
      ∧ getOwn "id".toList r = some (.str env.newId)
      ∧ SameFields (group r "colors".toList) (group top "colors".toList)
      ∧ SameFieldsNested "headingSizes".toList (group r "typography".toList)
          (group top "typography".toList)
      ∧ SameFields (group r "logo".toList) (group top "logo".toList)
      ∧ SameFields (group r "headerFooter".toList) (group top "headerFooter".toList)
      ∧ SameFields (group r "watermark".toList) (group top "watermark".toList)
      ∧ SameFieldsNested "margins".toList (group r "layout".toList)
          (group top "layout".toList) := by
  obtain ⟨hcov, ⟨gc, hc, cc⟩, ⟨gt, gh, ht, ct, hh, ch⟩, ⟨gl, hl, cl⟩, ⟨gf, hf, cf⟩,
    ⟨gw, hw, cw⟩, ⟨gy, gm, hy, cy, hm, cm⟩⟩ := hfull
  have hnd := hcov.1
  have hcol : truthy (getOwn "colors".toList top) = true := by rw [hc]; rfl
  have htyp : truthy (getOwn "typography".toList top) = true := by rw [ht]; rfl
  have hname3 : getOwn "name".toList (setProp "updatedAt".toList (.str (env.time 1))
        (setProp "createdAt".toList (.str (env.time 0))
          (setProp "id".toList (.str env.newId) top))) = getOwn "name".toList top := by
    rw [getOwn_setProp, if_neg (by decide), getOwn_setProp, if_neg (by decide), getOwn_setProp,
      if_neg (by decide)]
  obtain ⟨xc, hxc, sc⟩ := deepMerge_flat _ _ cc
  obtain ⟨xt, hxt, st⟩ := deepMerge_nested _ _ _ _ _ ct rfl hh ch
  obtain ⟨xl, hxl, sl⟩ := deepMerge_flat _ _ cl
  obtain ⟨xf, hxf, sf⟩ := deepMerge_flat _ _ cf
  obtain ⟨xw, hxw, sw⟩ := deepMerge_flat _ _ cw
  obtain ⟨xy, hxy, sy⟩ := deepMerge_nested _ _ _ _ _ cy rfl hm cm
  have vc := mergeVal_group (createDefaultProfile env.defaultId "New Brand".toList (env.time 2)
    (env.time 3)) _ gc xc "colors".toList rfl hxc
  have vt := mergeVal_group (createDefaultProfile env.defaultId "New Brand".toList (env.time 2)
    (env.time 3)) _ gt xt "typography".toList rfl hxt
  have vl := mergeVal_group (createDefaultProfile env.defaultId "New Brand".toList (env.time 2)
    (env.time 3)) _ gl xl "logo".toList rfl hxl
  have vf := mergeVal_group (createDefaultProfile env.defaultId "New Brand".toList (env.time 2)
    (env.time 3)) _ gf xf "headerFooter".toList rfl hxf
  have vw := mergeVal_group (createDefaultProfile env.defaultId "New Brand".toList (env.time 2)
    (env.time 3)) _ gw xw "watermark".toList rfl hxw
  have vy := mergeVal_group (createDefaultProfile env.defaultId "New Brand".toList (env.time 2)
    (env.time 3)) _ gy xy "layout".toList rfl hxy
  obtain ⟨merged, hmerged⟩ := fullStructure_defined env.defaultId "New Brand".toList
    (env.time 2) (env.time 3) (env.time 0) (env.time 1) env.newId top hcov (by
      intro K hK ps hps
      simp only [List.mem_cons, List.mem_singleton, List.not_mem_nil, or_false] at hK
      rcases hK with rfl | rfl | rfl | rfl | rfl | rfl
      · rw [hc] at hps; cases hps; rw [vc]; rfl
      · rw [ht] at hps; cases hps; rw [vt]; rfl
      · rw [hl] at hps; cases hps; rw [vl]; rfl
      · rw [hf] at hps; cases hps; rw [vf]; rfl
      · rw [hw] at hps; cases hps; rw [vw]; rfl
      · rw [hy] at hps; cases hps; rw [vy]; rfl)
  rw [hv]
  simp only [importProfile, hname, hcol, htyp, Bool.not_true, Bool.or_self, Bool.false_eq_true,
    if_false, hname3, hstr, hmerged]
  refine ⟨_, _, rfl, rfl, ?_, ?_, ?_, ?_, ?_, ?_, ?_, ?_⟩
  · rw [getOwn_saveProfile _ _ _ _ _ (by decide) (by decide), getOwn_setProp, if_pos rfl]
  · rw [getOwn_saveProfile _ _ _ _ _ (by decide) (by decide), getOwn_setProp,
      if_neg (by decide), getOwn_setProp, if_pos rfl, getOwn_setProp, if_neg (by decide),
      getOwn_setProp, if_neg (by decide), getOwn_setProp, if_pos rfl]
    rfl
  · unfold group
    rw [imported_group _ _ _ _ _ _ _ _ _ _ _ _ _ hnd (by decide) (by decide) (by decide)
      (by decide) hc hmerged, hc, vc]
    exact sc
  · unfold group
    rw [imported_group _ _ _ _ _ _ _ _ _ _ _ _ _ hnd (by decide) (by decide) (by decide)
      (by decide) ht hmerged, ht, vt]
    exact st
  · unfold group
    rw [imported_group _ _ _ _ _ _ _ _ _ _ _ _ _ hnd (by decide) (by decide) (by decide)
      (by decide) hl hmerged, hl, vl]
    exact sl
  · unfold group
    rw [imported_group _ _ _ _ _ _ _ _ _ _ _ _ _ hnd (by decide) (by decide) (by decide)
      (by decide) hf hmerged, hf, vf]
    exact sf
  · unfold group
    rw [imported_group _ _ _ _ _ _ _ _ _ _ _ _ _ hnd (by decide) (by decide) (by decide)
      (by decide) hw hmerged, hw, vw]
    exact sw
  · unfold group
    rw [imported_group _ _ _ _ _ _ _ _ _ _ _ _ _ hnd (by decide) (by decide) (by decide)
      (by decide) hy hmerged, hy, vy]
    exact sy

set_option maxRecDepth 100000 in
/-- An application of C29 to a stored profile as `createDefaultProfile` builds it, with the
name `A`: its colors come back as they were. -/
theorem export_import_round_trip_witness :
    ∃ out r, importProfile sampleEnv (storedDefault "A".toList)
          (exportProfile (storedDefault "A".toList) "profile_1".toList) = some out
      ∧ out.1 = some r
      ∧ getOwn "name".toList r = some (.str "A (Imported)".toList)
      ∧ SameFields (group r "colors".toList) (group defaults "colors".toList) := by
  obtain ⟨out, r, h0, h1, h2, -, h3, -⟩ := export_import_round_trip sampleEnv
    (storedDefault "A".toList)
    "profile_1".toList (reparseProps (createDefaultProfile "profile_1".toList "A".toList
      "2024-01-01T00:00:00.000Z".toList "2024-01-01T00:00:00.000Z".toList)) "A".toList rfl
    ⟨covers_of_check _ _ _ (by decide) rfl rfl rfl,
      ⟨_, rfl, covers_of_check _ _ _ (by decide) rfl rfl rfl⟩,
      ⟨_, _, rfl, covers_of_check _ _ _ (by decide) rfl rfl rfl, rfl,
        covers_of_check _ _ _ (by decide) rfl rfl rfl⟩,
      ⟨_, rfl, covers_of_check _ _ _ (by decide) rfl rfl rfl⟩,
      ⟨_, rfl, covers_of_check _ _ _ (by decide) rfl rfl rfl⟩,
      ⟨_, rfl, covers_of_check _ _ _ (by decide) rfl rfl rfl⟩,
      ⟨_, _, rfl, covers_of_check _ _ _ (by decide) rfl rfl rfl, rfl,
        covers_of_check _ _ _ (by decide) rfl rfl rfl⟩⟩ rfl rfl
  exact ⟨out, r, h0, h1, h2, h3⟩

set_option maxRecDepth 100000 in
/-- C29, counterexample: a stored profile as `createDefaultProfile` builds it, with the
empty name, has the full default structure, yet importing its exported value returns `null`;
and for a stored profile whose primary color is an empty object, the profile imported has a
primary color with the seven characters of the default color as its properties. -/
theorem export_import_fails :
    FullStructure (reparseProps (createDefaultProfile "profile_1".toList []
        "2024-01-01T00:00:00.000Z".toList "2024-01-01T00:00:00.000Z".toList))
      ∧ exportProfile (storedDefault []) "profile_1".toList
        = some (.obj (reparseProps (createDefaultProfile "profile_1".toList []
            "2024-01-01T00:00:00.000Z".toList "2024-01-01T00:00:00.000Z".toList)))
      ∧ (importProfile sampleEnv (storedDefault [])
          (exportProfile (storedDefault []) "profile_1".toList)).map Prod.fst = some none
      ∧ (exportProfile storedObjectColor "profile_1".toList).map
          (fun v => getOwn "primary".toList (group (propsOf (some v)) "colors".toList))
        = some (some (.obj []))
      ∧ (importProfile sampleEnv storedObjectColor
          (exportProfile storedObjectColor "profile_1".toList)).map
          (fun out => out.1.map (fun r => getOwn "primary".toList (group r "colors".toList)))
        = some (some (some (.obj (spread (.str "#1a73e8".toList))))) :=
  ⟨⟨covers_of_check _ _ _ (by decide) rfl rfl rfl,
      ⟨_, rfl, covers_of_check _ _ _ (by decide) rfl rfl rfl⟩,
      ⟨_, _, rfl, covers_of_check _ _ _ (by decide) rfl rfl rfl, rfl,
        covers_of_check _ _ _ (by decide) rfl rfl rfl⟩,
      ⟨_, rfl, covers_of_check _ _ _ (by decide) rfl rfl rfl⟩,
      ⟨_, rfl, covers_of_check _ _ _ (by decide) rfl rfl rfl⟩,
      ⟨_, rfl, covers_of_check _ _ _ (by decide) rfl rfl rfl⟩,
      ⟨_, _, rfl, covers_of_check _ _ _ (by decide) rfl rfl rfl, rfl,
        covers_of_check _ _ _ (by decide) rfl rfl rfl⟩⟩, rfl, rfl, rfl, rfl⟩

end TemplateParser
